import Mathlib

/-!
Buffer manager (`buf.C`): shallow embedding and verified properties.

The development embeds `BufMgr` of `buf.C` as pure state-passing functions.

* The frame descriptor table and the frame pool are total functions on frame
  numbers; only the indices below `numBufs` are frames of the pool.
* `File*` values are natural numbers, `NULL` is `0`.
* `pinCnt` is an `int`: the increment `pinCnt++` of `readPage` wraps around in
  two's complement (`wrapInt`), which is what the compiled code does on the
  signed overflow that the language leaves undefined.  The only decrement is
  guarded by `pinCnt > 0` and cannot overflow.
* Page numbers and the statistics counters are mathematical integers; the
  counters are only ever observed through single increments.
* The Page Store (class `File`) and the Page Index (class `BufHashTbl`) are
  collaborators whose code is not part of `buf.C`; they are modelled from
  their interface.  The status each Page Store call returns is supplied by an
  `Oracle`, one per public call, so that every pattern of I/O success and
  failure is covered.
-/

set_option linter.unusedTactic false
set_option linter.unreachableTactic false
set_option linter.unnecessarySeqFocus false
set_option linter.unusedVariables false

namespace BufMgrModel

/-! ## The model of `buf.C` -/

/-- Status codes.  The first eight are the ones `buf.C` names; `OTHER c`
stands for any further code a Page Store call may hand back. -/
inductive Status where
  | OK
  | UNIXERR
  | HASHTBLERROR
  | HASHNOTFOUND
  | BUFFEREXCEEDED
  | PAGENOTPINNED
  | PAGEPINNED
  | BADBUFFER
  | OTHER (code : Nat)
  deriving DecidableEq, Repr

/-- A `File*` value, compared by pointer identity. -/
abbrev FilePtr := Nat

/-- The null `File*`. -/
def NULL : FilePtr := 0

/-- Content of one page-sized block, opaque to the manager; `0` is the block
that `memset(bufPool, 0, ...)` produces. -/
abbrev Page := Nat

/-- Modelled from the spec: the frame descriptor `BufDesc` (declared in the
header, which is not part of `buf.C`), with the fields `buf.C` reads and
writes: owning file, page number, frame number, pin count, dirty flag, valid
flag and reference bit. -/
structure BufDesc where
  file : FilePtr
  pageNo : Int
  frameNo : Int
  pinCnt : Int
  dirty : Bool
  valid : Bool
  refbit : Bool
  deriving DecidableEq, Repr

/-- Modelled from the spec: `BufDesc::Clear()`, the reset to the cleared state
(no owning file, page number -1, pin count 0, all flags false).  The frame
number is kept. -/
def BufDesc.Clear (d : BufDesc) : BufDesc :=
  { d with pinCnt := 0, file := NULL, pageNo := -1, dirty := false, refbit := false, valid := false }

/-- Modelled from the spec: `BufDesc::Set(file, pageNo)`, the fetch-miss
initialisation; the comment in `readPage` reads
"pinCnt = 1, refbit = true, valid = true" and the spec adds `dirty = false`. -/
def BufDesc.Set (d : BufDesc) (filePtr : FilePtr) (pageNum : Int) : BufDesc :=
  { d with file := filePtr, pageNo := pageNum, pinCnt := 1, dirty := false, refbit := true,
           valid := true }

/-- Usage statistics `bufStats`. -/
structure BufStats where
  accesses : Int
  diskreads : Int
  diskwrites : Int
  deriving DecidableEq, Repr

/-- One call issued to a Page Store, in the order of issue. -/
inductive StoreCall where
  | writePage (file : FilePtr) (pageNo : Int) (content : Page)
  | readPage (file : FilePtr) (pageNo : Int)
  | allocatePage (file : FilePtr)
  | disposePage (file : FilePtr) (pageNo : Int)
  deriving DecidableEq, Repr

/-- What the Page Stores answer during one public call: the status of the
`writePage` issued for the frame with a given number (every call of `buf.C`
writes a frame at most once), of the `readPage`, of the `allocatePage` together
with the page number it hands out, and of the `disposePage`. -/
structure Oracle where
  write : Nat → Status
  read : Status
  alloc : Status
  newPage : Int
  dispose : Status

/-- The buffer manager together with the state of its collaborators.
`hashTable` is the Page Index, a partial map from (file, page number) to a
frame number, so a key carries at most one entry.  `disk` is the content of
the Page Stores and `log` the list of calls issued to them so far. -/
structure BufMgr where
  numBufs : Nat
  bufTable : Nat → BufDesc
  bufPool : Nat → Page
  hashTable : FilePtr → Int → Option Nat
  clockHand : Nat
  bufStats : BufStats
  disk : FilePtr → Int → Page
  log : List StoreCall

/-- Overwrite the descriptor of frame `i`. -/
def BufMgr.setDesc (s : BufMgr) (i : Nat) (d : BufDesc) : BufMgr :=
  { s with bufTable := fun j => if j = i then d else s.bufTable j }

/-- Overwrite the buffer of frame `i`. -/
def BufMgr.setPage (s : BufMgr) (i : Nat) (c : Page) : BufMgr :=
  { s with bufPool := fun j => if j = i then c else s.bufPool j }

/-- Modelled from the spec: Page Index `lookup`, `OK` with the frame number or
`HASHNOTFOUND`. -/
def BufMgr.htLookup (s : BufMgr) (file : FilePtr) (pageNo : Int) : Status × Nat :=
  match s.hashTable file pageNo with
  | some frameNo => (Status.OK, frameNo)
  | none => (Status.HASHNOTFOUND, 0)

/-- Modelled from the spec: Page Index `insert`, which fails with
`HASHTBLERROR` on a key that is already present. -/
def BufMgr.htInsert (s : BufMgr) (file : FilePtr) (pageNo : Int) (frameNo : Nat) :
    Status × BufMgr :=
  match s.hashTable file pageNo with
  | some _ => (Status.HASHTBLERROR, s)
  | none =>
    (Status.OK,
      { s with hashTable := fun f p => if f = file ∧ p = pageNo then some frameNo
                                       else s.hashTable f p })

/-- Modelled from the spec: Page Index `remove`, which fails with
`HASHTBLERROR` on a key that is absent. -/
def BufMgr.htRemove (s : BufMgr) (file : FilePtr) (pageNo : Int) : Status × BufMgr :=
  match s.hashTable file pageNo with
  | none => (Status.HASHTBLERROR, s)
  | some _ =>
    (Status.OK,
      { s with hashTable := fun f p => if f = file ∧ p = pageNo then none else s.hashTable f p })

/-- Modelled from the spec: Page Store `writePage(pageNo, buffer)`.  The call is
logged; when it succeeds the stored page takes the buffer content, when it
fails the stored page is left as it was. -/
def BufMgr.fileWritePage (s : BufMgr) (st : Status) (file : FilePtr) (pageNo : Int)
    (content : Page) : Status × BufMgr :=
  let s1 := { s with log := s.log ++ [StoreCall.writePage file pageNo content] }
  if st = Status.OK then
    (st, { s1 with disk := fun f p => if f = file ∧ p = pageNo then content else s.disk f p })
  else (st, s1)

/-- Modelled from the spec: Page Store `readPage(pageNo, bufferOut)` into frame
`frameNo`.  The call is logged; when it succeeds the frame buffer takes the
stored page, when it fails the buffer is left as it was. -/
def BufMgr.fileReadPage (s : BufMgr) (st : Status) (file : FilePtr) (pageNo : Int)
    (frameNo : Nat) : Status × BufMgr :=
  let s1 := { s with log := s.log ++ [StoreCall.readPage file pageNo] }
  if st = Status.OK then (st, s1.setPage frameNo (s.disk file pageNo)) else (st, s1)

/-- Modelled from the spec: Page Store `allocatePage()`, which allocates disk
space and hands out a page number without touching the pool. -/
def BufMgr.fileAllocatePage (s : BufMgr) (st : Status) (file : FilePtr) : Status × BufMgr :=
  (st, { s with log := s.log ++ [StoreCall.allocatePage file] })

/-- Modelled from the spec: Page Store `disposePage(pageNo)`, which releases
disk space. -/
def BufMgr.fileDisposePage (s : BufMgr) (st : Status) (file : FilePtr) (pageNo : Int) :
    Status × BufMgr :=
  (st, { s with log := s.log ++ [StoreCall.disposePage file pageNo] })

/-- The descriptor every frame has after `memset(bufTable, 0, ...)` and the
constructor loop (`frameNo = i`, `valid = false`). -/
def initDesc (i : Nat) : BufDesc :=
  { file := NULL, pageNo := 0, frameNo := i, pinCnt := 0, dirty := false, valid := false,
    refbit := false }

/-- Constructor `BufMgr::BufMgr(bufs)` for `bufs ≥ 1`, on Page Stores with content `disk`:
zeroed descriptors and buffers, empty Page Index, zeroed statistics and the
clock hand on the last frame. -/
def BufMgr.new (bufs : Nat) (disk : FilePtr → Int → Page) : BufMgr :=
  { numBufs := bufs
    bufTable := initDesc
    bufPool := fun _ => 0
    hashTable := fun _ _ => none
    clockHand := bufs - 1
    bufStats := { accesses := 0, diskreads := 0, diskwrites := 0 }
    disk := disk
    log := [] }

/-- Modelled from the spec: `advanceClock()`; the comment in `allocBuf` reads
"clockHand = (clockHand + 1) % numBufs". -/
def BufMgr.advanceClock (s : BufMgr) : BufMgr :=
  { s with clockHand := (s.clockHand + 1) % s.numBufs }

/-- The part of the `allocBuf` loop body that handles a replaceable frame (the
frame under the clock hand, unpinned and with a clear reference bit): write
back when valid and dirty, remove the Page Index entry when valid, clear the
descriptor and return the frame number. -/
def BufMgr.allocBufVictim (s : BufMgr) (o : Oracle) : Status × Option Nat × BufMgr :=
  let desc := s.bufTable s.clockHand
  if desc.valid then
    let w : Status × BufMgr :=
      if desc.dirty then
        let w := s.fileWritePage (o.write s.clockHand) desc.file desc.pageNo
          (s.bufPool s.clockHand)
        if w.1 ≠ Status.OK then w
        else
          let s1 := w.2.setDesc s.clockHand { desc with dirty := false }
          (Status.OK, { s1 with bufStats := { s1.bufStats with
                          diskwrites := s1.bufStats.diskwrites + 1 } })
      else (Status.OK, s)
    if w.1 ≠ Status.OK then (Status.UNIXERR, none, w.2)
    else
      let r := w.2.htRemove desc.file desc.pageNo
      if r.1 ≠ Status.OK then (Status.HASHTBLERROR, none, r.2)
      else
        (Status.OK, some s.clockHand, r.2.setDesc s.clockHand (r.2.bufTable s.clockHand).Clear)
  else
    (Status.OK, some s.clockHand, s.setDesc s.clockHand (s.bufTable s.clockHand).Clear)

/-- The `do ... while (clockHand != startClockHand)` loop of `allocBuf`.  One
unit of fuel is one iteration; `none` means the fuel ran out. -/
def BufMgr.allocBufLoop (o : Oracle) (startClockHand : Nat) :
    Nat → BufMgr → Option (Status × Option Nat × BufMgr)
  | 0, _ => none
  | fuel + 1, s =>
    let s1 := s.advanceClock
    let desc := s1.bufTable s1.clockHand
    if desc.pinCnt > 0 then
      if s1.clockHand ≠ startClockHand then BufMgr.allocBufLoop o startClockHand fuel s1
      else some (Status.BUFFEREXCEEDED, none, s1)
    else if desc.refbit then
      let s2 := s1.setDesc s1.clockHand { desc with refbit := false }
      if s2.clockHand ≠ startClockHand then BufMgr.allocBufLoop o startClockHand fuel s2
      else some (Status.BUFFEREXCEEDED, none, s2)
    else some (s1.allocBufVictim o)

/-- Method `BufMgr::allocBuf`.  The sweep gets `2 * numBufs` iterations: a sweep that
starts with the hand inside the pool ends within `numBufs` of them, and one
that has not returned after `2 * numBufs` never returns (every reference bit
of an unpinned frame is cleared by then).  `none` also covers `numBufs = 0`,
where `advanceClock` divides by zero. -/
def BufMgr.allocBuf (s : BufMgr) (o : Oracle) : Option (Status × Option Nat × BufMgr) :=
  BufMgr.allocBufLoop o s.clockHand (2 * s.numBufs) s

/-- The value an `int` holds when the mathematical result of an operation is
`x`: two's complement wrap-around into the 32-bit range. -/
def wrapInt (x : Int) : Int := (x + 2147483648) % 4294967296 - 2147483648

/-- Method `BufMgr::readPage`.  The page pointer handed back is the number of the
frame whose buffer it points to.  The `pinCnt++` of the hit is an `int`
increment. -/
def BufMgr.readPage (s : BufMgr) (o : Oracle) (file : FilePtr) (PageNo : Int) :
    Option (Status × Option Nat × BufMgr) :=
  let l := s.htLookup file PageNo
  if l.1 = Status.OK then
    let frameNo := l.2
    let desc := s.bufTable frameNo
    let s1 := s.setDesc frameNo { desc with refbit := true, pinCnt := wrapInt (desc.pinCnt + 1) }
    some (Status.OK, some frameNo,
      { s1 with bufStats := { s1.bufStats with accesses := s1.bufStats.accesses + 1 } })
  else if l.1 = Status.HASHNOTFOUND then
    match s.allocBuf o with
    | none => none
    | some (Status.OK, some frameNo, s1) =>
      let r := s1.fileReadPage o.read file PageNo frameNo
      if r.1 ≠ Status.OK then some (Status.UNIXERR, none, r.2)
      else
        let i := r.2.htInsert file PageNo frameNo
        if i.1 ≠ Status.OK then some (Status.HASHTBLERROR, none, i.2)
        else
          let s2 := i.2.setDesc frameNo ((i.2.bufTable frameNo).Set file PageNo)
          some (Status.OK, some frameNo,
            { s2 with bufStats := { s2.bufStats with
                accesses := s2.bufStats.accesses + 1
                diskreads := s2.bufStats.diskreads + 1 } })
    | some (status, _, s1) => some (status, none, s1)
  else some (Status.HASHTBLERROR, none, s)

/-- Method `BufMgr::unPinPage`. -/
def BufMgr.unPinPage (s : BufMgr) (file : FilePtr) (PageNo : Int) (dirty : Bool) :
    Status × BufMgr :=
  let l := s.htLookup file PageNo
  if l.1 ≠ Status.OK then (Status.HASHNOTFOUND, s)
  else
    let frameNo := l.2
    let desc := s.bufTable frameNo
    if desc.pinCnt ≤ 0 then (Status.PAGENOTPINNED, s)
    else
      let desc1 := { desc with pinCnt := desc.pinCnt - 1 }
      let desc2 := if dirty then { desc1 with dirty := true } else desc1
      (Status.OK, s.setDesc frameNo desc2)

/-- Method `BufMgr::allocPage`.  The first output is the page number (set as soon as
`allocatePage` succeeded), the second the frame of the page pointer. -/
def BufMgr.allocPage (s : BufMgr) (o : Oracle) (file : FilePtr) :
    Option (Status × Option Int × Option Nat × BufMgr) :=
  let a := s.fileAllocatePage o.alloc file
  if a.1 ≠ Status.OK then some (Status.UNIXERR, none, none, a.2)
  else
    let PageNo := o.newPage
    match a.2.allocBuf o with
    | none => none
    | some (Status.OK, some frameNo, s1) =>
      let i := s1.htInsert file PageNo frameNo
      if i.1 ≠ Status.OK then some (Status.HASHTBLERROR, some PageNo, none, i.2)
      else
        let s2 := i.2.setDesc frameNo ((i.2.bufTable frameNo).Set file PageNo)
        some (Status.OK, some PageNo, some frameNo,
          { s2 with bufStats := { s2.bufStats with
              accesses := s2.bufStats.accesses + 1
              diskreads := s2.bufStats.diskreads + 1 } })
    | some (status, _, s1) => some (status, some PageNo, none, s1)

/-- Method `BufMgr::disposePage`. -/
def BufMgr.disposePage (s : BufMgr) (o : Oracle) (file : FilePtr) (pageNo : Int) :
    Status × BufMgr :=
  let l := s.htLookup file pageNo
  let s1 := if l.1 = Status.OK then s.setDesc l.2 (s.bufTable l.2).Clear else s
  let r := s1.htRemove file pageNo
  r.2.fileDisposePage o.dispose file pageNo

/-- The body of the `flushFile` loop for frame `i`: `none` when the loop goes
on to the next frame, `some status` when the body returns. -/
def BufMgr.flushFrame (s : BufMgr) (o : Oracle) (file : FilePtr) (i : Nat) :
    Option Status × BufMgr :=
  let tmpbuf := s.bufTable i
  if tmpbuf.valid = true ∧ tmpbuf.file = file then
    if tmpbuf.pinCnt > 0 then (some Status.PAGEPINNED, s)
    else
      let w : Status × BufMgr :=
        if tmpbuf.dirty = true then
          let w := s.fileWritePage (o.write i) tmpbuf.file tmpbuf.pageNo (s.bufPool i)
          if w.1 ≠ Status.OK then w
          else (Status.OK, w.2.setDesc i { tmpbuf with dirty := false })
        else (Status.OK, s)
      if w.1 ≠ Status.OK then (some w.1, w.2)
      else
        let r := w.2.htRemove file (w.2.bufTable i).pageNo
        (none, r.2.setDesc i { r.2.bufTable i with file := NULL, pageNo := -1, valid := false })
  else if tmpbuf.valid = false ∧ tmpbuf.file = file then (some Status.BADBUFFER, s)
  else (none, s)

/-- The `for (i = ...; i < numBufs; i++)` loop of `flushFile`, with `n` frames
left to visit starting at frame `i`. -/
def BufMgr.flushLoop (o : Oracle) (file : FilePtr) : Nat → Nat → BufMgr → Status × BufMgr
  | 0, _, s => (Status.OK, s)
  | n + 1, i, s =>
    match s.flushFrame o file i with
    | (some status, s1) => (status, s1)
    | (none, s1) => BufMgr.flushLoop o file n (i + 1) s1

/-- Method `BufMgr::flushFile`. -/
def BufMgr.flushFile (s : BufMgr) (o : Oracle) (file : FilePtr) : Status × BufMgr :=
  BufMgr.flushLoop o file s.numBufs 0 s

/-- The flush loop of `BufMgr::~BufMgr`, with `n` frames left to visit
starting at frame `i`; the status of each `writePage` is dropped. -/
def BufMgr.destroyLoop (o : Oracle) : Nat → Nat → BufMgr → BufMgr
  | 0, _, s => s
  | n + 1, i, s =>
    let tmpbuf := s.bufTable i
    if tmpbuf.valid = true ∧ tmpbuf.dirty = true then
      BufMgr.destroyLoop o n (i + 1)
        (s.fileWritePage (o.write i) tmpbuf.file tmpbuf.pageNo (s.bufPool i)).2
    else BufMgr.destroyLoop o n (i + 1) s

/-- Destructor `BufMgr::~BufMgr`: the state of the Page Stores after the final flush. -/
def BufMgr.destroy (s : BufMgr) (o : Oracle) : BufMgr :=
  BufMgr.destroyLoop o s.numBufs 0 s

/-- States reachable from the constructor by the public operations, under
every behaviour of the Page Stores.  `readPage`, `allocPage` and `disposePage`
dereference `file`, so they are called with a non-null file.  `writeBuf` is a
client storing into a frame buffer through a page pointer. -/
inductive Reachable : BufMgr → Prop where
  | init (bufs : Nat) (disk : FilePtr → Int → Page) (h : 1 ≤ bufs) :
      Reachable (BufMgr.new bufs disk)
  | readPage {s s1 : BufMgr} (o : Oracle) (file : FilePtr) (PageNo : Int) (st : Status)
      (pg : Option Nat) (hs : Reachable s) (hf : file ≠ NULL)
      (h : s.readPage o file PageNo = some (st, pg, s1)) : Reachable s1
  | unPinPage {s : BufMgr} (file : FilePtr) (PageNo : Int) (dirty : Bool)
      (hs : Reachable s) : Reachable (s.unPinPage file PageNo dirty).2
  | allocPage {s s1 : BufMgr} (o : Oracle) (file : FilePtr) (st : Status)
      (pn : Option Int) (pg : Option Nat) (hs : Reachable s) (hf : file ≠ NULL)
      (h : s.allocPage o file = some (st, pn, pg, s1)) : Reachable s1
  | disposePage {s : BufMgr} (o : Oracle) (file : FilePtr) (pageNo : Int)
      (hs : Reachable s) (hf : file ≠ NULL) : Reachable (s.disposePage o file pageNo).2
  | flushFile {s : BufMgr} (o : Oracle) (file : FilePtr)
      (hs : Reachable s) : Reachable (s.flushFile o file).2
  | writeBuf {s : BufMgr} (frameNo : Nat) (content : Page)
      (hs : Reachable s) : Reachable (s.setPage frameNo content)

/-! ### Predicates describing the clock sweep and the eviction -/

/-- Relation `Swept s t`: `t` is `s` after some iterations of the `allocBuf` loop that
all skipped their frame.  Only the clock hand has moved and reference bits of
unpinned frames have been cleared. -/
structure Swept (s t : BufMgr) : Prop where
  numBufs : t.numBufs = s.numBufs
  bufPool : t.bufPool = s.bufPool
  hashTable : t.hashTable = s.hashTable
  bufStats : t.bufStats = s.bufStats
  disk : t.disk = s.disk
  log : t.log = s.log
  table : ∀ i, t.bufTable i = s.bufTable i ∨
    (i < s.numBufs ∧ ¬ (s.bufTable i).pinCnt > 0 ∧
      t.bufTable i = { s.bufTable i with refbit := false })

/-- The Page Index of `t` without the entry of the frame under the hand. -/
def BufMgr.indexWithoutHand (t : BufMgr) : FilePtr → Int → Option Nat :=
  fun f p =>
    if f = (t.bufTable t.clockHand).file ∧ p = (t.bufTable t.clockHand).pageNo then none
    else t.hashTable f p

/-- The Page Store content of `t` after the buffer under the hand was written. -/
def BufMgr.diskWithHand (t : BufMgr) : FilePtr → Int → Page :=
  fun f p =>
    if f = (t.bufTable t.clockHand).file ∧ p = (t.bufTable t.clockHand).pageNo then
      t.bufPool t.clockHand
    else t.disk f p

/-- The `writePage` call for the frame under the hand. -/
def BufMgr.writeOfHand (t : BufMgr) : StoreCall :=
  StoreCall.writePage (t.bufTable t.clockHand).file (t.bufTable t.clockHand).pageNo
    (t.bufPool t.clockHand)

/-- What a successful eviction of the frame under the hand of `t` leaves. -/
structure Evicted (t : BufMgr) (o : Oracle) (r : BufMgr) : Prop where
  numBufs : r.numBufs = t.numBufs
  bufPool : r.bufPool = t.bufPool
  clockHand : r.clockHand = t.clockHand
  hand : r.bufTable t.clockHand = (t.bufTable t.clockHand).Clear
  other : ∀ i, i ≠ t.clockHand → r.bufTable i = t.bufTable i
  index : r.hashTable = if (t.bufTable t.clockHand).valid = true then t.indexWithoutHand
    else t.hashTable
  key : (t.bufTable t.clockHand).valid = true →
    ∃ k, t.hashTable (t.bufTable t.clockHand).file (t.bufTable t.clockHand).pageNo = some k
  written : (t.bufTable t.clockHand).valid = true → (t.bufTable t.clockHand).dirty = true →
    o.write t.clockHand = Status.OK ∧ r.log = t.log ++ [t.writeOfHand] ∧
      r.disk = t.diskWithHand ∧
      r.bufStats = { t.bufStats with diskwrites := t.bufStats.diskwrites + 1 }
  untouched : ¬ ((t.bufTable t.clockHand).valid = true ∧ (t.bufTable t.clockHand).dirty = true) →
    r.log = t.log ∧ r.disk = t.disk ∧ r.bufStats = t.bufStats

/-- What a failed handling of the frame under the hand of `t` leaves: either
the write-back failed, or the Page Index had no entry for the frame. -/
structure EvictFailed (t : BufMgr) (o : Oracle) (st : Status) (r : BufMgr) : Prop where
  numBufs : r.numBufs = t.numBufs
  bufPool : r.bufPool = t.bufPool
  clockHand : r.clockHand = t.clockHand
  other : ∀ i, i ≠ t.clockHand → r.bufTable i = t.bufTable i
  hand : r.bufTable t.clockHand = t.bufTable t.clockHand ∨
    r.bufTable t.clockHand = { t.bufTable t.clockHand with dirty := false }
  index : r.hashTable = t.hashTable
  valid : (t.bufTable t.clockHand).valid = true
  cause : (st = Status.UNIXERR ∧ (t.bufTable t.clockHand).dirty = true ∧
        o.write t.clockHand ≠ Status.OK ∧ r.bufTable = t.bufTable ∧
        r.log = t.log ++ [t.writeOfHand] ∧ r.disk = t.disk ∧ r.bufStats = t.bufStats) ∨
      (st = Status.HASHTBLERROR ∧
        t.hashTable (t.bufTable t.clockHand).file (t.bufTable t.clockHand).pageNo = none)

/-- A frame the sweep takes as victim: not pinned and reference bit clear. -/
def BufDesc.replaceable (d : BufDesc) : Prop := ¬ d.pinCnt > 0 ∧ d.refbit = false

instance (d : BufDesc) : Decidable d.replaceable := by
  unfold BufDesc.replaceable
  exact inferInstance

/-- Relation `SweptTo s t n`: `t` is `s` after the sweep skipped the `n` frames that
follow the hand of `s` in cyclic order.  None of them was replaceable, the
unpinned ones have lost their reference bit and no other descriptor changed. -/
structure SweptTo (s t : BufMgr) (n : Nat) : Prop where
  swept : Swept s t
  skipped : ∀ j, 1 ≤ j → j ≤ n →
    ¬ (s.bufTable ((s.clockHand + j) % s.numBufs)).replaceable ∧
    (¬ (s.bufTable ((s.clockHand + j) % s.numBufs)).pinCnt > 0 →
      (t.bufTable ((s.clockHand + j) % s.numBufs)).refbit = false)
  rest : ∀ i, (∀ j, 1 ≤ j → j ≤ n → i ≠ (s.clockHand + j) % s.numBufs) →
    t.bufTable i = s.bufTable i

/-- The outcome of a sweep that has `r` frames left before it is back at
`start`: it skips the frames up to the first replaceable one and handles that
one, or it skips all `r` frames and gives up. -/
def SweepOutcome (o : Oracle) (start r fuel : Nat) (s : BufMgr) : Prop :=
  (∃ k t, k < r ∧ SweptTo s t k ∧ t.clockHand = (s.clockHand + (k + 1)) % s.numBufs ∧
      (s.bufTable t.clockHand).replaceable ∧ t.bufTable t.clockHand = s.bufTable t.clockHand ∧
      BufMgr.allocBufLoop o start fuel s = some (t.allocBufVictim o)) ∨
  (∃ t, SweptTo s t r ∧ t.clockHand = start ∧
      BufMgr.allocBufLoop o start fuel s = some (Status.BUFFEREXCEEDED, none, t))

/-! ### Example states -/

/-- The state carried by a result, `d` when there is none. -/
def stateOf {α : Type} (r : Option (Status × α × BufMgr)) (d : BufMgr) : BufMgr :=
  match r with
  | some (_, _, s) => s
  | none => d

/-- Page Stores on which every call succeeds; `allocatePage` hands out page 7. -/
def okOracle : Oracle :=
  { write := fun _ => Status.OK, read := Status.OK, alloc := Status.OK, newPage := 7,
    dispose := Status.OK }

/-- A disk on which page `p` of every file holds `100 + p`. -/
def exDisk : FilePtr → Int → Page := fun _ p => 100 + p.toNat

/-- A pool of two frames after `readPage(1, 0)` and `readPage(1, 1)`: both
frames pinned, hand on frame 1. -/
def exPinned2 : BufMgr :=
  stateOf ((stateOf ((BufMgr.new 2 exDisk).readPage okOracle 1 0) (BufMgr.new 2 exDisk)).readPage
    okOracle 1 1) (BufMgr.new 2 exDisk)

/-- The pool `exPinned2` after the client stored 55 into frame 1 and released
page (1, 1) dirty: frame 1 unpinned, dirty, reference bit set. -/
def exReleased : BufMgr := ((exPinned2.setPage 1 55).unPinPage 1 1 true).2

/-- The pool `exReleased` after a `readPage(1, 2)` that found no frame: the
failed sweep cleared the reference bit of frame 1. -/
def exSwept : BufMgr := stateOf (exReleased.readPage okOracle 1 2) exReleased

/-! ### Index/descriptor consistency and the states after a fetch -/

/-- Index/descriptor consistency of a pool: the pool is non-empty with the hand
inside it, every valid frame is registered in the Page Index under its (file,
page number), and every Page Index entry points to a valid frame of the pool
with that (file, page number). -/
structure Consistent (s : BufMgr) : Prop where
  pool : 1 ≤ s.numBufs
  hand : s.clockHand < s.numBufs
  mapped : ∀ k, k < s.numBufs → (s.bufTable k).valid = true →
    s.hashTable (s.bufTable k).file (s.bufTable k).pageNo = some k
  entry : ∀ f p k, s.hashTable f p = some k →
    k < s.numBufs ∧ (s.bufTable k).valid = true ∧ (s.bufTable k).file = f ∧
      (s.bufTable k).pageNo = p

/-- The state after a hit on frame `k`. -/
def BufMgr.afterHit (s : BufMgr) (k : Nat) : BufMgr :=
  { s with
    bufTable := fun j =>
      if j = k then
        { s.bufTable k with refbit := true, pinCnt := wrapInt ((s.bufTable k).pinCnt + 1) }
      else s.bufTable j
    bufStats := { s.bufStats with accesses := s.bufStats.accesses + 1 } }

/-- The state after page (`file`, `PageNo`) was read into the freshly allocated
frame `k` of `s1` and registered. -/
def BufMgr.afterLoad (s1 : BufMgr) (file : FilePtr) (PageNo : Int) (k : Nat) : BufMgr :=
  { s1 with
    bufTable := fun j => if j = k then (s1.bufTable k).Set file PageNo else s1.bufTable j
    bufPool := fun j => if j = k then s1.disk file PageNo else s1.bufPool j
    hashTable := fun f p => if f = file ∧ p = PageNo then some k else s1.hashTable f p
    bufStats := { s1.bufStats with
      accesses := s1.bufStats.accesses + 1
      diskreads := s1.bufStats.diskreads + 1 }
    log := s1.log ++ [StoreCall.readPage file PageNo] }

/-- The state `s` with one more Page Store call in the log. -/
def BufMgr.logged (s : BufMgr) (c : StoreCall) : BufMgr := { s with log := s.log ++ [c] }

/-- The state after the new page (`file`, `PageNo`) was registered in the
freshly allocated frame `k` of `s1`. -/
def BufMgr.afterAlloc (s1 : BufMgr) (file : FilePtr) (PageNo : Int) (k : Nat) : BufMgr :=
  { s1 with
    bufTable := fun j => if j = k then (s1.bufTable k).Set file PageNo else s1.bufTable j
    hashTable := fun f p => if f = file ∧ p = PageNo then some k else s1.hashTable f p
    bufStats := { s1.bufStats with
      accesses := s1.bufStats.accesses + 1
      diskreads := s1.bufStats.diskreads + 1 } }

/-- A pool of one frame after `readPage(1, 0)` and `unPinPage(1, 0, false)`:
the frame is unpinned and its reference bit is set. -/
def exOne : BufMgr :=
  ((stateOf ((BufMgr.new 1 exDisk).readPage okOracle 1 0) (BufMgr.new 1 exDisk)).unPinPage
    1 0 false).2

/-- Relation `EvictsTo s o k s1`: an `allocBuf` call that returns `OK` with victim
`k` takes the pool from `s` to `s1`, the call being made directly, or inside
a `readPage` of a page that is not cached, or inside an `allocPage`. -/
inductive EvictsTo (s : BufMgr) (o : Oracle) (k : Nat) : BufMgr → Prop where
  | direct {s1 : BufMgr} (h : s.allocBuf o = some (Status.OK, some k, s1)) : EvictsTo s o k s1
  | readPage {s0 s1 : BufMgr} (file : FilePtr) (PageNo : Int) (st : Status) (pg : Option Nat)
      (hmiss : s.hashTable file PageNo = none)
      (ha : s.allocBuf o = some (Status.OK, some k, s0))
      (h : s.readPage o file PageNo = some (st, pg, s1)) : EvictsTo s o k s1
  | allocPage {s0 s1 : BufMgr} (file : FilePtr) (st : Status) (pn : Option Int)
      (pg : Option Nat) (hok : o.alloc = Status.OK)
      (ha : (s.logged (StoreCall.allocatePage file)).allocBuf o = some (Status.OK, some k, s0))
      (h : s.allocPage o file = some (st, pn, pg, s1)) : EvictsTo s o k s1

/-- A pool of one frame holding page (1, 0) unpinned and dirty with content 55
and a clear reference bit: after `readPage(1, 0)`, a client store of 55,
`unPinPage(1, 0, true)` and a `readPage(1, 1)` that found no frame. -/
def exOneDirty : BufMgr :=
  stateOf
    ((((stateOf ((BufMgr.new 1 exDisk).readPage okOracle 1 0) (BufMgr.new 1 exDisk)).setPage
      0 55).unPinPage 1 0 true).2.readPage okOracle 1 1)
    (BufMgr.new 1 exDisk)

/-- The `writePage` calls for the frames among the first `n` whose descriptor
is selected by `sel`: one call per selected frame, in increasing frame
number, with the frame's file, page number and buffer content. -/
def BufMgr.writesOf (s : BufMgr) (sel : BufDesc → Bool) (n : Nat) : List StoreCall :=
  ((List.range n).filter (fun i => sel (s.bufTable i))).map
    (fun i => StoreCall.writePage (s.bufTable i).file (s.bufTable i).pageNo (s.bufPool i))

/-- The pool `exPinned2` after the client stored 55 into frame 1 and 66 into
frame 0 and released both pages dirty: two valid dirty frames. -/
def exDirty2 : BufMgr :=
  ((((exPinned2.setPage 1 55).setPage 0 66).unPinPage 1 1 true).2.unPinPage 1 0 true).2

/-- The part of the descriptor invariant that concerns the owning file: a
descriptor that is not valid has no owning file and a valid one has one. -/
def BufDesc.owned (d : BufDesc) : Prop :=
  (d.valid = false → d.file = NULL) ∧ (d.valid = true → d.file ≠ NULL)

/-- The status with which the `flushFile` loop body returns at frame `i`,
`none` when it goes on: `PAGEPINNED` for a pinned page of `file`, the status of
a failed write-back, `BADBUFFER` for an invalid frame that names `file`. -/
def BufMgr.flushStop (s : BufMgr) (o : Oracle) (file : FilePtr) (i : Nat) : Option Status :=
  if (s.bufTable i).valid = true ∧ (s.bufTable i).file = file then
    if (s.bufTable i).pinCnt > 0 then some Status.PAGEPINNED
    else if (s.bufTable i).dirty = true ∧ o.write i ≠ Status.OK then some (o.write i)
    else none
  else if (s.bufTable i).valid = false ∧ (s.bufTable i).file = file then some Status.BADBUFFER
  else none

/-- Relation `FlushedTo s t file i`: `t` is `s` after the `flushFile` loop went
through the frames below `i` without returning.  The frames below `i` that
held a page of `file` have lost file, page number, validity and dirty flag and
their Page Index entries are gone; the dirty ones were written, in order;
nothing else changed in descriptors, Page Index, buffers, hand or counters. -/
structure FlushedTo (s t : BufMgr) (file : FilePtr) (i : Nat) : Prop where
  numBufs : t.numBufs = s.numBufs
  bufPool : t.bufPool = s.bufPool
  clockHand : t.clockHand = s.clockHand
  bufStats : t.bufStats = s.bufStats
  done : ∀ j, j < i → (s.bufTable j).valid = true → (s.bufTable j).file = file →
    t.bufTable j = { s.bufTable j with file := NULL, pageNo := -1, valid := false, dirty := false }
  kept : ∀ j, ¬ (j < i ∧ (s.bufTable j).valid = true ∧ (s.bufTable j).file = file) →
    t.bufTable j = s.bufTable j
  gone : ∀ j, j < i → (s.bufTable j).valid = true → (s.bufTable j).file = file →
    t.hashTable file (s.bufTable j).pageNo = none
  index : ∀ f p, ¬ (f = file ∧ ∃ j, j < i ∧ (s.bufTable j).valid = true ∧
      (s.bufTable j).file = file ∧ (s.bufTable j).pageNo = p) →
    t.hashTable f p = s.hashTable f p
  log : t.log = s.log ++
    s.writesOf (fun d => d.valid && decide (d.file = file) && d.dirty) i
/-- The pool `exPinned2` after the client stored 66 into frame 0 and released
page (1, 0) dirty: frame 0 unpinned and dirty, frame 1 still pinned. -/
def exHalf : BufMgr := ((exPinned2.setPage 0 66).unPinPage 1 0 true).2

/-! ## Verified properties -/

/-! ### The clock sweep -/

theorem Swept.refl (s : BufMgr) : Swept s s :=
  ⟨rfl, rfl, rfl, rfl, rfl, rfl, fun _ => Or.inl rfl⟩

theorem Swept.trans {s t u : BufMgr} (h1 : Swept s t) (h2 : Swept t u) : Swept s u := by
  refine ⟨h2.numBufs.trans h1.numBufs, h2.bufPool.trans h1.bufPool,
    h2.hashTable.trans h1.hashTable, h2.bufStats.trans h1.bufStats, h2.disk.trans h1.disk,
    h2.log.trans h1.log, fun i => ?_⟩
  rcases h1.table i with e1 | ⟨hi, hp, e1⟩ <;> rcases h2.table i with e2 | ⟨hi2, hp2, e2⟩
  · exact Or.inl (e2.trans e1)
  · rw [h1.numBufs] at hi2
    rw [e1] at hp2 e2
    exact Or.inr ⟨hi2, hp2, e2⟩
  · exact Or.inr ⟨hi, hp, e2.trans e1⟩
  · refine Or.inr ⟨hi, hp, ?_⟩
    rw [e2, e1]

theorem Swept.advance (s : BufMgr) : Swept s s.advanceClock :=
  ⟨rfl, rfl, rfl, rfl, rfl, rfl, fun _ => Or.inl rfl⟩

theorem Swept.clearRef (s : BufMgr) (i : Nat) (hi : i < s.numBufs)
    (hp : ¬ (s.bufTable i).pinCnt > 0) :
    Swept s (s.setDesc i { s.bufTable i with refbit := false }) := by
  refine ⟨rfl, rfl, rfl, rfl, rfl, rfl, fun j => ?_⟩
  by_cases hj : j = i
  · subst hj
    exact Or.inr ⟨hi, hp, by simp [BufMgr.setDesc]⟩
  · exact Or.inl (by simp [BufMgr.setDesc, hj])

theorem advanceClock_lt (s : BufMgr) (hN : 0 < s.numBufs) :
    s.advanceClock.clockHand < s.numBufs :=
  Nat.mod_lt _ hN

/-- Every run of the sweep loop that returns has skipped some frames and then
either handled a replaceable frame or come back to its starting point. -/
theorem allocBufLoop_swept (o : Oracle) (start : Nat) :
    ∀ (fuel : Nat) (s : BufMgr) (r : Status × Option Nat × BufMgr), 0 < s.numBufs →
      BufMgr.allocBufLoop o start fuel s = some r →
      ∃ t, Swept s t ∧ t.clockHand < s.numBufs ∧
        ((¬ (t.bufTable t.clockHand).pinCnt > 0 ∧ (t.bufTable t.clockHand).refbit = false ∧
            r = t.allocBufVictim o) ∨
         (r = (Status.BUFFEREXCEEDED, none, t) ∧ t.clockHand = start)) := by
  intro fuel
  induction fuel with
  | zero => intro s r _ h; simp [BufMgr.allocBufLoop] at h
  | succ n ih =>
    intro s r hN h
    have hlt := advanceClock_lt s hN
    rw [BufMgr.allocBufLoop] at h
    simp only [] at h
    by_cases hp : (s.advanceClock.bufTable s.advanceClock.clockHand).pinCnt > 0
    · rw [if_pos hp] at h
      by_cases hc : s.advanceClock.clockHand ≠ start
      · rw [if_pos hc] at h
        obtain ⟨t, ht, hlt2, hr⟩ := ih s.advanceClock r hN h
        exact ⟨t, (Swept.advance s).trans ht, hlt2, hr⟩
      · rw [if_neg hc] at h
        refine ⟨s.advanceClock, Swept.advance s, hlt, Or.inr ⟨?_, not_not.mp hc⟩⟩
        exact (Option.some.inj h).symm
    · rw [if_neg hp] at h
      by_cases hr : (s.advanceClock.bufTable s.advanceClock.clockHand).refbit = true
      · rw [if_pos hr] at h
        have hsw : Swept s (s.advanceClock.setDesc s.advanceClock.clockHand
            { s.advanceClock.bufTable s.advanceClock.clockHand with refbit := false }) :=
          (Swept.advance s).trans (Swept.clearRef s.advanceClock _ hlt hp)
        by_cases hc : (s.advanceClock.setDesc s.advanceClock.clockHand
            { s.advanceClock.bufTable s.advanceClock.clockHand with refbit := false }).clockHand
              ≠ start
        · rw [if_pos hc] at h
          obtain ⟨t, ht, hlt2, hr2⟩ := ih _ r (by exact hN) h
          exact ⟨t, hsw.trans ht, hlt2, hr2⟩
        · rw [if_neg hc] at h
          exact ⟨_, hsw, hlt, Or.inr ⟨(Option.some.inj h).symm, not_not.mp hc⟩⟩
      · rw [if_neg hr] at h
        refine ⟨s.advanceClock, Swept.advance s, hlt, Or.inl ⟨hp, ?_, (Option.some.inj h).symm⟩⟩
        simpa using hr

/-! ### Handling of the replaceable frame -/

/-- The handling of a replaceable frame either evicts it and returns its number
or fails with `UNIXERR` or `HASHTBLERROR`. -/
theorem allocBufVictim_spec (t : BufMgr) (o : Oracle) :
    (∃ r, t.allocBufVictim o = (Status.OK, some t.clockHand, r) ∧ Evicted t o r) ∨
    (∃ st r, t.allocBufVictim o = (st, none, r) ∧ EvictFailed t o st r) := by
  by_cases hv : (t.bufTable t.clockHand).valid = true
  · by_cases hd : (t.bufTable t.clockHand).dirty = true
    · by_cases hw : o.write t.clockHand = Status.OK
      · cases hk : t.hashTable (t.bufTable t.clockHand).file (t.bufTable t.clockHand).pageNo with
        | none =>
          right
          refine ⟨Status.HASHTBLERROR, (t.allocBufVictim o).2.2, ?_, ?_⟩
          · simp [BufMgr.allocBufVictim, hv, hd, hw, hk, BufMgr.fileWritePage, BufMgr.htRemove,
              BufMgr.setDesc]
          · constructor <;>
              simp [BufMgr.allocBufVictim, hv, hd, hw, hk, BufMgr.fileWritePage,
                BufMgr.htRemove, BufMgr.setDesc] <;>
            first | rfl | (intro i h1 h2; exact absurd h2 h1) | (intro i h1; simp [h1])
        | some k =>
          left
          refine ⟨(t.allocBufVictim o).2.2, ?_, ?_⟩
          · simp [BufMgr.allocBufVictim, hv, hd, hw, hk, BufMgr.fileWritePage, BufMgr.htRemove,
              BufMgr.setDesc]
          · constructor <;>
              simp [BufMgr.allocBufVictim, hv, hd, hw, hk, BufMgr.fileWritePage,
                BufMgr.htRemove, BufMgr.setDesc, BufMgr.indexWithoutHand, BufMgr.diskWithHand,
                BufMgr.writeOfHand, BufDesc.Clear] <;>
            first | rfl | (intro i h1 h2; exact absurd h2 h1) | (intro i h1; simp [h1])
      · right
        refine ⟨Status.UNIXERR, (t.allocBufVictim o).2.2, ?_, ?_⟩
        · simp [BufMgr.allocBufVictim, hv, hd, hw, BufMgr.fileWritePage]
        · constructor <;>
            simp [BufMgr.allocBufVictim, hv, hd, hw, BufMgr.fileWritePage, BufMgr.writeOfHand] <;>
            first | rfl | (intro i h1 h2; exact absurd h2 h1) | (intro i h1; simp [h1])
    · cases hk : t.hashTable (t.bufTable t.clockHand).file (t.bufTable t.clockHand).pageNo with
      | none =>
        right
        refine ⟨Status.HASHTBLERROR, (t.allocBufVictim o).2.2, ?_, ?_⟩
        · simp [BufMgr.allocBufVictim, hv, hd, hk, BufMgr.htRemove]
        · constructor <;> simp [BufMgr.allocBufVictim, hv, hd, hk, BufMgr.htRemove] <;>
            first | rfl | (intro i h1 h2; exact absurd h2 h1) | (intro i h1; simp [h1])
      | some k =>
        left
        refine ⟨(t.allocBufVictim o).2.2, ?_, ?_⟩
        · simp [BufMgr.allocBufVictim, hv, hd, hk, BufMgr.htRemove, BufMgr.setDesc]
        · constructor <;>
            simp [BufMgr.allocBufVictim, hv, hd, hk, BufMgr.htRemove, BufMgr.setDesc,
              BufMgr.indexWithoutHand, BufDesc.Clear] <;>
            first | rfl | (intro i h1 h2; exact absurd h2 h1) | (intro i h1; simp [h1])
  · left
    refine ⟨(t.allocBufVictim o).2.2, ?_, ?_⟩
    · simp [BufMgr.allocBufVictim, hv, BufMgr.setDesc]
    · constructor <;> simp [BufMgr.allocBufVictim, hv, BufMgr.setDesc, BufDesc.Clear] <;>
            first | rfl | (intro i h1 h2; exact absurd h2 h1) | (intro i h1; simp [h1])

/-- A skipping sweep leaves every field of every descriptor but the reference
bit as it was, and never sets a reference bit. -/
theorem Swept.fields {s t : BufMgr} (h : Swept s t) (i : Nat) :
    (t.bufTable i).file = (s.bufTable i).file ∧ (t.bufTable i).pageNo = (s.bufTable i).pageNo ∧
    (t.bufTable i).frameNo = (s.bufTable i).frameNo ∧
    (t.bufTable i).pinCnt = (s.bufTable i).pinCnt ∧
    (t.bufTable i).dirty = (s.bufTable i).dirty ∧ (t.bufTable i).valid = (s.bufTable i).valid ∧
    ((t.bufTable i).refbit = true → (s.bufTable i).refbit = true) := by
  rcases h.table i with e | ⟨_, _, e⟩ <;> rw [e] <;> simp

/-- The three ways `allocBuf` returns: a frame was evicted, the handling of
the replaceable frame failed, or the sweep came back to its starting point. -/
theorem allocBuf_cases (s : BufMgr) (o : Oracle) (r : Status × Option Nat × BufMgr)
    (h : s.allocBuf o = some r) :
    ∃ t, Swept s t ∧ t.clockHand < s.numBufs ∧
      ((¬ (t.bufTable t.clockHand).pinCnt > 0 ∧ (t.bufTable t.clockHand).refbit = false ∧
          ∃ s1, r = (Status.OK, some t.clockHand, s1) ∧ Evicted t o s1) ∨
       (¬ (t.bufTable t.clockHand).pinCnt > 0 ∧ (t.bufTable t.clockHand).refbit = false ∧
          ∃ st s1, r = (st, none, s1) ∧ EvictFailed t o st s1) ∨
       (r = (Status.BUFFEREXCEEDED, none, t) ∧ t.clockHand = s.clockHand)) := by
  have hN : 0 < s.numBufs := by
    rcases Nat.eq_zero_or_pos s.numBufs with h0 | h0
    · simp [BufMgr.allocBuf, h0, BufMgr.allocBufLoop] at h
    · exact h0
  obtain ⟨t, hsw, hlt, hr⟩ := allocBufLoop_swept o s.clockHand _ s r hN h
  refine ⟨t, hsw, hlt, ?_⟩
  rcases hr with ⟨hp, hb, e⟩ | hr
  · rcases allocBufVictim_spec t o with ⟨s1, e1, hev⟩ | ⟨st, s1, e1, hev⟩
    · exact Or.inl ⟨hp, hb, s1, e.trans e1, hev⟩
    · exact Or.inr (Or.inl ⟨hp, hb, st, s1, e.trans e1, hev⟩)
  · exact Or.inr (Or.inr hr)

/-! ### The order of the sweep -/

theorem mod_succ_add (c j N : Nat) : ((c + 1) % N + j) % N = (c + (j + 1)) % N := by
  rw [Nat.mod_add_mod]
  congr 1
  omega

theorem mod_offset_ne (c a b N : Nat) (hab : a < b) (hb : b < a + N) :
    (c + a) % N ≠ (c + b) % N := by
  intro h
  have h1 : a ≡ b [MOD N] := Nat.ModEq.add_left_cancel' c h
  have h2 : N ∣ b - a := (Nat.modEq_iff_dvd' (le_of_lt hab)).1 h1
  have h3 : N ≤ b - a := Nat.le_of_dvd (by omega) h2
  omega

theorem SweptTo.zero (s t : BufMgr) (h : Swept s t) (ht : t.bufTable = s.bufTable) :
    SweptTo s t 0 :=
  ⟨h, fun j h1 h0 => absurd h1 (by omega), fun i _ => by rw [ht]⟩

/-- One skipped frame in front of a sweep over `k` further frames. -/
theorem SweptTo.step {s s2 t : BufMgr} {k : Nat} (hk : k < s.numBufs)
    (hsw : Swept s s2) (hhand : s2.clockHand = (s.clockHand + 1) % s.numBufs)
    (hnr : ¬ (s.bufTable ((s.clockHand + 1) % s.numBufs)).replaceable)
    (hcl : ¬ (s.bufTable ((s.clockHand + 1) % s.numBufs)).pinCnt > 0 →
      (s2.bufTable ((s.clockHand + 1) % s.numBufs)).refbit = false)
    (hrest : ∀ i, i ≠ (s.clockHand + 1) % s.numBufs → s2.bufTable i = s.bufTable i)
    (h : SweptTo s2 t k) : SweptTo s t (k + 1) := by
  have hN : s2.numBufs = s.numBufs := hsw.numBufs
  have hidx : ∀ j, (s2.clockHand + j) % s2.numBufs = (s.clockHand + (j + 1)) % s.numBufs := by
    intro j
    rw [hN, hhand, mod_succ_add]
  have hne : ∀ j, 1 ≤ j → j ≤ k →
      (s.clockHand + (j + 1)) % s.numBufs ≠ (s.clockHand + 1) % s.numBufs := by
    intro j h1 h2
    exact (mod_offset_ne _ 1 (j + 1) _ (by omega) (by omega)).symm
  refine ⟨hsw.trans h.swept, ?_, ?_⟩
  · intro j h1 h2
    rcases Nat.eq_or_lt_of_le h1 with e | hlt
    · subst e
      refine ⟨hnr, fun hp => ?_⟩
      rw [h.rest _ (fun j h1 h2 => by rw [hidx]; exact (hne j h1 h2).symm)]
      exact hcl hp
    · obtain ⟨j', rfl⟩ : ∃ j', j = j' + 1 := ⟨j - 1, by omega⟩
      have := h.skipped j' (by omega) (by omega)
      rw [hidx, hrest _ (hne j' (by omega) (by omega))] at this
      exact this
  · intro i hi
    have h1 : i ≠ (s.clockHand + 1) % s.numBufs := hi 1 (le_refl 1) (by omega)
    rw [h.rest i (fun j hj1 hj2 => by rw [hidx]; exact hi (j + 1) (by omega) (by omega))]
    exact hrest i h1

/-- A skipped frame followed by the rest of the sweep. -/
theorem sweepOutcome_skip (o : Oracle) (start n f : Nat) (s s2 : BufMgr)
    (ih : 1 ≤ n → SweepOutcome o start n f s2)
    (hr : n + 1 ≤ s.numBufs) (hstart : (s.clockHand + (n + 1)) % s.numBufs = start)
    (hsw : Swept s s2) (hhand : s2.clockHand = (s.clockHand + 1) % s.numBufs)
    (hnr : ¬ (s.bufTable ((s.clockHand + 1) % s.numBufs)).replaceable)
    (hcl : ¬ (s.bufTable ((s.clockHand + 1) % s.numBufs)).pinCnt > 0 →
      (s2.bufTable ((s.clockHand + 1) % s.numBufs)).refbit = false)
    (hrest : ∀ i, i ≠ (s.clockHand + 1) % s.numBufs → s2.bufTable i = s.bufTable i)
    (hloop : BufMgr.allocBufLoop o start (f + 1) s =
      if s2.clockHand ≠ start then BufMgr.allocBufLoop o start f s2
      else some (Status.BUFFEREXCEEDED, none, s2)) :
    SweepOutcome o start (n + 1) (f + 1) s := by
  have hN : s2.numBufs = s.numBufs := hsw.numBufs
  rcases Nat.eq_zero_or_pos n with h0 | hpos
  · subst h0
    have hc : ¬ s2.clockHand ≠ start := by
      rw [hhand, ← hstart]
      simp
    rw [if_neg hc] at hloop
    refine Or.inr ⟨s2, ?_, not_not.mp hc, hloop⟩
    exact SweptTo.step (by omega) hsw hhand hnr hcl hrest (SweptTo.zero s2 s2 (Swept.refl _) rfl)
  · have hc : s2.clockHand ≠ start := by
      rw [hhand, ← hstart]
      exact mod_offset_ne _ 1 (n + 1) _ (by omega) (by omega)
    rw [if_pos hc] at hloop
    rcases ih hpos with ⟨k, t, hk, hto, hth, hrep, hsame, hl⟩ | ⟨t, hto, hth, hl⟩
    · have hth2 : t.clockHand = (s.clockHand + (k + 1 + 1)) % s.numBufs := by
        rw [hth, hN, hhand, mod_succ_add]
      have hne : t.clockHand ≠ (s.clockHand + 1) % s.numBufs := by
        rw [hth2]
        exact (mod_offset_ne _ 1 (k + 1 + 1) _ (by omega) (by omega)).symm
      refine Or.inl ⟨k + 1, t, by omega, ?_, hth2, ?_, ?_, hloop.trans hl⟩
      · exact SweptTo.step (by omega) hsw hhand hnr hcl hrest hto
      · rw [← hrest _ hne]
        exact hrep
      · rw [hsame, hrest _ hne]
    · refine Or.inr ⟨t, ?_, hth, hloop.trans hl⟩
      exact SweptTo.step (by omega) hsw hhand hnr hcl hrest hto

/-- The sweep loop, frame by frame. -/
theorem allocBufLoop_run (o : Oracle) (start : Nat) :
    ∀ (r fuel : Nat) (s : BufMgr), 1 ≤ r → r ≤ s.numBufs → r ≤ fuel →
      (s.clockHand + r) % s.numBufs = start → SweepOutcome o start r fuel s := by
  intro r
  induction r with
  | zero => intro fuel s h; omega
  | succ n ih =>
    intro fuel s _ hr hf hstart
    obtain ⟨f, rfl⟩ : ∃ f, fuel = f + 1 := ⟨fuel - 1, by omega⟩
    by_cases hp : (s.advanceClock.bufTable s.advanceClock.clockHand).pinCnt > 0
    · refine sweepOutcome_skip o start n f s s.advanceClock ?_ hr hstart (Swept.advance s) rfl
        ?_ ?_ (fun _ _ => rfl) ?_
      · intro h1
        exact ih f s.advanceClock h1 (by exact Nat.le_of_succ_le hr) (by omega)
          (by rw [← hstart]; exact mod_succ_add _ _ _)
      · exact fun h => h.1 hp
      · exact fun h => absurd hp h
      · rw [BufMgr.allocBufLoop]
        simp only []
        rw [if_pos hp]
    · by_cases hb : (s.advanceClock.bufTable s.advanceClock.clockHand).refbit = true
      · refine sweepOutcome_skip o start n f s
          (s.advanceClock.setDesc s.advanceClock.clockHand
            { s.advanceClock.bufTable s.advanceClock.clockHand with refbit := false }) ?_ hr
          hstart ((Swept.advance s).trans
            (Swept.clearRef s.advanceClock _ (advanceClock_lt s (by omega)) hp)) rfl ?_ ?_ ?_ ?_
        · intro h1
          exact ih f _ h1 (by exact Nat.le_of_succ_le hr) (by omega)
            (by rw [← hstart]; exact mod_succ_add _ _ _)
        · intro h
          have := h.2
          rw [show (s.bufTable ((s.clockHand + 1) % s.numBufs)).refbit = true from hb] at this
          exact Bool.noConfusion this
        · intro _
          simp [BufMgr.setDesc, BufMgr.advanceClock]
        · intro i hi
          have : i ≠ s.advanceClock.clockHand := hi
          simp [BufMgr.setDesc, this]
          rfl
        · rw [BufMgr.allocBufLoop]
          simp only []
          rw [if_neg hp, if_pos hb]
      · refine Or.inl ⟨0, s.advanceClock, by omega,
          SweptTo.zero s s.advanceClock (Swept.advance s) rfl, rfl, ⟨hp, by simpa using hb⟩, rfl,
          ?_⟩
        rw [BufMgr.allocBufLoop]
        simp only []
        rw [if_neg hp, if_neg hb]

/-- A sweep that starts with the hand inside a non-empty pool returns within
one pass over the frames. -/
theorem allocBuf_run (s : BufMgr) (o : Oracle) (hN : 1 ≤ s.numBufs)
    (hh : s.clockHand < s.numBufs) :
    SweepOutcome o s.clockHand s.numBufs (2 * s.numBufs) s :=
  allocBufLoop_run o s.clockHand s.numBufs (2 * s.numBufs) s hN (le_refl _) (by omega)
    (by rw [Nat.add_mod_right, Nat.mod_eq_of_lt hh])

/-! ### Frame allocation never touches a pinned frame -/

/-- Consistency only depends on the size, the hand, the Page Index and the
identity of the valid frames. -/
theorem Consistent.congr {s s1 : BufMgr} (h : Consistent s) (hN : s1.numBufs = s.numBufs)
    (hh : s1.clockHand < s1.numBufs) (hi : s1.hashTable = s.hashTable)
    (hv : ∀ i, (s1.bufTable i).valid = (s.bufTable i).valid)
    (hid : ∀ i, (s.bufTable i).valid = true →
      (s1.bufTable i).file = (s.bufTable i).file ∧ (s1.bufTable i).pageNo = (s.bufTable i).pageNo) :
    Consistent s1 := by
  refine ⟨by rw [hN]; exact h.pool, hh, ?_, ?_⟩
  · intro k hk hval
    rw [hN] at hk
    rw [hv] at hval
    rw [(hid k hval).1, (hid k hval).2, hi]
    exact h.mapped k hk hval
  · intro f p k hfp
    rw [hi] at hfp
    obtain ⟨h1, h2, h3, h4⟩ := h.entry f p k hfp
    exact ⟨by rw [hN]; exact h1, by rw [hv]; exact h2, by rw [(hid k h2).1]; exact h3,
      by rw [(hid k h2).2]; exact h4⟩

/-- Dropping a valid frame together with its Page Index entry keeps the pool
consistent. -/
theorem Consistent.drop {s s1 : BufMgr} (h : Consistent s) (k : Nat) (hk : k < s.numBufs)
    (hN : s1.numBufs = s.numBufs) (hh : s1.clockHand < s1.numBufs)
    (hkv : (s.bufTable k).valid = true) (hk1 : (s1.bufTable k).valid = false)
    (hv : ∀ i, i ≠ k → (s1.bufTable i).valid = (s.bufTable i).valid ∧
      (s1.bufTable i).file = (s.bufTable i).file ∧ (s1.bufTable i).pageNo = (s.bufTable i).pageNo)
    (hi : ∀ f p, s1.hashTable f p =
      if f = (s.bufTable k).file ∧ p = (s.bufTable k).pageNo then none else s.hashTable f p) :
    Consistent s1 := by
  refine ⟨by rw [hN]; exact h.pool, hh, ?_, ?_⟩
  · intro i hi' hval
    rw [hN] at hi'
    have hne : i ≠ k := by
      rintro rfl
      rw [hk1] at hval
      exact Bool.noConfusion hval
    obtain ⟨e1, e2, e3⟩ := hv i hne
    rw [e1] at hval
    have hm := h.mapped i hi' hval
    rw [hi, e2, e3, if_neg, hm]
    rintro ⟨ef, ep⟩
    rw [ef, ep, h.mapped k hk hkv] at hm
    exact hne (Option.some.inj hm).symm
  · intro f p i hfp
    rw [hi] at hfp
    by_cases hkey : f = (s.bufTable k).file ∧ p = (s.bufTable k).pageNo
    · rw [if_pos hkey] at hfp
      exact Option.noConfusion hfp
    · rw [if_neg hkey] at hfp
      obtain ⟨h1, h2, h3, h4⟩ := h.entry f p i hfp
      have hne : i ≠ k := by
        rintro rfl
        exact hkey ⟨h3.symm, h4.symm⟩
      obtain ⟨e1, e2, e3⟩ := hv i hne
      exact ⟨by rw [hN]; exact h1, by rw [e1]; exact h2, by rw [e2]; exact h3,
        by rw [e3]; exact h4⟩

/-- Installing page (`file`, `pageNo`) in an invalid frame, with a Page Index
entry for it, keeps the pool consistent. -/
theorem Consistent.install {s s1 : BufMgr} (h : Consistent s) (k : Nat) (hk : k < s.numBufs)
    (file : FilePtr) (pageNo : Int)
    (hN : s1.numBufs = s.numBufs) (hh : s1.clockHand < s1.numBufs)
    (hkv : (s.bufTable k).valid = false) (hnone : s.hashTable file pageNo = none)
    (hk1 : (s1.bufTable k).valid = true ∧ (s1.bufTable k).file = file ∧
      (s1.bufTable k).pageNo = pageNo)
    (hv : ∀ i, i ≠ k → (s1.bufTable i).valid = (s.bufTable i).valid ∧
      (s1.bufTable i).file = (s.bufTable i).file ∧ (s1.bufTable i).pageNo = (s.bufTable i).pageNo)
    (hi : ∀ f p, s1.hashTable f p =
      if f = file ∧ p = pageNo then some k else s.hashTable f p) :
    Consistent s1 := by
  refine ⟨by rw [hN]; exact h.pool, hh, ?_, ?_⟩
  · intro i hi' hval
    rw [hN] at hi'
    by_cases hik : i = k
    · subst hik
      rw [hi, hk1.2.1, hk1.2.2]
      simp
    · obtain ⟨e1, e2, e3⟩ := hv i hik
      rw [e1] at hval
      have hm := h.mapped i hi' hval
      rw [hi, e2, e3, if_neg, hm]
      rintro ⟨ef, ep⟩
      rw [ef, ep, hnone] at hm
      exact Option.noConfusion hm
  · intro f p i hfp
    rw [hi] at hfp
    by_cases hkey : f = file ∧ p = pageNo
    · rw [if_pos hkey] at hfp
      obtain rfl : k = i := Option.some.inj hfp
      exact ⟨by rw [hN]; exact hk, hk1.1, by rw [hk1.2.1, hkey.1], by rw [hk1.2.2, hkey.2]⟩
    · rw [if_neg hkey] at hfp
      obtain ⟨h1, h2, h3, h4⟩ := h.entry f p i hfp
      have hne : i ≠ k := by
        rintro rfl
        rw [hkv] at h2
        exact Bool.noConfusion h2
      obtain ⟨e1, e2, e3⟩ := hv i hne
      exact ⟨by rw [hN]; exact h1, by rw [e1]; exact h2, by rw [e2]; exact h3,
        by rw [e3]; exact h4⟩

theorem Consistent.new (bufs : Nat) (disk : FilePtr → Int → Page) (h : 1 ≤ bufs) :
    Consistent (BufMgr.new bufs disk) := by
  refine ⟨h, ?_, ?_, ?_⟩
  · show bufs - 1 < bufs
    omega
  · intro k _ hv
    simp [BufMgr.new, initDesc] at hv
  · intro f p k hfp
    simp [BufMgr.new] at hfp

theorem Consistent.swept {s t : BufMgr} (h : Consistent s) (hsw : Swept s t)
    (hh : t.clockHand < s.numBufs) : Consistent t :=
  h.congr hsw.numBufs (by rw [hsw.numBufs]; exact hh) hsw.hashTable
    (fun i => (hsw.fields i).2.2.2.2.2.1) (fun i _ => ⟨(hsw.fields i).1, (hsw.fields i).2.1⟩)

theorem evicted_consistent {t s1 : BufMgr} {o : Oracle} (ht : Consistent t)
    (hev : Evicted t o s1) : Consistent s1 := by
  have hh : s1.clockHand < s1.numBufs := by
    rw [hev.clockHand, hev.numBufs]
    exact ht.hand
  by_cases hv : (t.bufTable t.clockHand).valid = true
  · refine ht.drop t.clockHand ht.hand hev.numBufs hh hv (by rw [hev.hand]; rfl)
      (fun i hi => by rw [hev.other i hi]; exact ⟨rfl, rfl, rfl⟩) (fun f p => ?_)
    rw [hev.index, if_pos hv]
    rfl
  · have hv' : (t.bufTable t.clockHand).valid = false := by simpa using hv
    refine ht.congr hev.numBufs hh (by rw [hev.index, if_neg hv]) (fun i => ?_) (fun i hi => ?_)
    · by_cases hi : i = t.clockHand
      · subst hi
        rw [hev.hand, hv']
        rfl
      · rw [hev.other i hi]
    · have hne : i ≠ t.clockHand := by
        rintro rfl
        exact hv hi
      rw [hev.other i hne]
      exact ⟨rfl, rfl⟩

theorem evictFailed_consistent {t s1 : BufMgr} {o : Oracle} {st : Status} (ht : Consistent t)
    (hev : EvictFailed t o st s1) : Consistent s1 := by
  have hh : s1.clockHand < s1.numBufs := by
    rw [hev.clockHand, hev.numBufs]
    exact ht.hand
  have key : ∀ i, (s1.bufTable i).valid = (t.bufTable i).valid ∧
      (s1.bufTable i).file = (t.bufTable i).file ∧
      (s1.bufTable i).pageNo = (t.bufTable i).pageNo := by
    intro i
    by_cases hi : i = t.clockHand
    · subst hi
      rcases hev.hand with e | e <;> rw [e] <;> exact ⟨rfl, rfl, rfl⟩
    · rw [hev.other i hi]
      exact ⟨rfl, rfl, rfl⟩
  exact ht.congr hev.numBufs hh hev.index (fun i => (key i).1)
    (fun i _ => ⟨(key i).2.1, (key i).2.2⟩)

/-- Preservation: `allocBuf` keeps a consistent pool consistent; it adds no Page Index
entry, and a frame it returns is in the pool and invalid afterwards. -/
theorem allocBuf_consistent {s s1 : BufMgr} {o : Oracle} {st : Status} {out : Option Nat}
    (hI : Consistent s) (h : s.allocBuf o = some (st, out, s1)) :
    Consistent s1 ∧ s1.numBufs = s.numBufs ∧
    (∀ f p, s.hashTable f p = none → s1.hashTable f p = none) ∧
    (st = Status.OK → ∃ k, out = some k ∧ k < s.numBufs ∧ (s1.bufTable k).valid = false) := by
  obtain ⟨t, hsw, hlt, hc⟩ := allocBuf_cases s o _ h
  have ht : Consistent t := hI.swept hsw hlt
  rcases hc with ⟨_, _, s1', e, hev⟩ | ⟨_, _, st', s1', e, hev⟩ | ⟨e, _⟩
  · obtain ⟨rfl, rfl, rfl⟩ : st = Status.OK ∧ out = some t.clockHand ∧ s1 = s1' := by
      simpa using e
    refine ⟨evicted_consistent ht hev, hev.numBufs.trans hsw.numBufs, fun f p hn => ?_,
      fun _ => ⟨t.clockHand, rfl, hlt, by rw [hev.hand]; rfl⟩⟩
    rw [hev.index]
    split_ifs
    · unfold BufMgr.indexWithoutHand
      split_ifs
      · rfl
      · rw [hsw.hashTable]; exact hn
    · rw [hsw.hashTable]; exact hn
  · obtain ⟨rfl, rfl, rfl⟩ : st = st' ∧ out = none ∧ s1 = s1' := by simpa using e
    refine ⟨evictFailed_consistent ht hev, hev.numBufs.trans hsw.numBufs,
      fun f p hn => by rw [hev.index, hsw.hashTable]; exact hn, fun hst => ?_⟩
    rcases hev.cause with ⟨e1, _⟩ | ⟨e1, _⟩ <;> rw [e1] at hst <;> exact Status.noConfusion hst
  · obtain ⟨rfl, rfl, rfl⟩ : st = Status.BUFFEREXCEEDED ∧ out = none ∧ s1 = t := by
      simpa using e
    exact ⟨ht, hsw.numBufs, fun f p hn => by rw [hsw.hashTable]; exact hn,
      fun hst => Status.noConfusion hst⟩

theorem readPage_hit (s : BufMgr) (o : Oracle) (file : FilePtr) (PageNo : Int) (k : Nat)
    (hk : s.hashTable file PageNo = some k) :
    s.readPage o file PageNo = some (Status.OK, some k, s.afterHit k) := by
  simp [BufMgr.readPage, BufMgr.htLookup, hk, BufMgr.setDesc, BufMgr.afterHit]

theorem readPage_miss_diverge (s : BufMgr) (o : Oracle) (file : FilePtr) (PageNo : Int)
    (hn : s.hashTable file PageNo = none) (ha : s.allocBuf o = none) :
    s.readPage o file PageNo = none := by
  simp [BufMgr.readPage, BufMgr.htLookup, hn, ha]

theorem readPage_miss_fail (s : BufMgr) (o : Oracle) (file : FilePtr) (PageNo : Int)
    (st : Status) (out : Option Nat) (s1 : BufMgr)
    (hn : s.hashTable file PageNo = none) (ha : s.allocBuf o = some (st, out, s1))
    (hst : st ≠ Status.OK) :
    s.readPage o file PageNo = some (st, none, s1) := by
  simp only [BufMgr.readPage, BufMgr.htLookup, hn, ha]
  cases st <;> simp at hst ⊢

theorem readPage_miss_readfail (s : BufMgr) (o : Oracle) (file : FilePtr) (PageNo : Int)
    (k : Nat) (s1 : BufMgr)
    (hn : s.hashTable file PageNo = none) (ha : s.allocBuf o = some (Status.OK, some k, s1))
    (hr : o.read ≠ Status.OK) :
    s.readPage o file PageNo =
      some (Status.UNIXERR, none, { s1 with log := s1.log ++ [StoreCall.readPage file PageNo] }) := by
  simp [BufMgr.readPage, BufMgr.htLookup, hn, ha, BufMgr.fileReadPage, hr]

theorem readPage_miss_ok (s : BufMgr) (o : Oracle) (file : FilePtr) (PageNo : Int)
    (k : Nat) (s1 : BufMgr)
    (hn : s.hashTable file PageNo = none) (ha : s.allocBuf o = some (Status.OK, some k, s1))
    (hr : o.read = Status.OK) (hn1 : s1.hashTable file PageNo = none) :
    s.readPage o file PageNo = some (Status.OK, some k, s1.afterLoad file PageNo k) := by
  simp [BufMgr.readPage, BufMgr.htLookup, hn, ha, BufMgr.fileReadPage, hr, BufMgr.htInsert,
    BufMgr.setPage, hn1, BufMgr.setDesc, BufMgr.afterLoad]

/-- What every returning `allocBuf` call does: size and buffers are kept, no
Page Index entry is added, a failure hands out no frame, and a frame handed
out is in the pool, under the hand and cleared. -/
theorem allocBuf_frame {s s1 : BufMgr} {o : Oracle} {st : Status} {out : Option Nat}
    (h : s.allocBuf o = some (st, out, s1)) :
    s1.numBufs = s.numBufs ∧ s1.bufPool = s.bufPool ∧
    (∀ f p, s.hashTable f p = none → s1.hashTable f p = none) ∧
    (st ≠ Status.OK → out = none) ∧
    (st = Status.OK → ∃ k, out = some k ∧ k < s.numBufs ∧ s1.clockHand = k ∧
      s1.bufTable k = (s.bufTable k).Clear) := by
  obtain ⟨t, hsw, hlt, hc⟩ := allocBuf_cases s o _ h
  rcases hc with ⟨_, hb, s1', e, hev⟩ | ⟨_, _, st', s1', e, hev⟩ | ⟨e, _⟩
  · obtain ⟨rfl, rfl, rfl⟩ : st = Status.OK ∧ out = some t.clockHand ∧ s1 = s1' := by
      simpa using e
    refine ⟨hev.numBufs.trans hsw.numBufs, hev.bufPool.trans hsw.bufPool, fun f p hn => ?_,
      fun hne => absurd rfl hne, fun _ => ⟨t.clockHand, rfl, hlt, hev.clockHand, ?_⟩⟩
    · rw [hev.index]
      split_ifs
      · unfold BufMgr.indexWithoutHand
        split_ifs
        · rfl
        · rw [hsw.hashTable]; exact hn
      · rw [hsw.hashTable]; exact hn
    · rw [hev.hand]
      rcases hsw.table t.clockHand with e2 | ⟨_, _, e2⟩ <;> rw [e2] <;> rfl
  · obtain ⟨rfl, rfl, rfl⟩ : st = st' ∧ out = none ∧ s1 = s1' := by simpa using e
    refine ⟨hev.numBufs.trans hsw.numBufs, hev.bufPool.trans hsw.bufPool,
      fun f p hn => by rw [hev.index, hsw.hashTable]; exact hn, fun _ => rfl, fun hst => ?_⟩
    rcases hev.cause with ⟨e1, _⟩ | ⟨e1, _⟩ <;> rw [e1] at hst <;> exact Status.noConfusion hst
  · obtain ⟨rfl, rfl, rfl⟩ : st = Status.BUFFEREXCEEDED ∧ out = none ∧ s1 = t := by
      simpa using e
    exact ⟨hsw.numBufs, hsw.bufPool, fun f p hn => by rw [hsw.hashTable]; exact hn,
      fun _ => rfl, fun hst => Status.noConfusion hst⟩

theorem Consistent.afterLoad {s1 : BufMgr} (h : Consistent s1) (file : FilePtr) (PageNo : Int)
    (k : Nat) (hk : k < s1.numBufs) (hv : (s1.bufTable k).valid = false)
    (hn : s1.hashTable file PageNo = none) : Consistent (s1.afterLoad file PageNo k) := by
  refine h.install k hk file PageNo rfl h.hand hv hn ?_ (fun i hi => ?_) (fun f p => rfl)
  · simp [BufMgr.afterLoad, BufDesc.Set]
  · simp [BufMgr.afterLoad, hi]

/-- Preservation: `readPage` keeps a consistent pool consistent. -/
theorem readPage_consistent {s s1 : BufMgr} {o : Oracle} {file : FilePtr} {PageNo : Int}
    {st : Status} {pg : Option Nat} (hI : Consistent s)
    (h : s.readPage o file PageNo = some (st, pg, s1)) : Consistent s1 := by
  cases hk : s.hashTable file PageNo with
  | some k =>
    rw [readPage_hit s o file PageNo k hk] at h
    obtain ⟨-, -, rfl⟩ : Status.OK = st ∧ some k = pg ∧ s.afterHit k = s1 := by simpa using h
    refine hI.congr rfl hI.hand rfl (fun i => ?_) (fun i _ => ?_)
    · by_cases hi : i = k <;> simp [BufMgr.afterHit, hi]
    · by_cases hi : i = k <;> simp [BufMgr.afterHit, hi]
  | none =>
    cases ha : s.allocBuf o with
    | none =>
      rw [readPage_miss_diverge s o file PageNo hk ha] at h
      exact Option.noConfusion h
    | some r =>
      obtain ⟨st', out, s1'⟩ := r
      obtain ⟨hc, hN, hsub, hout⟩ := allocBuf_consistent hI ha
      by_cases hst : st' = Status.OK
      · subst hst
        obtain ⟨k, rfl, hk1, hv⟩ := hout rfl
        rw [← hN] at hk1
        by_cases hr : o.read = Status.OK
        · rw [readPage_miss_ok s o file PageNo k s1' hk ha hr (hsub _ _ hk)] at h
          obtain ⟨-, -, rfl⟩ := by simpa using h
          exact hc.afterLoad file PageNo k hk1 hv (hsub _ _ hk)
        · rw [readPage_miss_readfail s o file PageNo k s1' hk ha hr] at h
          obtain ⟨-, -, rfl⟩ := by simpa using h
          exact hc.congr rfl hc.hand rfl (fun _ => rfl) (fun _ _ => ⟨rfl, rfl⟩)
      · rw [readPage_miss_fail s o file PageNo st' out s1' hk ha hst] at h
        obtain ⟨-, -, rfl⟩ := by simpa using h
        exact hc

theorem allocPage_allocfail (s : BufMgr) (o : Oracle) (file : FilePtr)
    (ha : o.alloc ≠ Status.OK) :
    s.allocPage o file =
      some (Status.UNIXERR, none, none, s.logged (StoreCall.allocatePage file)) := by
  simp [BufMgr.allocPage, BufMgr.fileAllocatePage, ha, BufMgr.logged]

theorem allocPage_diverge (s : BufMgr) (o : Oracle) (file : FilePtr)
    (ha : o.alloc = Status.OK)
    (hb : (s.logged (StoreCall.allocatePage file)).allocBuf o = none) :
    s.allocPage o file = none := by
  unfold BufMgr.logged at hb
  simp [BufMgr.allocPage, BufMgr.fileAllocatePage, ha, hb]

theorem allocPage_nobuf (s : BufMgr) (o : Oracle) (file : FilePtr) (st : Status)
    (out : Option Nat) (s1 : BufMgr) (ha : o.alloc = Status.OK)
    (hb : (s.logged (StoreCall.allocatePage file)).allocBuf o = some (st, out, s1))
    (hst : st ≠ Status.OK) :
    s.allocPage o file = some (st, some o.newPage, none, s1) := by
  unfold BufMgr.logged at hb
  simp only [BufMgr.allocPage, BufMgr.fileAllocatePage, ha, hb]
  cases st <;> simp at hst ⊢

theorem allocPage_present (s : BufMgr) (o : Oracle) (file : FilePtr) (k j : Nat)
    (s1 : BufMgr) (ha : o.alloc = Status.OK)
    (hb : (s.logged (StoreCall.allocatePage file)).allocBuf o = some (Status.OK, some k, s1))
    (hp : s1.hashTable file o.newPage = some j) :
    s.allocPage o file = some (Status.HASHTBLERROR, some o.newPage, none, s1) := by
  unfold BufMgr.logged at hb
  simp [BufMgr.allocPage, BufMgr.fileAllocatePage, ha, hb, BufMgr.htInsert, hp]

theorem allocPage_ok (s : BufMgr) (o : Oracle) (file : FilePtr) (k : Nat)
    (s1 : BufMgr) (ha : o.alloc = Status.OK)
    (hb : (s.logged (StoreCall.allocatePage file)).allocBuf o = some (Status.OK, some k, s1))
    (hp : s1.hashTable file o.newPage = none) :
    s.allocPage o file =
      some (Status.OK, some o.newPage, some k, s1.afterAlloc file o.newPage k) := by
  unfold BufMgr.logged at hb
  simp [BufMgr.allocPage, BufMgr.fileAllocatePage, ha, hb, BufMgr.htInsert, hp, BufMgr.setDesc,
    BufMgr.afterAlloc]

theorem Consistent.logged {s : BufMgr} (h : Consistent s) (c : StoreCall) :
    Consistent (s.logged c) :=
  h.congr rfl h.hand rfl (fun _ => rfl) (fun _ _ => ⟨rfl, rfl⟩)

theorem Consistent.afterAlloc {s1 : BufMgr} (h : Consistent s1) (file : FilePtr) (PageNo : Int)
    (k : Nat) (hk : k < s1.numBufs) (hv : (s1.bufTable k).valid = false)
    (hn : s1.hashTable file PageNo = none) : Consistent (s1.afterAlloc file PageNo k) := by
  refine h.install k hk file PageNo rfl h.hand hv hn ?_ (fun i hi => ?_) (fun f p => rfl)
  · simp [BufMgr.afterAlloc, BufDesc.Set]
  · simp [BufMgr.afterAlloc, hi]

/-- Preservation: `allocPage` keeps a consistent pool consistent. -/
theorem allocPage_consistent {s s1 : BufMgr} {o : Oracle} {file : FilePtr}
    {st : Status} {pn : Option Int} {pg : Option Nat} (hI : Consistent s)
    (h : s.allocPage o file = some (st, pn, pg, s1)) : Consistent s1 := by
  by_cases ha : o.alloc = Status.OK
  · cases hb : (s.logged (StoreCall.allocatePage file)).allocBuf o with
    | none =>
      rw [allocPage_diverge s o file ha hb] at h
      exact Option.noConfusion h
    | some r =>
      obtain ⟨st', out, s1'⟩ := r
      obtain ⟨hc, hN, hsub, hout⟩ := allocBuf_consistent (hI.logged _) hb
      by_cases hst : st' = Status.OK
      · subst hst
        obtain ⟨k, rfl, hk1, hv⟩ := hout rfl
        rw [← hN] at hk1
        cases hp : s1'.hashTable file o.newPage with
        | some j =>
          rw [allocPage_present s o file k j s1' ha hb hp] at h
          obtain ⟨-, -, -, rfl⟩ := by simpa using h
          exact hc
        | none =>
          rw [allocPage_ok s o file k s1' ha hb hp] at h
          obtain ⟨-, -, -, rfl⟩ := by simpa using h
          exact hc.afterAlloc file o.newPage k hk1 hv hp
      · rw [allocPage_nobuf s o file st' out s1' ha hb hst] at h
        obtain ⟨-, -, -, rfl⟩ := by simpa using h
        exact hc
  · rw [allocPage_allocfail s o file ha] at h
    obtain ⟨-, -, -, rfl⟩ := by simpa using h
    exact hI.logged _

theorem unPinPage_notfound (s : BufMgr) (file : FilePtr) (PageNo : Int) (dirty : Bool)
    (hn : s.hashTable file PageNo = none) :
    s.unPinPage file PageNo dirty = (Status.HASHNOTFOUND, s) := by
  simp [BufMgr.unPinPage, BufMgr.htLookup, hn]

theorem unPinPage_notpinned (s : BufMgr) (file : FilePtr) (PageNo : Int) (dirty : Bool)
    (k : Nat) (hk : s.hashTable file PageNo = some k) (hp : (s.bufTable k).pinCnt ≤ 0) :
    s.unPinPage file PageNo dirty = (Status.PAGENOTPINNED, s) := by
  simp [BufMgr.unPinPage, BufMgr.htLookup, hk, hp]

theorem unPinPage_ok (s : BufMgr) (file : FilePtr) (PageNo : Int) (dirty : Bool)
    (k : Nat) (hk : s.hashTable file PageNo = some k) (hp : (s.bufTable k).pinCnt > 0) :
    s.unPinPage file PageNo dirty =
      (Status.OK, s.setDesc k { s.bufTable k with
        pinCnt := (s.bufTable k).pinCnt - 1, dirty := (s.bufTable k).dirty || dirty }) := by
  have hp' : ¬ (s.bufTable k).pinCnt ≤ 0 := not_le.mpr hp
  cases dirty <;> simp [BufMgr.unPinPage, BufMgr.htLookup, hk, hp']

/-- Preservation: `unPinPage` keeps a consistent pool consistent. -/
theorem unPinPage_consistent {s : BufMgr} (hI : Consistent s) (file : FilePtr) (PageNo : Int)
    (dirty : Bool) : Consistent (s.unPinPage file PageNo dirty).2 := by
  cases hk : s.hashTable file PageNo with
  | none =>
    rw [unPinPage_notfound s file PageNo dirty hk]
    exact hI
  | some k =>
    by_cases hp : (s.bufTable k).pinCnt > 0
    · rw [unPinPage_ok s file PageNo dirty k hk hp]
      refine hI.congr rfl hI.hand rfl (fun i => ?_) (fun i _ => ?_) <;>
        by_cases hi : i = k <;> simp [BufMgr.setDesc, hi]
    · rw [unPinPage_notpinned s file PageNo dirty k hk (not_lt.mp hp)]
      exact hI

/-- Preservation: `disposePage` keeps a consistent pool consistent. -/
theorem disposePage_consistent {s : BufMgr} (hI : Consistent s) (o : Oracle) (file : FilePtr)
    (pageNo : Int) : Consistent (s.disposePage o file pageNo).2 := by
  cases hk : s.hashTable file pageNo with
  | none =>
    have e : (s.disposePage o file pageNo).2 = s.logged (StoreCall.disposePage file pageNo) := by
      simp [BufMgr.disposePage, BufMgr.htLookup, hk, BufMgr.htRemove, BufMgr.fileDisposePage,
        BufMgr.logged]
    rw [e]
    exact hI.logged _
  | some k =>
    obtain ⟨h1, h2, h3, h4⟩ := hI.entry file pageNo k hk
    refine hI.drop k h1 ?_ ?_ h2 ?_ (fun i hi => ?_) (fun f p => ?_)
    · simp [BufMgr.disposePage, BufMgr.htLookup, hk, BufMgr.htRemove, BufMgr.fileDisposePage,
        BufMgr.setDesc]
    · simpa [BufMgr.disposePage, BufMgr.htLookup, hk, BufMgr.htRemove, BufMgr.fileDisposePage,
        BufMgr.setDesc] using hI.hand
    · simp [BufMgr.disposePage, BufMgr.htLookup, hk, BufMgr.htRemove, BufMgr.fileDisposePage,
        BufMgr.setDesc, BufDesc.Clear]
    · simp [BufMgr.disposePage, BufMgr.htLookup, hk, BufMgr.htRemove, BufMgr.fileDisposePage,
        BufMgr.setDesc, hi]
    · simp [BufMgr.disposePage, BufMgr.htLookup, hk, BufMgr.htRemove, BufMgr.fileDisposePage,
        BufMgr.setDesc, h3, h4]

/-- One iteration of the `flushFile` loop keeps a consistent pool consistent. -/
theorem flushFrame_consistent {s : BufMgr} (hI : Consistent s) (o : Oracle) (file : FilePtr)
    (i : Nat) (hi : i < s.numBufs) :
    Consistent (s.flushFrame o file i).2 ∧ (s.flushFrame o file i).2.numBufs = s.numBufs := by
  by_cases hvf : (s.bufTable i).valid = true ∧ (s.bufTable i).file = file
  · have hk := hI.mapped i hi hvf.1
    obtain ⟨hv, rfl⟩ := hvf
    by_cases hp : (s.bufTable i).pinCnt > 0
    · simp [BufMgr.flushFrame, hv, hp]
      exact hI
    · by_cases hd : (s.bufTable i).dirty = true
      · by_cases hw : o.write i = Status.OK
        · refine ⟨hI.drop i hi ?_ ?_ hv ?_ (fun j hj => ?_) (fun f p => ?_), ?_⟩ <;>
            simp [BufMgr.flushFrame, hv, hp, hd, hw, BufMgr.fileWritePage, BufMgr.htRemove, hk,
              BufMgr.setDesc]
          · exact hI.hand
          · simp [hj]
        · refine ⟨hI.congr ?_ ?_ ?_ (fun j => ?_) (fun j _ => ?_), ?_⟩ <;>
            simp [BufMgr.flushFrame, hv, hp, hd, hw, BufMgr.fileWritePage]
          exact hI.hand
      · refine ⟨hI.drop i hi ?_ ?_ hv ?_ (fun j hj => ?_) (fun f p => ?_), ?_⟩ <;>
          simp [BufMgr.flushFrame, hv, hp, hd, BufMgr.htRemove, hk, BufMgr.setDesc]
        · exact hI.hand
        · simp [hj]
  · by_cases hb : (s.bufTable i).valid = false ∧ (s.bufTable i).file = file
    · simp only [BufMgr.flushFrame, if_neg hvf, if_pos hb]
      exact ⟨hI, trivial⟩
    · simp only [BufMgr.flushFrame, if_neg hvf, if_neg hb]
      exact ⟨hI, trivial⟩

theorem flushLoop_consistent (o : Oracle) (file : FilePtr) :
    ∀ (n i : Nat) (s : BufMgr), Consistent s → i + n ≤ s.numBufs →
      Consistent (BufMgr.flushLoop o file n i s).2 := by
  intro n
  induction n with
  | zero => intro i s hI _; exact hI
  | succ n ih =>
    intro i s hI hin
    obtain ⟨h1, h2⟩ := flushFrame_consistent hI o file i (by omega)
    rw [BufMgr.flushLoop]
    rcases hfr : s.flushFrame o file i with ⟨_ | st, s1⟩
    · rw [hfr] at h1 h2
      exact ih (i + 1) s1 h1 (by rw [h2]; omega)
    · rw [hfr] at h1
      exact h1

/-- Preservation: `flushFile` keeps a consistent pool consistent. -/
theorem flushFile_consistent {s : BufMgr} (hI : Consistent s) (o : Oracle) (file : FilePtr) :
    Consistent (s.flushFile o file).2 :=
  flushLoop_consistent o file s.numBufs 0 s hI (by omega)

/-- Every reachable pool is consistent. -/
theorem reachable_consistent {s : BufMgr} (h : Reachable s) : Consistent s := by
  induction h with
  | init bufs disk h => exact Consistent.new bufs disk h
  | readPage o file PageNo st pg _ _ h ih => exact readPage_consistent ih h
  | unPinPage file PageNo dirty _ ih => exact unPinPage_consistent ih file PageNo dirty
  | allocPage o file st pn pg _ _ h ih => exact allocPage_consistent ih h
  | disposePage o file pageNo _ _ ih => exact disposePage_consistent ih o file pageNo
  | flushFile o file _ ih => exact flushFile_consistent ih o file
  | writeBuf frameNo content _ ih =>
    exact ih.congr rfl ih.hand rfl (fun _ => rfl) (fun _ _ => ⟨rfl, rfl⟩)

theorem reachable_exPinned2 : Reachable exPinned2 :=
  Reachable.readPage okOracle 1 1 Status.OK (some 1)
    (Reachable.readPage okOracle 1 0 Status.OK (some 0) (Reachable.init 2 exDisk (by decide))
      (by decide) rfl)
    (by decide) rfl

theorem reachable_exReleased : Reachable exReleased :=
  Reachable.unPinPage 1 1 true (Reachable.writeBuf 1 55 reachable_exPinned2)

theorem reachable_exSwept : Reachable exSwept :=
  Reachable.readPage okOracle 1 2 Status.BUFFEREXCEEDED none reachable_exReleased (by decide) rfl

/-- C2: index/descriptor consistency is an invariant.  In every state
reachable from the constructor by `readPage`, `unPinPage`, `allocPage`,
`disposePage` and `flushFile` calls (and client stores into frame buffers),
whatever the Page Stores answer, every valid frame has exactly one Page Index
entry, the one under its (file, page number), and every Page Index entry points
to a valid frame of the pool with the same (file, page number). -/
theorem reachable_index_consistent (s : BufMgr) (h : Reachable s) :
    (∀ k, k < s.numBufs → (s.bufTable k).valid = true →
      ∀ f p, s.hashTable f p = some k ↔ (f = (s.bufTable k).file ∧ p = (s.bufTable k).pageNo)) ∧
    (∀ f p k, s.hashTable f p = some k →
      k < s.numBufs ∧ (s.bufTable k).valid = true ∧ (s.bufTable k).file = f ∧
        (s.bufTable k).pageNo = p) := by
  have hI := reachable_consistent h
  refine ⟨fun k hk hv f p => ⟨fun hfp => ?_, fun hfp => ?_⟩, hI.entry⟩
  · obtain ⟨_, _, h3, h4⟩ := hI.entry f p k hfp
    exact ⟨h3.symm, h4.symm⟩
  · rw [hfp.1, hfp.2]
    exact hI.mapped k hk hv

/-- Instance of C2 at the pool `exSwept` (two frames holding pages (1, 0) and
(1, 1)). -/
theorem reachable_index_consistent_witness :
    (∀ k, k < exSwept.numBufs → (exSwept.bufTable k).valid = true →
      ∀ f p, exSwept.hashTable f p = some k ↔
        (f = (exSwept.bufTable k).file ∧ p = (exSwept.bufTable k).pageNo)) ∧
    (∀ f p k, exSwept.hashTable f p = some k →
      k < exSwept.numBufs ∧ (exSwept.bufTable k).valid = true ∧ (exSwept.bufTable k).file = f ∧
        (exSwept.bufTable k).pageNo = p) :=
  reachable_index_consistent exSwept reachable_exSwept

/-! ### Write-back, victim selection and pool exhaustion -/

/-- C4: dirty write-back on eviction.  Whenever `allocBuf` returns `OK` with
victim `v`: if `v` was valid and dirty before the call, exactly one Page Store
call was issued, a `writePage` on the victim's file with the victim's page
number (as the descriptor held them before it was cleared) and the content of
the victim's buffer, the stored page now has that content, and the disk-write
counter went up by exactly 1; if `v` was not dirty or not valid, no Page Store
call was issued, the stored pages are as before and the counters are
unchanged. -/
theorem allocBuf_writes_back (s : BufMgr) (o : Oracle) (v : Nat) (s1 : BufMgr)
    (h : s.allocBuf o = some (Status.OK, some v, s1)) :
    ((s.bufTable v).valid = true ∧ (s.bufTable v).dirty = true →
      s1.log = s.log ++ [StoreCall.writePage (s.bufTable v).file (s.bufTable v).pageNo
        (s.bufPool v)] ∧
      s1.disk (s.bufTable v).file (s.bufTable v).pageNo = s.bufPool v ∧
      s1.bufStats = { s.bufStats with diskwrites := s.bufStats.diskwrites + 1 }) ∧
    (¬ ((s.bufTable v).valid = true ∧ (s.bufTable v).dirty = true) →
      s1.log = s.log ∧ s1.disk = s.disk ∧ s1.bufStats = s.bufStats) := by
  obtain ⟨t, hsw, hlt, hc⟩ := allocBuf_cases s o _ h
  have hfld := hsw.fields t.clockHand
  rcases hc with ⟨_, _, s1', e, hev⟩ | ⟨_, _, st', s1', e, hev⟩ | ⟨e, _⟩
  · obtain ⟨rfl, rfl⟩ : v = t.clockHand ∧ s1 = s1' := by simpa using e
    rw [← hfld.1, ← hfld.2.1, ← hfld.2.2.2.2.1, ← hfld.2.2.2.2.2.1, ← hsw.bufPool, ← hsw.log,
      ← hsw.disk, ← hsw.bufStats]
    refine ⟨fun hvd => ?_, fun hvd => hev.untouched hvd⟩
    obtain ⟨_, h2, h3, h4⟩ := hev.written hvd.1 hvd.2
    refine ⟨h2, ?_, h4⟩
    rw [h3]
    simp [BufMgr.diskWithHand]
  · simp at e
  · simp at e

/-- Instance of C4: evicting the dirty frame 1 of `exSwept` writes its buffer
(content 55) to page (1, 1). -/
theorem allocBuf_writes_back_witness :
    ((exSwept.bufTable 1).valid = true ∧ (exSwept.bufTable 1).dirty = true) ∧
    (stateOf (exSwept.allocBuf okOracle) exSwept).log =
      exSwept.log ++ [StoreCall.writePage 1 1 55] ∧
    (stateOf (exSwept.allocBuf okOracle) exSwept).bufStats.diskwrites =
      exSwept.bufStats.diskwrites + 1 :=
  ⟨by decide,
    ((allocBuf_writes_back exSwept okOracle 1 (stateOf (exSwept.allocBuf okOracle) exSwept)
      rfl).1 (by decide)).1,
    congrArg BufStats.diskwrites
      ((allocBuf_writes_back exSwept okOracle 1 (stateOf (exSwept.allocBuf okOracle) exSwept)
        rfl).1 (by decide)).2.2⟩

/-- C6: pool exhaustion.  In a pool of `N ≥ 1` frames that are all pinned,
`readPage` of a page that is not cached returns `BUFFEREXCEEDED` and leaves
the whole state as it was: descriptor table, Page Index, clock hand,
statistics, buffers and Page Stores. -/
theorem readPage_pool_exhausted (s : BufMgr) (o : Oracle) (file : FilePtr) (PageNo : Int)
    (hN : 1 ≤ s.numBufs) (hh : s.clockHand < s.numBufs)
    (hpin : ∀ i, i < s.numBufs → (s.bufTable i).pinCnt > 0)
    (hmiss : s.hashTable file PageNo = none) :
    s.readPage o file PageNo = some (Status.BUFFEREXCEEDED, none, s) := by
  rcases allocBuf_run s o hN hh with ⟨k, t, hk, hto, hth, hrep, hsame, hl⟩ | ⟨t, hto, hth, hl⟩
  · rw [hth] at hrep
    exact absurd (hpin _ (Nat.mod_lt _ hN)) hrep.1
  · have htab : t.bufTable = s.bufTable := by
      funext i
      rcases hto.swept.table i with e | ⟨hi, hp, _⟩
      · exact e
      · exact absurd (hpin i hi) hp
    have hts : t = s := by
      have h1 := hto.swept
      cases s
      cases t
      simp only [BufMgr.mk.injEq]
      exact ⟨h1.numBufs, htab, h1.bufPool, h1.hashTable, hth, h1.bufStats, h1.disk, h1.log⟩
    rw [hts] at hl
    exact readPage_miss_fail s o file PageNo _ none s hmiss hl (by decide)

/-- Instance of C6: with both frames of `exPinned2` pinned, `readPage(1, 2)`
finds no frame. -/
theorem readPage_pool_exhausted_witness :
    exPinned2.readPage okOracle 1 2 = some (Status.BUFFEREXCEEDED, none, exPinned2) :=
  readPage_pool_exhausted exPinned2 okOracle 1 2 (by decide) (by decide) (by decide) (by decide)

theorem reachable_exOne : Reachable exOne :=
  Reachable.unPinPage 1 0 false
    (Reachable.readPage okOracle 1 0 Status.OK (some 0) (Reachable.init 1 exDisk (by decide))
      (by decide) rfl)

/-- C7, evaluated on the code: in the reachable pool `exOne` the only frame
has pin count 0, yet `allocBuf` (and with it `readPage(1, 1)`) returns
`BUFFEREXCEEDED`, because the single pass only clears the reference bit; the
same `readPage(1, 1)` repeated at once returns `OK`. -/
theorem allocBuf_exceeded_with_unpinned_frame :
    Reachable exOne ∧ exOne.numBufs = 1 ∧ (exOne.bufTable 0).pinCnt = 0 ∧
    (exOne.allocBuf okOracle).map (fun r => r.1) = some Status.BUFFEREXCEEDED ∧
    (exOne.readPage okOracle 1 1).map (fun r => r.1) = some Status.BUFFEREXCEEDED ∧
    ((stateOf (exOne.readPage okOracle 1 1) exOne).readPage okOracle 1 1).map (fun r => r.1) =
      some Status.OK :=
  ⟨reachable_exOne, by decide, by decide, by decide, by decide, by decide⟩

/-! ### `readPage` and `unPinPage` -/

/-- A successful `readPage` of a page that was not cached went through
`allocBuf`, a successful Page Store read and the registration of the page. -/
theorem readPage_miss_inv {s s1 : BufMgr} {o : Oracle} {file : FilePtr} {PageNo : Int} {k : Nat}
    (hmiss : s.hashTable file PageNo = none)
    (h : s.readPage o file PageNo = some (Status.OK, some k, s1)) :
    ∃ s0, s.allocBuf o = some (Status.OK, some k, s0) ∧ o.read = Status.OK ∧
      s0.hashTable file PageNo = none ∧ s1 = s0.afterLoad file PageNo k := by
  cases ha : s.allocBuf o with
  | none =>
    rw [readPage_miss_diverge s o file PageNo hmiss ha] at h
    exact Option.noConfusion h
  | some r =>
    obtain ⟨st', out, s0⟩ := r
    obtain ⟨_, _, hsub, _, hout⟩ := allocBuf_frame ha
    by_cases hst : st' = Status.OK
    · subst hst
      obtain ⟨k', rfl, _, _⟩ := hout rfl
      by_cases hr : o.read = Status.OK
      · rw [readPage_miss_ok s o file PageNo k' s0 hmiss ha hr (hsub _ _ hmiss)] at h
        obtain ⟨rfl, rfl⟩ : k' = k ∧ s0.afterLoad file PageNo k' = s1 := by simpa using h
        exact ⟨s0, rfl, hr, hsub _ _ hmiss, rfl⟩
      · rw [readPage_miss_readfail s o file PageNo k' s0 hmiss ha hr] at h
        simp at h
    · rw [readPage_miss_fail s o file PageNo st' out s0 hmiss ha hst] at h
      exact absurd (congrArg Prod.fst (Option.some.inj h)) hst

/-- The Page Store calls and counters of a successful `allocBuf`: at most
write-backs are issued, and neither the access nor the disk-read counter
moves. -/
theorem allocBuf_ok_calls {s s1 : BufMgr} {o : Oracle} {v : Nat}
    (h : s.allocBuf o = some (Status.OK, some v, s1)) :
    (∃ pre, s1.log = s.log ++ pre ∧ ∀ c ∈ pre, ∃ f p b, c = StoreCall.writePage f p b) ∧
    s1.bufStats.accesses = s.bufStats.accesses ∧
    s1.bufStats.diskreads = s.bufStats.diskreads := by
  obtain ⟨t, hsw, hlt, hc⟩ := allocBuf_cases s o _ h
  rcases hc with ⟨_, _, s1', e, hev⟩ | ⟨_, _, st', s1', e, hev⟩ | ⟨e, _⟩
  · obtain ⟨rfl, rfl⟩ : v = t.clockHand ∧ s1 = s1' := by simpa using e
    by_cases hvd : (t.bufTable t.clockHand).valid = true ∧ (t.bufTable t.clockHand).dirty = true
    · obtain ⟨_, h2, _, h4⟩ := hev.written hvd.1 hvd.2
      rw [h2, h4, hsw.log, hsw.bufStats]
      refine ⟨⟨[t.writeOfHand], rfl, fun c hc => ?_⟩, rfl, rfl⟩
      rw [List.mem_singleton.1 hc]
      exact ⟨_, _, _, rfl⟩
    · obtain ⟨h2, _, h4⟩ := hev.untouched hvd
      rw [h2, h4, hsw.log, hsw.bufStats]
      exact ⟨⟨[], by simp, fun c hc => absurd hc (List.not_mem_nil c)⟩, rfl, rfl⟩
  · simp at e
  · simp at e

/-- C8: double fetch.  When (`file`, `PageNo`) is not cached and a first
`readPage` of it returns `OK` with frame `k`, a second `readPage` of it
returns `OK` with the same frame; afterwards frame `k` has `pinCnt = 2` and
`refbit = true`, the two calls together issued exactly one Page Store
`readPage` (next to the write-back of an evicted frame), the disk-read counter
went up by 1 and the access counter by 2; the second call issued no Page Store
call and changed nothing but `pinCnt` and `refbit` of frame `k` and the access
counter. -/
theorem readPage_twice (s : BufMgr) (o1 o2 : Oracle) (file : FilePtr) (PageNo : Int) (k : Nat)
    (s1 : BufMgr) (hmiss : s.hashTable file PageNo = none)
    (h1 : s.readPage o1 file PageNo = some (Status.OK, some k, s1)) :
    ∃ s2, s1.readPage o2 file PageNo = some (Status.OK, some k, s2) ∧
      (s2.bufTable k).pinCnt = 2 ∧ (s2.bufTable k).refbit = true ∧
      s2.bufStats.diskreads = s.bufStats.diskreads + 1 ∧
      s2.bufStats.accesses = s.bufStats.accesses + 2 ∧
      (∃ pre, s2.log = s.log ++ pre ++ [StoreCall.readPage file PageNo] ∧
        ∀ c ∈ pre, ∃ f p b, c = StoreCall.writePage f p b) ∧
      s2.log = s1.log ∧ s2.disk = s1.disk ∧ s2.bufPool = s1.bufPool ∧
      s2.hashTable = s1.hashTable ∧ s2.clockHand = s1.clockHand ∧ s2.numBufs = s1.numBufs ∧
      s2.bufStats = { s1.bufStats with accesses := s1.bufStats.accesses + 1 } ∧
      (∀ i, i ≠ k → s2.bufTable i = s1.bufTable i) ∧
      s2.bufTable k =
        { s1.bufTable k with pinCnt := (s1.bufTable k).pinCnt + 1, refbit := true } := by
  obtain ⟨s0, ha, _, _, rfl⟩ := readPage_miss_inv hmiss h1
  obtain ⟨⟨pre, hlog, hpre⟩, hacc, hrd⟩ := allocBuf_ok_calls ha
  have hk : (s0.afterLoad file PageNo k).hashTable file PageNo = some k := by
    simp [BufMgr.afterLoad]
  refine ⟨(s0.afterLoad file PageNo k).afterHit k, readPage_hit _ o2 file PageNo k hk, ?_, ?_, ?_,
    ?_, ⟨pre, ?_, hpre⟩, rfl, rfl, rfl, rfl, rfl, rfl, rfl, fun i hi => ?_, ?_⟩
  · simp [BufMgr.afterHit, BufMgr.afterLoad, BufDesc.Set]
    rfl
  · simp [BufMgr.afterHit, BufMgr.afterLoad, BufDesc.Set]
  · simp [BufMgr.afterHit, BufMgr.afterLoad, hrd]
  · simp [BufMgr.afterHit, BufMgr.afterLoad, hacc]
    omega
  · simp [BufMgr.afterHit, BufMgr.afterLoad, hlog]
  · simp [BufMgr.afterHit, hi]
  · have hw2 : wrapInt 2 = 2 := rfl
    simp [BufMgr.afterHit, BufMgr.afterLoad, BufDesc.Set, hw2]

/-- Instance of C8: two `readPage(1, 0)` calls on a fresh pool of two frames. -/
theorem readPage_twice_witness :
    ∃ s2, (stateOf ((BufMgr.new 2 exDisk).readPage okOracle 1 0) (BufMgr.new 2 exDisk)).readPage
        okOracle 1 0 = some (Status.OK, some 0, s2) ∧
      (s2.bufTable 0).pinCnt = 2 ∧ (s2.bufTable 0).refbit = true ∧
      s2.bufStats.diskreads = 1 ∧ s2.bufStats.accesses = 2 :=
  match readPage_twice (BufMgr.new 2 exDisk) okOracle okOracle 1 0 0
      (stateOf ((BufMgr.new 2 exDisk).readPage okOracle 1 0) (BufMgr.new 2 exDisk)) rfl rfl with
  | ⟨s2, h, hp, hr, hd, ha, _⟩ => ⟨s2, h, hp, hr, hd, ha⟩

/-- C9: the error cases of `unPinPage` are atomic.  For either value of
`dirty`: when (`file`, `PageNo`) has no Page Index entry the call returns
`HASHNOTFOUND`, when the frame it is mapped to has `pinCnt = 0` the call
returns `PAGENOTPINNED`, and in both cases the state handed back is the state
before the call (descriptor table with its dirty flags, Page Index, clock
hand, statistics and everything else). -/
theorem unPinPage_errors_atomic (s : BufMgr) (file : FilePtr) (PageNo : Int) (dirty : Bool) :
    (s.hashTable file PageNo = none →
      s.unPinPage file PageNo dirty = (Status.HASHNOTFOUND, s)) ∧
    (∀ k, s.hashTable file PageNo = some k → (s.bufTable k).pinCnt = 0 →
      s.unPinPage file PageNo dirty = (Status.PAGENOTPINNED, s)) :=
  ⟨unPinPage_notfound s file PageNo dirty,
    fun k hk hp => unPinPage_notpinned s file PageNo dirty k hk (le_of_eq hp)⟩

/-- Instance of C9 at `exSwept`: page (1, 5) is not cached, page (1, 1) is
cached in frame 1 with pin count 0. -/
theorem unPinPage_errors_atomic_witness :
    exSwept.unPinPage 1 5 true = (Status.HASHNOTFOUND, exSwept) ∧
    exSwept.unPinPage 1 1 true = (Status.PAGENOTPINNED, exSwept) :=
  ⟨(unPinPage_errors_atomic exSwept 1 5 true).1 (by decide),
    (unPinPage_errors_atomic exSwept 1 1 true).2 1 (by decide) (by decide)⟩

/-- C10: `unPinPage` success.  When (`file`, `PageNo`) is mapped to frame `k`
with `pinCnt > 0`, the call returns `OK`; the new pin count of `k` is the old
one minus 1, the new dirty flag is the old one OR `dirty`, the other fields of
`k`, every other frame, the Page Index, the buffers, the clock hand, the
statistics and the Page Stores (content and calls) are unchanged. -/
theorem unPinPage_success (s : BufMgr) (file : FilePtr) (PageNo : Int) (dirty : Bool) (k : Nat)
    (hk : s.hashTable file PageNo = some k) (hp : (s.bufTable k).pinCnt > 0) :
    ∃ s1, s.unPinPage file PageNo dirty = (Status.OK, s1) ∧
      s1.bufTable k = { s.bufTable k with
        pinCnt := (s.bufTable k).pinCnt - 1, dirty := (s.bufTable k).dirty || dirty } ∧
      (∀ i, i ≠ k → s1.bufTable i = s.bufTable i) ∧
      s1.hashTable = s.hashTable ∧ s1.bufPool = s.bufPool ∧ s1.clockHand = s.clockHand ∧
      s1.numBufs = s.numBufs ∧ s1.bufStats = s.bufStats ∧ s1.disk = s.disk ∧ s1.log = s.log := by
  refine ⟨_, unPinPage_ok s file PageNo dirty k hk hp, ?_, fun i hi => ?_, rfl, rfl, rfl, rfl,
    rfl, rfl, rfl⟩
  · simp [BufMgr.setDesc]
  · simp [BufMgr.setDesc, hi]

/-- Instance of C10: releasing the pinned page (1, 0) of `exPinned2` clean. -/
theorem unPinPage_success_witness :
    ∃ s1, exPinned2.unPinPage 1 0 false = (Status.OK, s1) ∧
      (s1.bufTable 0).pinCnt = 0 ∧ (s1.bufTable 0).dirty = false :=
  match unPinPage_success exPinned2 1 0 false 0 (by decide) (by decide) with
  | ⟨s1, h, hd, _⟩ => ⟨s1, h, by rw [hd]; decide, by rw [hd]; decide⟩

/-! ### Round trip through eviction -/

/-- In a non-empty pool with the hand inside it `allocBuf` returns. -/
theorem allocBuf_total (s : BufMgr) (o : Oracle) (hN : 1 ≤ s.numBufs)
    (hh : s.clockHand < s.numBufs) : ∃ r, s.allocBuf o = some r := by
  rcases allocBuf_run s o hN hh with ⟨_, t, _, _, _, _, _, hl⟩ | ⟨t, _, _, hl⟩
  · exact ⟨_, hl⟩
  · exact ⟨_, hl⟩

/-- Every frame of the pool is met by one pass of the hand. -/
theorem exists_offset (h i N : Nat) (hh : h < N) (hi : i < N) :
    ∃ j, 1 ≤ j ∧ j ≤ N ∧ (h + j) % N = i := by
  by_cases hlt : h < i
  · refine ⟨i - h, by omega, by omega, ?_⟩
    rw [show h + (i - h) = i by omega, Nat.mod_eq_of_lt hi]
  · refine ⟨i + N - h, by omega, by omega, ?_⟩
    rw [show h + (i + N - h) = i + N by omega, Nat.add_mod_right, Nat.mod_eq_of_lt hi]

/-- When a frame of the pool is replaceable, the sweep does not come back
empty-handed. -/
theorem allocBuf_not_exceeded (s : BufMgr) (o : Oracle) (hN : 1 ≤ s.numBufs)
    (hh : s.clockHand < s.numBufs) (i : Nat) (hi : i < s.numBufs)
    (hrep : (s.bufTable i).replaceable) (out : Option Nat) (s1 : BufMgr) :
    s.allocBuf o ≠ some (Status.BUFFEREXCEEDED, out, s1) := by
  intro h
  rcases allocBuf_run s o hN hh with ⟨_, t, _, _, _, _, _, hl⟩ | ⟨t, hto, _, _⟩
  · have e : t.allocBufVictim o = (Status.BUFFEREXCEEDED, out, s1) :=
      Option.some.inj (hl.symm.trans h)
    rcases allocBufVictim_spec t o with ⟨r, e1, _⟩ | ⟨st, r, e1, hev⟩
    · rw [e1] at e
      simp at e
    · rw [e1] at e
      obtain ⟨rfl, -⟩ : st = Status.BUFFEREXCEEDED ∧ _ := by simpa using e
      rcases hev.cause with ⟨e2, _⟩ | ⟨e2, _⟩ <;> exact Status.noConfusion e2
  · obtain ⟨j, h1, h2, rfl⟩ := exists_offset s.clockHand i s.numBufs hh hi
    exact (hto.skipped j h1 h2).1 hrep

/-- What the eviction of the dirty frame `k` holding page (`f`, `p`) leaves: a
consistent pool without entry for (`f`, `p`), the buffer content in the Page
Store, and frame `k` replaceable. -/
theorem evicted_dirty_page {s s0 : BufMgr} {o : Oracle} {f : FilePtr} {p : Int} {k : Nat}
    (hI : Consistent s) (hk : s.hashTable f p = some k) (hd : (s.bufTable k).dirty = true)
    (h : s.allocBuf o = some (Status.OK, some k, s0)) :
    Consistent s0 ∧ s0.hashTable f p = none ∧ s0.disk f p = s.bufPool k ∧
    s0.bufPool = s.bufPool ∧ k < s0.numBufs ∧
    (s0.bufTable k).pinCnt = 0 ∧ (s0.bufTable k).refbit = false := by
  obtain ⟨hc, hN, _, _⟩ := allocBuf_consistent hI h
  obtain ⟨_, hpool, _, _, hout⟩ := allocBuf_frame h
  obtain ⟨k', hk', hlt, _, hclear⟩ := hout rfl
  obtain rfl : k = k' := Option.some.inj hk'
  obtain ⟨_, hv, hfile, hpage⟩ := hI.entry f p k hk
  refine ⟨hc, ?_, ?_, hpool, by rw [hN]; exact hlt, ?_⟩
  · obtain ⟨t, hsw, _, hcs⟩ := allocBuf_cases s o _ h
    rcases hcs with ⟨_, _, s1', e, hev⟩ | ⟨_, _, st', s1', e, hev⟩ | ⟨e, _⟩
    · obtain ⟨rfl, rfl⟩ : k = t.clockHand ∧ s0 = s1' := by simpa using e
      have hfld := hsw.fields t.clockHand
      rw [hev.index, if_pos (by rw [hfld.2.2.2.2.2.1]; exact hv)]
      simp [BufMgr.indexWithoutHand, hfld.1, hfld.2.1, hfile, hpage]
    · simp at e
    · simp at e
  · obtain ⟨t, hsw, _, hcs⟩ := allocBuf_cases s o _ h
    rcases hcs with ⟨_, _, s1', e, hev⟩ | ⟨_, _, st', s1', e, hev⟩ | ⟨e, _⟩
    · obtain ⟨rfl, rfl⟩ : k = t.clockHand ∧ s0 = s1' := by simpa using e
      have hfld := hsw.fields t.clockHand
      obtain ⟨_, _, h3, _⟩ := hev.written (by rw [hfld.2.2.2.2.2.1]; exact hv)
        (by rw [hfld.2.2.2.2.1]; exact hd)
      rw [h3]
      simp [BufMgr.diskWithHand, hfld.1, hfld.2.1, hfile, hpage, hsw.bufPool]
    · simp at e
    · simp at e
  · rw [hclear]
    exact ⟨rfl, rfl⟩

/-- A `readPage` of page (`f`, `p`) whose stored content is `b`, on a
consistent pool that either does not cache the page or caches it with content
`b`, with Page Stores that do not fail: it returns `OK` with a buffer holding
`b`, or `BUFFEREXCEEDED`; the latter only if no frame is replaceable. -/
theorem refetch (s1 : BufMgr) (o : Oracle) (f : FilePtr) (p : Int) (b : Page)
    (hI : Consistent s1) (hdisk : s1.disk f p = b)
    (hidx : s1.hashTable f p = none ∨ ∃ j, s1.hashTable f p = some j ∧ s1.bufPool j = b)
    (hr : o.read = Status.OK) (hw : ∀ i, o.write i = Status.OK) :
    ∃ st pg s2, s1.readPage o f p = some (st, pg, s2) ∧
      ((st = Status.OK ∧ ∃ j, pg = some j ∧ s2.bufPool j = b) ∨
        (st = Status.BUFFEREXCEEDED ∧ pg = none)) ∧
      ((∃ i, i < s1.numBufs ∧ (s1.bufTable i).pinCnt = 0 ∧ (s1.bufTable i).refbit = false) →
        st = Status.OK) := by
  rcases hidx with hn | ⟨j, hj, hb⟩
  · obtain ⟨r, ha⟩ := allocBuf_total s1 o hI.pool hI.hand
    obtain ⟨t, hsw, hlt, hcs⟩ := allocBuf_cases s1 o r ha
    have ht : Consistent t := hI.swept hsw hlt
    rcases hcs with ⟨_, _, s0, rfl, hev⟩ | ⟨_, _, st', s0, rfl, hev⟩ | ⟨rfl, _⟩
    · have hn0 : s0.hashTable f p = none := (allocBuf_frame ha).2.2.1 f p hn
      refine ⟨Status.OK, some t.clockHand, s0.afterLoad f p t.clockHand,
        readPage_miss_ok s1 o f p _ s0 hn ha hr hn0, Or.inl ⟨rfl, _, rfl, ?_⟩, fun _ => rfl⟩
      have hd0 : s0.disk f p = b := by
        by_cases hvd : (t.bufTable t.clockHand).valid = true ∧
            (t.bufTable t.clockHand).dirty = true
        · obtain ⟨_, _, h3, _⟩ := hev.written hvd.1 hvd.2
          rw [h3]
          unfold BufMgr.diskWithHand
          rw [if_neg, hsw.disk, hdisk]
          rintro ⟨ef, ep⟩
          have hm := ht.mapped t.clockHand (by rw [hsw.numBufs]; exact hlt) hvd.1
          rw [← ef, ← ep, hsw.hashTable, hn] at hm
          exact Option.noConfusion hm
        · rw [(hev.untouched hvd).2.1, hsw.disk, hdisk]
      simp [BufMgr.afterLoad, hd0]
    · exfalso
      rcases hev.cause with ⟨_, _, hwr, _⟩ | ⟨_, hnone⟩
      · exact hwr (hw _)
      · have hm := ht.mapped t.clockHand (by rw [hsw.numBufs]; exact hlt) hev.valid
        rw [hnone] at hm
        exact Option.noConfusion hm
    · refine ⟨Status.BUFFEREXCEEDED, none, t,
        readPage_miss_fail s1 o f p _ none t hn ha (by decide), Or.inr ⟨rfl, rfl⟩, ?_⟩
      rintro ⟨i, hi, hp, hb⟩
      exact absurd ha (allocBuf_not_exceeded s1 o hI.pool hI.hand i hi
        ⟨by rw [hp]; decide, hb⟩ none t)
  · exact ⟨Status.OK, some j, s1.afterHit j, readPage_hit s1 o f p j hj,
      Or.inl ⟨rfl, j, rfl, hb⟩, fun _ => rfl⟩

/-- After the eviction of the dirty frame `k` that held page (`f`, `p`), by
any of the three routes, the pool is consistent, the Page Store holds the
buffer content, and the page is either not cached or cached with that
content. -/
theorem EvictsTo.facts {s s1 : BufMgr} {o : Oracle} {f : FilePtr} {p : Int} {k : Nat}
    (hI : Consistent s) (hk : s.hashTable f p = some k) (hd : (s.bufTable k).dirty = true)
    (hev : EvictsTo s o k s1) :
    Consistent s1 ∧ s1.disk f p = s.bufPool k ∧
    (s1.hashTable f p = none ∨ ∃ j, s1.hashTable f p = some j ∧ s1.bufPool j = s.bufPool k) := by
  cases hev with
  | direct h =>
    obtain ⟨h1, h2, h3, _⟩ := evicted_dirty_page hI hk hd h
    exact ⟨h1, h3, Or.inl h2⟩
  | @readPage s0 _ file PageNo st pg hmiss ha h =>
    obtain ⟨_, h2, h3, _⟩ := evicted_dirty_page hI hk hd ha
    refine ⟨readPage_consistent hI h, ?_⟩
    have hne : ¬ (f = file ∧ p = PageNo) := by
      rintro ⟨rfl, rfl⟩
      rw [hmiss] at hk
      exact Option.noConfusion hk
    by_cases hr : o.read = Status.OK
    · rw [readPage_miss_ok s o file PageNo k s0 hmiss ha hr
        ((allocBuf_frame ha).2.2.1 _ _ hmiss)] at h
      obtain ⟨-, -, rfl⟩ := by simpa using h
      exact ⟨h3, Or.inl (by simp [BufMgr.afterLoad, hne, h2])⟩
    · rw [readPage_miss_readfail s o file PageNo k s0 hmiss ha hr] at h
      obtain ⟨-, -, rfl⟩ := by simpa using h
      exact ⟨h3, Or.inl h2⟩
  | @allocPage s0 _ file st pn pg hok ha h =>
    obtain ⟨_, h2, h3, h4, _⟩ :=
      evicted_dirty_page (hI.logged (StoreCall.allocatePage file)) hk hd ha
    refine ⟨allocPage_consistent hI h, ?_⟩
    cases hp : s0.hashTable file o.newPage with
    | some j =>
      rw [allocPage_present s o file k j s0 hok ha hp] at h
      obtain ⟨-, -, -, rfl⟩ := by simpa using h
      exact ⟨h3, Or.inl h2⟩
    | none =>
      rw [allocPage_ok s o file k s0 hok ha hp] at h
      obtain ⟨-, -, -, rfl⟩ := by simpa using h
      refine ⟨h3, ?_⟩
      by_cases hkey : f = file ∧ p = o.newPage
      · exact Or.inr ⟨k, by simp [BufMgr.afterAlloc, hkey], by
          show s0.bufPool k = _
          rw [h4]
          rfl⟩
      · exact Or.inl (by simp [BufMgr.afterAlloc, hkey, h2])

theorem reachable_exOneDirty : Reachable exOneDirty :=
  Reachable.readPage okOracle 1 1 Status.BUFFEREXCEEDED none
    (Reachable.unPinPage 1 0 true
      (Reachable.writeBuf 0 55
        (Reachable.readPage okOracle 1 0 Status.OK (some 0)
          (Reachable.init 1 exDisk (by decide)) (by decide) rfl)))
    (by decide) rfl

/-- C3 as stated fails: in the reachable pool `exOneDirty` page (1, 0) sits in
frame 0 with `pinCnt = 0`, dirty, content 55; `readPage(1, 1)` returns `OK`, its
`allocBuf` having evicted frame 0, and all Page Store calls succeed; yet the
`readPage(1, 0)` that follows returns `BUFFEREXCEEDED`, the only frame being
pinned by page (1, 1). -/
theorem refetch_after_eviction_exceeded :
    Reachable exOneDirty ∧ exOneDirty.hashTable 1 0 = some 0 ∧
    (exOneDirty.bufTable 0).pinCnt = 0 ∧ (exOneDirty.bufTable 0).dirty = true ∧
    exOneDirty.bufPool 0 = 55 ∧
    (exOneDirty.allocBuf okOracle).map (fun r => (r.1, r.2.1)) = some (Status.OK, some 0) ∧
    (exOneDirty.readPage okOracle 1 1).map (fun r => (r.1, r.2.1)) = some (Status.OK, some 0) ∧
    ((stateOf (exOneDirty.readPage okOracle 1 1) exOneDirty).readPage okOracle 1 0).map
      (fun r => (r.1, r.2.1)) = some (Status.BUFFEREXCEEDED, none) :=
  ⟨reachable_exOneDirty, by decide, by decide, by decide, by decide, by decide, by decide,
    by decide⟩

/-- A sweep over a pool whose frames are all pinned finds no frame and leaves
the state as it was. -/
theorem allocBuf_all_pinned (s : BufMgr) (o : Oracle)
    (hN : 1 ≤ s.numBufs) (hh : s.clockHand < s.numBufs)
    (hpin : ∀ i, i < s.numBufs → (s.bufTable i).pinCnt > 0) :
    s.allocBuf o = some (Status.BUFFEREXCEEDED, none, s) := by
  rcases allocBuf_run s o hN hh with ⟨k, t, hk, hto, hth, hrep, hsame, hl⟩ | ⟨t, hto, hth, hl⟩
  · rw [hth] at hrep
    exact absurd (hpin _ (Nat.mod_lt _ hN)) hrep.1
  · have htab : t.bufTable = s.bufTable := by
      funext i
      rcases hto.swept.table i with e | ⟨hi, hp, _⟩
      · exact e
      · exact absurd (hpin i hi) hp
    have hts : t = s := by
      have h1 := hto.swept
      cases s
      cases t
      simp only [BufMgr.mk.injEq]
      exact ⟨h1.numBufs, htab, h1.bufPool, h1.hashTable, hth, h1.bufStats, h1.disk, h1.log⟩
    rw [hts] at hl
    exact hl

/-- C3, amended: round trip through eviction.  In a reachable state where page
(`f`, `p`) is cached in frame `k` with `pinCnt = 0`, `dirty = true` and buffer
content `b`, let an `allocBuf` call (direct, or inside a `readPage` of a page
that is not cached, or inside an `allocPage`) return `OK` with victim `k`.
Then the Page Store holds `b` for (`f`, `p`), and for a `readPage(f, p)` that
follows, with Page Store reads and writes succeeding: if the page is cached
again, or some frame has `pinCnt = 0` and `refbit = false` (as is the case
right after a direct `allocBuf`), it returns `OK` with a buffer whose content
is exactly `b`; if the page is not cached and every frame is pinned, it
returns `BUFFEREXCEEDED` and leaves the state as it was.  Nothing is said of
the remaining case, where the page is not cached, some frame is unpinned and
every unpinned frame has its reference bit set. -/
theorem evict_then_refetch (s : BufMgr) (hs : Reachable s) (f : FilePtr) (p : Int) (k : Nat)
    (b : Page) (hk : s.hashTable f p = some k) (hpin : (s.bufTable k).pinCnt = 0)
    (hd : (s.bufTable k).dirty = true) (hb : s.bufPool k = b)
    (o1 : Oracle) (s1 : BufMgr) (hev : EvictsTo s o1 k s1)
    (o2 : Oracle) (hr : o2.read = Status.OK) (hw : ∀ i, o2.write i = Status.OK) :
    s1.disk f p = b ∧
    (((∃ j, s1.hashTable f p = some j) ∨
        (∃ i, i < s1.numBufs ∧ (s1.bufTable i).pinCnt = 0 ∧ (s1.bufTable i).refbit = false)) →
      ∃ j s2, s1.readPage o2 f p = some (Status.OK, some j, s2) ∧ s2.bufPool j = b) ∧
    (s.allocBuf o1 = some (Status.OK, some k, s1) →
      ∃ j s2, s1.readPage o2 f p = some (Status.OK, some j, s2) ∧ s2.bufPool j = b) ∧
    (s1.hashTable f p = none → (∀ i, i < s1.numBufs → (s1.bufTable i).pinCnt > 0) →
      s1.readPage o2 f p = some (Status.BUFFEREXCEEDED, none, s1)) := by
  have hI := reachable_consistent hs
  obtain ⟨h1, h2, h3⟩ := hev.facts hI hk hd
  rw [hb] at h2 h3
  have hrep : (∃ i, i < s1.numBufs ∧ (s1.bufTable i).pinCnt = 0 ∧
      (s1.bufTable i).refbit = false) →
      ∃ j s2, s1.readPage o2 f p = some (Status.OK, some j, s2) ∧ s2.bufPool j = b := by
    intro hex
    obtain ⟨st, pg, s2, e, hres, hok⟩ := refetch s1 o2 f p b h1 h2 h3 hr hw
    have hst := hok hex
    subst hst
    rcases hres with ⟨_, j, rfl, hj⟩ | ⟨hx, _⟩
    · exact ⟨j, s2, e, hj⟩
    · exact Status.noConfusion hx
  refine ⟨h2, ?_, fun hdir => ?_, fun hn hall => ?_⟩
  · rintro (⟨j, hj⟩ | hex)
    · rcases h3 with hn | ⟨j', hj', hb'⟩
      · rw [hn] at hj
        exact Option.noConfusion hj
      · exact ⟨j', s1.afterHit j', readPage_hit s1 o2 f p j' hj', hb'⟩
    · exact hrep hex
  · obtain ⟨_, _, _, _, h5, h6, h7⟩ := evicted_dirty_page hI hk hd hdir
    exact hrep ⟨k, h5, h6, h7⟩
  · exact readPage_miss_fail s1 o2 f p _ none s1 hn
      (allocBuf_all_pinned s1 o2 h1.pool h1.hand hall) (by decide)

/-- Instance of C3, amended.  Evicting the dirty frame 1 of `exSwept` (page
(1, 1), content 55) by a direct `allocBuf` and fetching page (1, 1) again
gives `OK` with content 55.  Evicting the dirty frame 0 of `exOneDirty` (page
(1, 0), content 55) inside `readPage(1, 1)` leaves the only frame pinned, and
fetching page (1, 0) again gives `BUFFEREXCEEDED` with the state unchanged. -/
theorem evict_then_refetch_witness :
    ((stateOf (exSwept.allocBuf okOracle) exSwept).disk 1 1 = 55 ∧
      ∃ j s2, (stateOf (exSwept.allocBuf okOracle) exSwept).readPage okOracle 1 1 =
          some (Status.OK, some j, s2) ∧ s2.bufPool j = 55) ∧
    ((stateOf (exOneDirty.readPage okOracle 1 1) exOneDirty).disk 1 0 = 55 ∧
      (stateOf (exOneDirty.readPage okOracle 1 1) exOneDirty).readPage okOracle 1 0 =
        some (Status.BUFFEREXCEEDED, none,
          stateOf (exOneDirty.readPage okOracle 1 1) exOneDirty)) :=
  have h1 := evict_then_refetch exSwept reachable_exSwept 1 1 1 55 (by decide) (by decide)
    (by decide) (by decide) okOracle (stateOf (exSwept.allocBuf okOracle) exSwept)
    (EvictsTo.direct rfl) okOracle rfl (fun _ => rfl)
  have h2 := evict_then_refetch exOneDirty reachable_exOneDirty 1 0 0 55 (by decide) (by decide)
    (by decide) (by decide) okOracle (stateOf (exOneDirty.readPage okOracle 1 1) exOneDirty)
    (EvictsTo.readPage 1 1 Status.OK (some 0) (by decide)
      (show exOneDirty.allocBuf okOracle =
        some (Status.OK, some 0, stateOf (exOneDirty.allocBuf okOracle) exOneDirty) from rfl)
      rfl)
    okOracle rfl (fun _ => rfl)
  ⟨⟨h1.1, h1.2.2.1 rfl⟩, h2.1, h2.2.2.2 (by decide) (by decide)⟩

theorem writesOf_succ (s : BufMgr) (sel : BufDesc → Bool) (n : Nat) :
    s.writesOf sel (n + 1) = s.writesOf sel n ++
      (if sel (s.bufTable n) = true then
        [StoreCall.writePage (s.bufTable n).file (s.bufTable n).pageNo (s.bufPool n)]
       else []) := by
  unfold BufMgr.writesOf
  rw [List.range_succ, List.filter_append, List.map_append]
  by_cases h : sel (s.bufTable n) = true <;> simp [h]

/-! ### Teardown, disposal and new pages -/

/-- A Page Store write touches neither descriptors nor buffers and adds one
call to the log, whatever its status. -/
theorem fileWritePage_effect (s : BufMgr) (st : Status) (file : FilePtr) (pageNo : Int)
    (content : Page) :
    (s.fileWritePage st file pageNo content).2.bufTable = s.bufTable ∧
    (s.fileWritePage st file pageNo content).2.bufPool = s.bufPool ∧
    (s.fileWritePage st file pageNo content).2.log =
      s.log ++ [StoreCall.writePage file pageNo content] := by
  unfold BufMgr.fileWritePage
  by_cases h : st = Status.OK <;> simp [h]

/-- The destructor loop from frame `i` on: descriptors and buffers are not
touched and the log grows by the writes of the valid dirty frames it visits. -/
theorem destroyLoop_log (o : Oracle) (s0 : BufMgr) :
    ∀ (n i : Nat) (s : BufMgr), s.bufTable = s0.bufTable → s.bufPool = s0.bufPool →
      s.log = s0.log ++ s0.writesOf (fun d => d.valid && d.dirty) i →
      (BufMgr.destroyLoop o n i s).bufTable = s0.bufTable ∧
      (BufMgr.destroyLoop o n i s).bufPool = s0.bufPool ∧
      (BufMgr.destroyLoop o n i s).log =
        s0.log ++ s0.writesOf (fun d => d.valid && d.dirty) (i + n) := by
  intro n
  induction n with
  | zero => intro i s hT hP hL; exact ⟨hT, hP, hL⟩
  | succ n ih =>
    intro i s hT hP hL
    rw [BufMgr.destroyLoop]
    have hidx : i + (n + 1) = i + 1 + n := by omega
    rw [hidx]
    by_cases hvd : (s.bufTable i).valid = true ∧ (s.bufTable i).dirty = true
    · rw [if_pos hvd]
      obtain ⟨e1, e2, e3⟩ := fileWritePage_effect s (o.write i) (s.bufTable i).file
        (s.bufTable i).pageNo (s.bufPool i)
      refine ih (i + 1) _ (e1.trans hT) (e2.trans hP) ?_
      rw [e3, hL, writesOf_succ, hT, hP]
      rw [hT] at hvd
      simp [hvd.1, hvd.2]
    · rw [if_neg hvd]
      refine ih (i + 1) s hT hP ?_
      rw [hL, writesOf_succ]
      rw [hT] at hvd
      have : ((s0.bufTable i).valid && (s0.bufTable i).dirty) = false := by
        cases h1 : (s0.bufTable i).valid <;> cases h2 : (s0.bufTable i).dirty <;> simp_all
      simp [this]

/-- C18: teardown flush.  For every pool state and whatever the Page Stores
answer, the destructor issues exactly the calls `writePage(pageNo, buffer
content)` of the frames with `valid = true` and `dirty = true`, one per frame
and in increasing frame number, whatever their pin count; it issues no other
Page Store call, and a failed write does not stop it. -/
theorem destroy_writes (s : BufMgr) (o : Oracle) :
    (s.destroy o).log =
      s.log ++ ((List.range s.numBufs).filter
          (fun i => (s.bufTable i).valid && (s.bufTable i).dirty)).map
        (fun i => StoreCall.writePage (s.bufTable i).file (s.bufTable i).pageNo (s.bufPool i)) := by
  have h := (destroyLoop_log o s s.numBufs 0 s rfl rfl (by simp [BufMgr.writesOf])).2.2
  rw [Nat.zero_add] at h
  exact h
/-- C15: `disposePage`.  In every state (reachable or not) the call issues
exactly one Page Store call, `disposePage(pageNo)` on `file`, and returns
exactly its status; no write-back is issued and buffers, stored pages, clock
hand and statistics are as before.  If (`file`, `pageNo`) is cached in frame
`k`, frame `k` is cleared and the mapping is removed, whatever the pin count
and the dirty flag of `k` were, while the other frames and mappings are kept;
if it is not cached, the descriptor table and the Page Index are unchanged. -/
theorem disposePage_effect (s : BufMgr) (o : Oracle) (file : FilePtr) (pageNo : Int) :
    (s.disposePage o file pageNo).1 = o.dispose ∧
    (s.disposePage o file pageNo).2.log = s.log ++ [StoreCall.disposePage file pageNo] ∧
    (s.disposePage o file pageNo).2.disk = s.disk ∧
    (s.disposePage o file pageNo).2.bufPool = s.bufPool ∧
    (s.disposePage o file pageNo).2.bufStats = s.bufStats ∧
    (s.disposePage o file pageNo).2.clockHand = s.clockHand ∧
    (s.disposePage o file pageNo).2.numBufs = s.numBufs ∧
    (∀ k, s.hashTable file pageNo = some k →
      (s.disposePage o file pageNo).2.bufTable k = (s.bufTable k).Clear ∧
      (∀ i, i ≠ k → (s.disposePage o file pageNo).2.bufTable i = s.bufTable i) ∧
      (s.disposePage o file pageNo).2.hashTable file pageNo = none ∧
      (∀ f p, ¬ (f = file ∧ p = pageNo) →
        (s.disposePage o file pageNo).2.hashTable f p = s.hashTable f p)) ∧
    (s.hashTable file pageNo = none →
      (s.disposePage o file pageNo).2.bufTable = s.bufTable ∧
      (s.disposePage o file pageNo).2.hashTable = s.hashTable) := by
  cases hk : s.hashTable file pageNo with
  | none =>
    simp [BufMgr.disposePage, BufMgr.htLookup, hk, BufMgr.htRemove, BufMgr.fileDisposePage]
  | some k =>
    simp [BufMgr.disposePage, BufMgr.htLookup, hk, BufMgr.htRemove, BufMgr.fileDisposePage,
      BufMgr.setDesc]
    exact ⟨fun i hi => by simp [hi], fun f p h h1 h2 => absurd h2 (h h1)⟩

/-- Instance of C15: disposing page (1, 0), cached in the pinned frame 0 of
`exPinned2`, and page (1, 9), which is not cached. -/
theorem disposePage_effect_witness :
    ((exPinned2.disposePage okOracle 1 0).2.bufTable 0 = (exPinned2.bufTable 0).Clear ∧
      (exPinned2.disposePage okOracle 1 0).2.hashTable 1 0 = none) ∧
    ((exPinned2.disposePage okOracle 1 9).2.bufTable = exPinned2.bufTable ∧
      (exPinned2.disposePage okOracle 1 9).2.hashTable = exPinned2.hashTable) :=
  ⟨⟨((disposePage_effect exPinned2 okOracle 1 0).2.2.2.2.2.2.2.1 0 (by decide)).1,
      ((disposePage_effect exPinned2 okOracle 1 0).2.2.2.2.2.2.2.1 0 (by decide)).2.2.1⟩,
    (disposePage_effect exPinned2 okOracle 1 9).2.2.2.2.2.2.2.2 (by decide)⟩

/-- C19: `allocPage` success.  In every state (reachable or not), when the
Page Store `allocatePage` answers `OK` with page number `n = o.newPage`,
`allocBuf` returns frame `k` and the Page Index insert succeeds (there is no
entry for (`file`, `n`)), `allocPage(file)` returns `OK` with page number `n`
and the buffer of frame `k`; afterwards the Page Index maps (`file`, `n`) to
`k`, the descriptor of `k` is the fetch-miss initial state (`valid = true`,
`pinCnt = 1`, `refbit = true`, `dirty = false`, `file`, `pageNo = n`), and the
Page Store calls issued are the `allocatePage` and at most write-backs: no
`readPage`. -/
theorem allocPage_success (s : BufMgr) (o : Oracle) (file : FilePtr) (k : Nat) (s0 : BufMgr)
    (hok : o.alloc = Status.OK)
    (ha : (s.logged (StoreCall.allocatePage file)).allocBuf o = some (Status.OK, some k, s0))
    (hins : s0.hashTable file o.newPage = none) :
    ∃ s1, s.allocPage o file = some (Status.OK, some o.newPage, some k, s1) ∧
      s1.hashTable file o.newPage = some k ∧
      s1.bufTable k = { file := file, pageNo := o.newPage, frameNo := (s.bufTable k).frameNo,
                        pinCnt := 1, dirty := false, valid := true, refbit := true } ∧
      (∃ pre, s1.log = s.log ++ [StoreCall.allocatePage file] ++ pre ∧
        ∀ c ∈ pre, ∃ f p b, c = StoreCall.writePage f p b) := by
  refine ⟨_, allocPage_ok s o file k s0 hok ha hins, ?_, ?_, ?_⟩
  · simp [BufMgr.afterAlloc]
  · obtain ⟨_, _, _, _, hout⟩ := allocBuf_frame ha
    obtain ⟨k', hk', _, _, hcl⟩ := hout rfl
    obtain rfl : k = k' := Option.some.inj hk'
    simp [BufMgr.afterAlloc, hcl, BufDesc.Set, BufDesc.Clear, BufMgr.logged]
  · obtain ⟨⟨pre, hlog, hpre⟩, _, _⟩ := allocBuf_ok_calls ha
    exact ⟨pre, by simp [BufMgr.afterAlloc, hlog, BufMgr.logged], hpre⟩

/-- Instance of C19: `allocPage(1)` on `exSwept` gets page 7 in frame 1. -/
theorem allocPage_success_witness :
    ∃ s1, exSwept.allocPage okOracle 1 = some (Status.OK, some 7, some 1, s1) ∧
      s1.hashTable 1 7 = some 1 ∧ (s1.bufTable 1).pinCnt = 1 ∧ (s1.bufTable 1).valid = true :=
  match allocPage_success exSwept okOracle 1 1
      (stateOf ((exSwept.logged (StoreCall.allocatePage 1)).allocBuf okOracle) exSwept)
      rfl rfl (by decide) with
  | ⟨s1, h, hi, hd, _⟩ => ⟨s1, h, hi, by rw [hd], by rw [hd]⟩

/-- C14: a failed read on a fetch miss leaves no half-initialised frame.  In a
reachable state where (`file`, `PageNo`) is not cached and `allocBuf` yields
frame `k`, if the Page Store `readPage` fails then `readPage` returns
`UNIXERR`; afterwards the descriptor of frame `k` is in the cleared state, the
Page Index has no entry for (`file`, `PageNo`) and no entry pointing to `k`,
and the access and disk-read counters are as before the call. -/
theorem readPage_read_failure (s : BufMgr) (hs : Reachable s) (o : Oracle) (file : FilePtr)
    (PageNo : Int) (k : Nat) (s0 : BufMgr)
    (hmiss : s.hashTable file PageNo = none)
    (ha : s.allocBuf o = some (Status.OK, some k, s0)) (hr : o.read ≠ Status.OK) :
    ∃ s1, s.readPage o file PageNo = some (Status.UNIXERR, none, s1) ∧
      s1.bufTable k = (s.bufTable k).Clear ∧
      ((s1.bufTable k).valid = false ∧ (s1.bufTable k).pinCnt = 0 ∧
        (s1.bufTable k).dirty = false ∧ (s1.bufTable k).refbit = false ∧
        (s1.bufTable k).file = NULL) ∧
      s1.hashTable file PageNo = none ∧ (∀ f p, s1.hashTable f p ≠ some k) ∧
      s1.bufStats.accesses = s.bufStats.accesses ∧
      s1.bufStats.diskreads = s.bufStats.diskreads := by
  obtain ⟨hc, _, hsub, _⟩ := allocBuf_consistent (reachable_consistent hs) ha
  obtain ⟨_, _, _, _, hout⟩ := allocBuf_frame ha
  obtain ⟨k', hk', _, _, hcl⟩ := hout rfl
  obtain rfl : k = k' := Option.some.inj hk'
  obtain ⟨_, hacc, hrd⟩ := allocBuf_ok_calls ha
  refine ⟨_, readPage_miss_readfail s o file PageNo k s0 hmiss ha hr, hcl, ?_, hsub _ _ hmiss,
    fun f p h => ?_, hacc, hrd⟩
  · show (s0.bufTable k).valid = false ∧ _
    rw [hcl]
    exact ⟨rfl, rfl, rfl, rfl, rfl⟩
  · have hv := (hc.entry f p k h).2.1
    rw [hcl] at hv
    exact Bool.noConfusion hv

/-- Instance of C14: in `exSwept` the page (1, 2) is not cached, `allocBuf`
yields frame 1 and the Page Store read fails. -/
theorem readPage_read_failure_witness :
    ∃ s1, exSwept.readPage { okOracle with read := Status.UNIXERR } 1 2 =
        some (Status.UNIXERR, none, s1) ∧
      (s1.bufTable 1).valid = false ∧ s1.hashTable 1 2 = none :=
  match readPage_read_failure exSwept reachable_exSwept { okOracle with read := Status.UNIXERR }
      1 2 1 (stateOf (exSwept.allocBuf { okOracle with read := Status.UNIXERR }) exSwept)
      (by decide) rfl (by decide) with
  | ⟨s1, h, _, hv, hn, _⟩ => ⟨s1, h, hv.1, hn⟩

/-! ### The descriptor invariant -/

/-- A Page Index remove only touches the Page Index, and there only the key
it is given, whether it finds the key or not. -/
theorem htRemove_effect (s : BufMgr) (file : FilePtr) (pageNo : Int) :
    (s.htRemove file pageNo).2.numBufs = s.numBufs ∧
    (s.htRemove file pageNo).2.bufTable = s.bufTable ∧
    (s.htRemove file pageNo).2.bufPool = s.bufPool ∧
    (s.htRemove file pageNo).2.clockHand = s.clockHand ∧
    (s.htRemove file pageNo).2.bufStats = s.bufStats ∧
    (s.htRemove file pageNo).2.disk = s.disk ∧
    (s.htRemove file pageNo).2.log = s.log ∧
    (∀ f p, (s.htRemove file pageNo).2.hashTable f p =
      if f = file ∧ p = pageNo then none else s.hashTable f p) := by
  unfold BufMgr.htRemove
  cases hk : s.hashTable file pageNo with
  | none =>
    refine ⟨rfl, rfl, rfl, rfl, rfl, rfl, rfl, fun f p => ?_⟩
    by_cases h : f = file ∧ p = pageNo
    · rw [if_pos h, h.1, h.2]
      exact hk
    · rw [if_neg h]
  | some k => exact ⟨rfl, rfl, rfl, rfl, rfl, rfl, rfl, fun f p => rfl⟩

/-- The state in which the `flushFile` loop body leaves frame `i` when it goes
on to the next frame after flushing it. -/
theorem flushFrame_flush (s : BufMgr) (o : Oracle) (i : Nat)
    (hv : (s.bufTable i).valid = true) (hp : ¬ (s.bufTable i).pinCnt > 0)
    (hw : (s.bufTable i).dirty = true → o.write i = Status.OK) :
    (s.flushFrame o (s.bufTable i).file i).1 = none ∧
    (s.flushFrame o (s.bufTable i).file i).2.numBufs = s.numBufs ∧
    (s.flushFrame o (s.bufTable i).file i).2.bufPool = s.bufPool ∧
    (s.flushFrame o (s.bufTable i).file i).2.clockHand = s.clockHand ∧
    (s.flushFrame o (s.bufTable i).file i).2.bufStats = s.bufStats ∧
    (s.flushFrame o (s.bufTable i).file i).2.bufTable i =
      { s.bufTable i with file := NULL, pageNo := -1, valid := false, dirty := false } ∧
    (∀ j, j ≠ i → (s.flushFrame o (s.bufTable i).file i).2.bufTable j = s.bufTable j) ∧
    (∀ f p, (s.flushFrame o (s.bufTable i).file i).2.hashTable f p =
      if f = (s.bufTable i).file ∧ p = (s.bufTable i).pageNo then none else s.hashTable f p) ∧
    (s.flushFrame o (s.bufTable i).file i).2.log = s.log ++
      (if (s.bufTable i).dirty = true then
        [StoreCall.writePage (s.bufTable i).file (s.bufTable i).pageNo (s.bufPool i)]
       else []) := by
  by_cases hd : (s.bufTable i).dirty = true
  · have hw' := hw hd
    have e : s.flushFrame o (s.bufTable i).file i =
        (none, ((((s.fileWritePage Status.OK (s.bufTable i).file (s.bufTable i).pageNo
          (s.bufPool i)).2.setDesc i { s.bufTable i with dirty := false }).htRemove
            (s.bufTable i).file (s.bufTable i).pageNo).2).setDesc i
          { s.bufTable i with file := NULL, pageNo := -1, valid := false, dirty := false }) := by
      simp [BufMgr.flushFrame, hv, hp, hd, hw', BufMgr.fileWritePage, BufMgr.setDesc,
        (htRemove_effect _ _ _).2.1]
    rw [e]
    obtain ⟨r1, r2, r3, r4, r5, r6, r7, r8⟩ := htRemove_effect
      ((s.fileWritePage Status.OK (s.bufTable i).file (s.bufTable i).pageNo
          (s.bufPool i)).2.setDesc i { s.bufTable i with dirty := false })
      (s.bufTable i).file (s.bufTable i).pageNo
    obtain ⟨w1, w2, w3⟩ := fileWritePage_effect s Status.OK (s.bufTable i).file
      (s.bufTable i).pageNo (s.bufPool i)
    refine ⟨rfl, r1, r3, r4, r5, by simp [BufMgr.setDesc], fun j hj => ?_, fun f p => ?_, ?_⟩
    · show (if j = i then _ else (BufMgr.htRemove _ _ _).2.bufTable j) = _
      rw [if_neg hj, r2]
      show (if j = i then _ else _) = _
      rw [if_neg hj, w1]
    · exact r8 f p
    · show (BufMgr.htRemove _ _ _).2.log = _
      rw [r7]
      show (BufMgr.fileWritePage _ _ _ _ _).2.log = _
      rw [w3, if_pos hd]
  · have e : s.flushFrame o (s.bufTable i).file i =
        (none, ((s.htRemove (s.bufTable i).file (s.bufTable i).pageNo).2).setDesc i
          { s.bufTable i with file := NULL, pageNo := -1, valid := false, dirty := false }) := by
      simp [BufMgr.flushFrame, hv, hp, hd, BufMgr.setDesc, (htRemove_effect _ _ _).2.1]
    rw [e]
    obtain ⟨r1, r2, r3, r4, r5, r6, r7, r8⟩ := htRemove_effect s
      (s.bufTable i).file (s.bufTable i).pageNo
    refine ⟨rfl, r1, r3, r4, r5, by simp [BufMgr.setDesc], fun j hj => ?_, fun f p => ?_, ?_⟩
    · show (if j = i then _ else (BufMgr.htRemove _ _ _).2.bufTable j) = _
      rw [if_neg hj, r2]
    · exact r8 f p
    · show (BufMgr.htRemove _ _ _).2.log = _
      rw [r7, if_neg hd, List.append_nil]
/-- The loop body returns exactly when `flushStop` says so, with that status. -/
theorem flushFrame_fst (s : BufMgr) (o : Oracle) (file : FilePtr) (i : Nat) :
    (s.flushFrame o file i).1 = s.flushStop o file i := by
  unfold BufMgr.flushFrame BufMgr.flushStop
  by_cases hvf : (s.bufTable i).valid = true ∧ (s.bufTable i).file = file
  · by_cases hp : (s.bufTable i).pinCnt > 0
    · simp [hvf, hp]
    · by_cases hd : (s.bufTable i).dirty = true
      · by_cases hw : o.write i = Status.OK
        · simp [hvf, hp, hd, hw, BufMgr.fileWritePage]
        · simp [hvf, hp, hd, hw, BufMgr.fileWritePage]
      · simp [hvf, hp, hd]
  · by_cases hb : (s.bufTable i).valid = false ∧ (s.bufTable i).file = file
    · simp only [if_neg hvf, if_pos hb]
    · simp only [if_neg hvf, if_neg hb]

/-- When the loop body returns, the descriptors are as before, and nothing at
all has changed if the frame is pinned. -/
theorem flushFrame_stop (s : BufMgr) (o : Oracle) (file : FilePtr) (i : Nat) (st : Status)
    (h : s.flushStop o file i = some st) :
    (s.flushFrame o file i).2.bufTable = s.bufTable ∧
    ((s.bufTable i).pinCnt > 0 → (s.flushFrame o file i).2 = s) := by
  unfold BufMgr.flushStop at h
  unfold BufMgr.flushFrame
  by_cases hvf : (s.bufTable i).valid = true ∧ (s.bufTable i).file = file
  · by_cases hp : (s.bufTable i).pinCnt > 0
    · simp [hvf, hp]
    · by_cases hd : (s.bufTable i).dirty = true
      · by_cases hw : o.write i = Status.OK
        · simp [hvf, hp, hd, hw] at h
        · simp [hvf, hp, hd, hw, BufMgr.fileWritePage]
      · simp [hvf, hp, hd] at h
  · by_cases hb : (s.bufTable i).valid = false ∧ (s.bufTable i).file = file
    · simp only [if_neg hvf, if_pos hb]
      exact ⟨trivial, fun _ => trivial⟩
    · simp only [if_neg hvf, if_neg hb] at h
      exact Option.noConfusion h

/-- A frame that holds no page of `file` and does not name `file` is passed
over. -/
theorem flushFrame_skip (s : BufMgr) (o : Oracle) (file : FilePtr) (i : Nat)
    (h : (s.bufTable i).file ≠ file) : s.flushFrame o file i = (none, s) := by
  unfold BufMgr.flushFrame
  simp [h]

theorem owned_clear (d : BufDesc) : d.Clear.owned :=
  ⟨fun _ => rfl, fun h => Bool.noConfusion h⟩

theorem owned_set (d : BufDesc) (file : FilePtr) (PageNo : Int) (hf : file ≠ NULL) :
    (d.Set file PageNo).owned :=
  ⟨fun h => Bool.noConfusion h, fun _ => hf⟩

/-- A descriptor that keeps file and validity keeps its owner invariant. -/
theorem owned_of_fields {d d1 : BufDesc} (h : d.owned) (hf : d1.file = d.file)
    (hv : d1.valid = d.valid) : d1.owned := by
  unfold BufDesc.owned
  rw [hf, hv]
  exact h

/-- Preservation: `allocBuf` keeps the owner invariant of every descriptor. -/
theorem allocBuf_owned {s s1 : BufMgr} {o : Oracle} {st : Status} {out : Option Nat}
    (h : ∀ i, (s.bufTable i).owned) (ha : s.allocBuf o = some (st, out, s1)) :
    ∀ i, (s1.bufTable i).owned := by
  obtain ⟨t, hsw, hlt, hc⟩ := allocBuf_cases s o _ ha
  have ht : ∀ i, (t.bufTable i).owned := fun i =>
    owned_of_fields (h i) (hsw.fields i).1 (hsw.fields i).2.2.2.2.2.1
  intro i
  rcases hc with ⟨_, _, s1', e, hev⟩ | ⟨_, _, st', s1', e, hev⟩ | ⟨e, _⟩
  · obtain ⟨-, -, rfl⟩ : st = Status.OK ∧ out = some t.clockHand ∧ s1 = s1' := by
      simpa using e
    by_cases hi : i = t.clockHand
    · subst hi
      rw [hev.hand]
      exact owned_clear _
    · rw [hev.other i hi]
      exact ht i
  · obtain ⟨-, -, rfl⟩ : st = st' ∧ out = none ∧ s1 = s1' := by simpa using e
    by_cases hi : i = t.clockHand
    · subst hi
      rcases hev.hand with e2 | e2 <;> rw [e2]
      · exact ht _
      · exact owned_of_fields (ht _) rfl rfl
    · rw [hev.other i hi]
      exact ht i
  · obtain ⟨-, -, rfl⟩ : st = Status.BUFFEREXCEEDED ∧ out = none ∧ s1 = t := by
      simpa using e
    exact ht i

/-- Preservation: `readPage` keeps the owner invariant of every descriptor. -/
theorem readPage_owned {s s1 : BufMgr} {o : Oracle} {file : FilePtr} {PageNo : Int}
    {st : Status} {pg : Option Nat} (hf : file ≠ NULL)
    (h : ∀ i, (s.bufTable i).owned)
    (hr : s.readPage o file PageNo = some (st, pg, s1)) : ∀ i, (s1.bufTable i).owned := by
  intro i
  cases hk : s.hashTable file PageNo with
  | some k =>
    rw [readPage_hit s o file PageNo k hk] at hr
    obtain ⟨-, -, rfl⟩ : Status.OK = st ∧ some k = pg ∧ s.afterHit k = s1 := by simpa using hr
    by_cases hi : i = k
    · subst hi
      exact owned_of_fields (h i) (by simp [BufMgr.afterHit]) (by simp [BufMgr.afterHit])
    · simpa [BufMgr.afterHit, hi] using h i
  | none =>
    cases ha : s.allocBuf o with
    | none =>
      rw [readPage_miss_diverge s o file PageNo hk ha] at hr
      exact Option.noConfusion hr
    | some r =>
      obtain ⟨st', out, s0⟩ := r
      have h0 := allocBuf_owned h ha
      obtain ⟨_, _, hsub, _, hout⟩ := allocBuf_frame ha
      by_cases hst : st' = Status.OK
      · subst hst
        obtain ⟨k, rfl, _, _, _⟩ := hout rfl
        by_cases hrd : o.read = Status.OK
        · rw [readPage_miss_ok s o file PageNo k s0 hk ha hrd (hsub _ _ hk)] at hr
          obtain ⟨-, -, rfl⟩ := by simpa using hr
          by_cases hi : i = k
          · subst hi
            simpa [BufMgr.afterLoad] using owned_set (s0.bufTable i) file PageNo hf
          · simpa [BufMgr.afterLoad, hi] using h0 i
        · rw [readPage_miss_readfail s o file PageNo k s0 hk ha hrd] at hr
          obtain ⟨-, -, rfl⟩ := by simpa using hr
          exact h0 i
      · rw [readPage_miss_fail s o file PageNo st' out s0 hk ha hst] at hr
        obtain ⟨-, -, rfl⟩ := by simpa using hr
        exact h0 i

/-- Preservation: `allocPage` keeps the owner invariant of every descriptor. -/
theorem allocPage_owned {s s1 : BufMgr} {o : Oracle} {file : FilePtr}
    {st : Status} {pn : Option Int} {pg : Option Nat} (hf : file ≠ NULL)
    (h : ∀ i, (s.bufTable i).owned)
    (hr : s.allocPage o file = some (st, pn, pg, s1)) : ∀ i, (s1.bufTable i).owned := by
  intro i
  by_cases ha : o.alloc = Status.OK
  · cases hb : (s.logged (StoreCall.allocatePage file)).allocBuf o with
    | none =>
      rw [allocPage_diverge s o file ha hb] at hr
      exact Option.noConfusion hr
    | some r =>
      obtain ⟨st', out, s0⟩ := r
      have h0 := allocBuf_owned (s := s.logged (StoreCall.allocatePage file)) h hb
      obtain ⟨_, _, _, _, hout⟩ := allocBuf_frame hb
      by_cases hst : st' = Status.OK
      · subst hst
        obtain ⟨k, rfl, _, _, _⟩ := hout rfl
        cases hp : s0.hashTable file o.newPage with
        | some j =>
          rw [allocPage_present s o file k j s0 ha hb hp] at hr
          obtain ⟨-, -, -, rfl⟩ := by simpa using hr
          exact h0 i
        | none =>
          rw [allocPage_ok s o file k s0 ha hb hp] at hr
          obtain ⟨-, -, -, rfl⟩ := by simpa using hr
          by_cases hi : i = k
          · subst hi
            simpa [BufMgr.afterAlloc] using owned_set (s0.bufTable i) file o.newPage hf
          · simpa [BufMgr.afterAlloc, hi] using h0 i
      · rw [allocPage_nobuf s o file st' out s0 ha hb hst] at hr
        obtain ⟨-, -, -, rfl⟩ := by simpa using hr
        exact h0 i
  · rw [allocPage_allocfail s o file ha] at hr
    obtain ⟨-, -, -, rfl⟩ := by simpa using hr
    exact h i

/-- Preservation: `unPinPage` keeps the owner invariant of every descriptor. -/
theorem unPinPage_owned {s : BufMgr} (h : ∀ i, (s.bufTable i).owned)
    (file : FilePtr) (PageNo : Int) (dirty : Bool) :
    ∀ i, ((s.unPinPage file PageNo dirty).2.bufTable i).owned := by
  intro i
  cases hk : s.hashTable file PageNo with
  | none =>
    rw [unPinPage_notfound s file PageNo dirty hk]
    exact h i
  | some k =>
    by_cases hp : (s.bufTable k).pinCnt > 0
    · rw [unPinPage_ok s file PageNo dirty k hk hp]
      by_cases hi : i = k
      · subst hi
        exact owned_of_fields (h i) (by simp [BufMgr.setDesc]) (by simp [BufMgr.setDesc])
      · simpa [BufMgr.setDesc, hi] using h i
    · rw [unPinPage_notpinned s file PageNo dirty k hk (not_lt.mp hp)]
      exact h i

/-- Preservation: `disposePage` keeps the owner invariant of every
descriptor. -/
theorem disposePage_owned {s : BufMgr} (h : ∀ i, (s.bufTable i).owned)
    (o : Oracle) (file : FilePtr) (pageNo : Int) :
    ∀ i, ((s.disposePage o file pageNo).2.bufTable i).owned := by
  intro i
  cases hk : s.hashTable file pageNo with
  | none =>
    have e : (s.disposePage o file pageNo).2.bufTable = s.bufTable := by
      simp [BufMgr.disposePage, BufMgr.htLookup, hk, BufMgr.htRemove, BufMgr.fileDisposePage]
    rw [e]
    exact h i
  | some k =>
    by_cases hi : i = k
    · subst hi
      have e : (s.disposePage o file pageNo).2.bufTable i = (s.bufTable i).Clear := by
        simp [BufMgr.disposePage, BufMgr.htLookup, hk, BufMgr.htRemove, BufMgr.fileDisposePage,
          BufMgr.setDesc]
      rw [e]
      exact owned_clear _
    · have e : (s.disposePage o file pageNo).2.bufTable i = s.bufTable i := by
        simp [BufMgr.disposePage, BufMgr.htLookup, hk, BufMgr.htRemove, BufMgr.fileDisposePage,
          BufMgr.setDesc, hi]
      rw [e]
      exact h i

/-- Preservation: one iteration of the `flushFile` loop keeps the owner
invariant of every descriptor. -/
theorem flushFrame_owned {s : BufMgr} (h : ∀ j, (s.bufTable j).owned)
    (o : Oracle) (file : FilePtr) (i : Nat) :
    ∀ j, ((s.flushFrame o file i).2.bufTable j).owned := by
  intro j
  cases hst : s.flushStop o file i with
  | some st =>
    rw [(flushFrame_stop s o file i st hst).1]
    exact h j
  | none =>
    by_cases hf : (s.bufTable i).file = file
    · subst hf
      unfold BufMgr.flushStop at hst
      have hv : (s.bufTable i).valid = true := by
        cases hv : (s.bufTable i).valid
        · simp [hv] at hst
        · rfl
      have hp : ¬ (s.bufTable i).pinCnt > 0 := by
        intro hp
        simp [hv, hp] at hst
      have hw : (s.bufTable i).dirty = true → o.write i = Status.OK := by
        intro hd
        by_contra hw
        simp [hv, hp, hd, hw] at hst
      obtain ⟨_, _, _, _, _, e1, e2, _⟩ := flushFrame_flush s o i hv hp hw
      by_cases hj : j = i
      · subst hj
        rw [e1]
        exact ⟨fun _ => rfl, fun hv1 => Bool.noConfusion hv1⟩
      · rw [e2 j hj]
        exact h j
    · rw [flushFrame_skip s o file i hf]
      exact h j

theorem flushLoop_owned (o : Oracle) (file : FilePtr) :
    ∀ (n i : Nat) (s : BufMgr), (∀ j, (s.bufTable j).owned) →
      ∀ j, ((BufMgr.flushLoop o file n i s).2.bufTable j).owned := by
  intro n
  induction n with
  | zero => intro i s h; exact h
  | succ n ih =>
    intro i s h
    have h1 := flushFrame_owned h o file i
    rw [BufMgr.flushLoop]
    rcases hfr : s.flushFrame o file i with ⟨_ | st, s1⟩
    · rw [hfr] at h1
      exact ih (i + 1) s1 h1
    · rw [hfr] at h1
      exact h1

/-- In every reachable state an invalid frame has no owning file and a valid
frame has one. -/
theorem reachable_owned {s : BufMgr} (h : Reachable s) : ∀ i, (s.bufTable i).owned := by
  induction h with
  | init bufs disk h =>
    intro i
    exact ⟨fun _ => rfl, fun hv => Bool.noConfusion hv⟩
  | readPage o file PageNo st pg _ hf h ih => exact readPage_owned hf ih h
  | unPinPage file PageNo dirty _ ih => exact unPinPage_owned ih file PageNo dirty
  | allocPage o file st pn pg _ hf h ih => exact allocPage_owned hf ih h
  | disposePage o file pageNo _ _ ih => exact disposePage_owned ih o file pageNo
  | flushFile o file _ ih => exact flushLoop_owned o file _ 0 _ ih
  | writeBuf frameNo content _ ih => exact ih

theorem flushedTo_refl (s : BufMgr) (file : FilePtr) : FlushedTo s s file 0 :=
  ⟨rfl, rfl, rfl, rfl, fun j hj => absurd hj (Nat.not_lt_zero j), fun _ _ => rfl,
    fun j hj => absurd hj (Nat.not_lt_zero j), fun _ _ _ => rfl, by simp [BufMgr.writesOf]⟩

/-- One more frame passed by the `flushFile` loop without returning. -/
theorem flushedTo_step {s0 s : BufMgr} {o : Oracle} {file : FilePtr} {i : Nat}
    (h : FlushedTo s0 s file i) (hst : s0.flushStop o file i = none) :
    (s.flushFrame o file i).1 = none ∧ FlushedTo s0 (s.flushFrame o file i).2 file (i + 1) := by
  have hi : s.bufTable i = s0.bufTable i := h.kept i (fun hh => absurd hh.1 (lt_irrefl i))
  by_cases hf : (s0.bufTable i).file = file
  · unfold BufMgr.flushStop at hst
    have hv : (s0.bufTable i).valid = true := by
      cases hv : (s0.bufTable i).valid
      · simp [hv, hf] at hst
      · rfl
    have hp : ¬ (s0.bufTable i).pinCnt > 0 := by
      intro hp
      simp [hv, hf, hp] at hst
    have hw : (s0.bufTable i).dirty = true → o.write i = Status.OK := by
      intro hd
      by_contra hw
      simp [hv, hf, hp, hd, hw] at hst
    have hfl := flushFrame_flush s o i (by rw [hi]; exact hv) (by rw [hi]; exact hp)
      (by rw [hi]; exact hw)
    rw [hi, hf] at hfl
    obtain ⟨e0, e1, e2, e3, e4, e5, e6, e7, e8⟩ := hfl
    rw [h.bufPool] at e8
    refine ⟨e0, e1.trans h.numBufs, e2.trans h.bufPool, e3.trans h.clockHand,
      e4.trans h.bufStats, ?_, ?_, ?_, ?_, ?_⟩
    · intro j hj hvj hfj
      by_cases hji : j = i
      · subst hji
        exact e5
      · rw [e6 j hji]
        exact h.done j (by omega) hvj hfj
    · intro j hj
      have hji : j ≠ i := by
        rintro rfl
        exact hj ⟨Nat.lt_succ_self _, hv, hf⟩
      rw [e6 j hji]
      exact h.kept j (fun hh => hj ⟨by omega, hh.2⟩)
    · intro j hj hvj hfj
      rw [e7]
      by_cases hc : file = file ∧ (s0.bufTable j).pageNo = (s0.bufTable i).pageNo
      · rw [if_pos hc]
      · rw [if_neg hc]
        have hji : j ≠ i := by
          rintro rfl
          exact hc ⟨rfl, rfl⟩
        exact h.gone j (by omega) hvj hfj
    · intro f p hn
      rw [e7, if_neg]
      · exact h.index f p (fun hh => hn ⟨hh.1, by
          obtain ⟨j, hj, hr⟩ := hh.2
          exact ⟨j, by omega, hr⟩⟩)
      · rintro ⟨rfl, rfl⟩
        exact hn ⟨rfl, i, Nat.lt_succ_self _, hv, hf, rfl⟩
    · rw [e8, h.log, writesOf_succ, List.append_assoc]
      congr 1
      congr 1
      cases hd : (s0.bufTable i).dirty <;> simp [hv, hf, hd]
  · rw [flushFrame_skip s o file i (by rw [hi]; exact hf)]
    refine ⟨rfl, h.numBufs, h.bufPool, h.clockHand, h.bufStats, ?_, ?_, ?_, ?_, ?_⟩
    · intro j hj hvj hfj
      have hji : j ≠ i := by
        rintro rfl
        exact hf hfj
      exact h.done j (by omega) hvj hfj
    · intro j hj
      by_cases hji : j = i
      · subst hji
        exact hi
      · exact h.kept j (fun hh => hj ⟨by omega, hh.2⟩)
    · intro j hj hvj hfj
      have hji : j ≠ i := by
        rintro rfl
        exact hf hfj
      exact h.gone j (by omega) hvj hfj
    · intro f p hn
      exact h.index f p (fun hh => hn ⟨hh.1, by
        obtain ⟨j, hj, hr⟩ := hh.2
        exact ⟨j, by omega, hr⟩⟩)
    · rw [h.log, writesOf_succ]
      simp [hf]

/-- The status with which `flushStop` makes the loop return only depends on
the descriptor of the frame. -/
theorem flushStop_congr {s0 s : BufMgr} {o : Oracle} {file : FilePtr} {i : Nat}
    (h : FlushedTo s0 s file i) : s.flushStop o file i = s0.flushStop o file i := by
  have hi : s.bufTable i = s0.bufTable i := h.kept i (fun hh => absurd hh.1 (lt_irrefl i))
  unfold BufMgr.flushStop
  rw [hi]

/-- The `flushFile` loop in terms of the state it started from: it returns at
the first frame `k` for which `flushStop` gives a status, having flushed the
frames below `k`, or it flushes all frames and returns `OK`. -/
theorem flushLoop_spec (o : Oracle) (file : FilePtr) (s0 : BufMgr) :
    ∀ (n i : Nat) (s : BufMgr), FlushedTo s0 s file i →
      (∃ k st, i ≤ k ∧ k < i + n ∧ (∀ j, i ≤ j → j < k → s0.flushStop o file j = none) ∧
        s0.flushStop o file k = some st ∧ (BufMgr.flushLoop o file n i s).1 = st ∧
        ((s0.bufTable k).pinCnt > 0 → FlushedTo s0 (BufMgr.flushLoop o file n i s).2 file k)) ∨
      ((∀ j, i ≤ j → j < i + n → s0.flushStop o file j = none) ∧
        (BufMgr.flushLoop o file n i s).1 = Status.OK ∧
        FlushedTo s0 (BufMgr.flushLoop o file n i s).2 file (i + n)) := by
  intro n
  induction n with
  | zero =>
    intro i s h
    exact Or.inr ⟨fun j h1 h2 => absurd h2 (by omega), rfl, h⟩
  | succ n ih =>
    intro i s h
    have hi : s.bufTable i = s0.bufTable i := h.kept i (fun hh => absurd hh.1 (lt_irrefl i))
    cases hst : s0.flushStop o file i with
    | some st =>
      have h1 := flushFrame_fst s o file i
      rw [flushStop_congr h, hst] at h1
      have h2 := (flushFrame_stop s o file i st (by rw [flushStop_congr h]; exact hst)).2
      refine Or.inl ⟨i, st, le_refl _, by omega, fun j h3 h4 => absurd h4 (by omega), hst, ?_,
        fun hp => ?_⟩
      · rw [BufMgr.flushLoop]
        rcases hfr : s.flushFrame o file i with ⟨_ | st', s1⟩
        · rw [hfr] at h1
          exact Option.noConfusion h1
        · rw [hfr] at h1
          exact Option.some.inj h1
      · rw [BufMgr.flushLoop]
        have h3 := h2 (by rw [hi]; exact hp)
        rcases hfr : s.flushFrame o file i with ⟨_ | st', s1⟩
        · rw [hfr] at h1
          exact Option.noConfusion h1
        · rw [hfr] at h3
          show FlushedTo s0 s1 file i
          rw [show s1 = s from h3]
          exact h
    | none =>
      obtain ⟨h1, h2⟩ := flushedTo_step h hst
      have e : BufMgr.flushLoop o file (n + 1) i s =
          BufMgr.flushLoop o file n (i + 1) (s.flushFrame o file i).2 := by
        rw [BufMgr.flushLoop]
        rcases hfr : s.flushFrame o file i with ⟨_ | st', s1⟩
        · rfl
        · rw [hfr] at h1
          exact Option.noConfusion h1
      rw [e]
      have hidx : i + (n + 1) = i + 1 + n := by omega
      rw [hidx]
      rcases ih (i + 1) _ h2 with ⟨k, st, hk1, hk2, hk3, hk4, hk5, hk6⟩ | ⟨hk1, hk2, hk3⟩
      · refine Or.inl ⟨k, st, by omega, hk2, fun j hj1 hj2 => ?_, hk4, hk5, hk6⟩
        rcases Nat.eq_or_lt_of_le hj1 with rfl | hlt
        · exact hst
        · exact hk3 j hlt hj2
      · refine Or.inr ⟨fun j hj1 hj2 => ?_, hk2, hk3⟩
        rcases Nat.eq_or_lt_of_le hj1 with rfl | hlt
        · exact hst
        · exact hk1 j hlt hj2
/-- The `flushFile` loop passes a frame that satisfies the owner invariant, in
a pool flushed for a non-null file, unless the frame holds a pinned page of the file or its
write-back fails. -/
theorem flushStop_none (s : BufMgr) (o : Oracle) (file : FilePtr) (j : Nat)
    (hwf : (s.bufTable j).owned) (hf : file ≠ NULL)
    (hp : (s.bufTable j).valid = true → (s.bufTable j).file = file → ¬ (s.bufTable j).pinCnt > 0)
    (hw : (s.bufTable j).valid = true → (s.bufTable j).file = file →
      (s.bufTable j).dirty = true → o.write j = Status.OK) :
    s.flushStop o file j = none := by
  unfold BufMgr.flushStop
  by_cases hvf : (s.bufTable j).valid = true ∧ (s.bufTable j).file = file
  · rw [if_pos hvf, if_neg (hp hvf.1 hvf.2), if_neg]
    rintro ⟨hd, hne⟩
    exact hne (hw hvf.1 hvf.2 hd)
  · rw [if_neg hvf, if_neg]
    rintro ⟨hv, hfile⟩
    exact hf (hfile ▸ hwf.1 hv)

/-- C11: `flushFile` success.  In a reachable state, for a non-null `file` of
which no resident page is pinned and with every Page Store write succeeding,
`flushFile(file)` returns `OK`; afterwards no frame of the pool names `file`
(so none is valid with owning file `file` and no dirty frame references it),
the Page Index has no entry for `file`, the Page Store calls issued are
exactly the writes of the previously dirty frames of `file`, one per frame in
increasing frame number and with the frame's buffer content, and the frames
and Page Index entries of other files, the buffers, the hand and the counters
are unchanged. -/
theorem flushFile_success (s : BufMgr) (hs : Reachable s) (o : Oracle) (file : FilePtr)
    (hf : file ≠ NULL)
    (hpin : ∀ i, i < s.numBufs → (s.bufTable i).valid = true → (s.bufTable i).file = file →
      ¬ (s.bufTable i).pinCnt > 0)
    (hw : ∀ i, o.write i = Status.OK) :
    (s.flushFile o file).1 = Status.OK ∧
    (∀ i, i < s.numBufs → ((s.flushFile o file).2.bufTable i).file ≠ file) ∧
    (∀ i, i < s.numBufs → ¬ (((s.flushFile o file).2.bufTable i).valid = true ∧
      ((s.flushFile o file).2.bufTable i).file = file)) ∧
    (∀ i, i < s.numBufs → ¬ (((s.flushFile o file).2.bufTable i).dirty = true ∧
      ((s.flushFile o file).2.bufTable i).file = file)) ∧
    (∀ p, (s.flushFile o file).2.hashTable file p = none) ∧
    (s.flushFile o file).2.log =
      s.log ++ ((List.range s.numBufs).filter
          (fun i => (s.bufTable i).valid && decide ((s.bufTable i).file = file) &&
            (s.bufTable i).dirty)).map
        (fun i => StoreCall.writePage (s.bufTable i).file (s.bufTable i).pageNo (s.bufPool i)) ∧
    (∀ i, ¬ ((s.bufTable i).valid = true ∧ (s.bufTable i).file = file) →
      (s.flushFile o file).2.bufTable i = s.bufTable i) ∧
    (∀ f p, f ≠ file → (s.flushFile o file).2.hashTable f p = s.hashTable f p) ∧
    (s.flushFile o file).2.bufPool = s.bufPool ∧
    (s.flushFile o file).2.clockHand = s.clockHand ∧
    (s.flushFile o file).2.bufStats = s.bufStats := by
  have hI := reachable_consistent hs
  have hwf := reachable_owned hs
  have hnone : ∀ j, j < s.numBufs → s.flushStop o file j = none := fun j hj =>
    flushStop_none s o file j (hwf j) hf (hpin j hj) (fun _ _ _ => hw j)
  have hfile : ∀ i, i < s.numBufs → ∀ t, FlushedTo s t file s.numBufs →
      (t.bufTable i).file ≠ file := by
    intro i hi t ht
    by_cases hr : (s.bufTable i).valid = true ∧ (s.bufTable i).file = file
    · rw [ht.done i hi hr.1 hr.2]
      exact fun h => hf h.symm
    · rw [ht.kept i (fun hh => hr hh.2)]
      intro hfi
      cases hv : (s.bufTable i).valid
      · exact hf (hfi ▸ (hwf i).1 hv)
      · exact hr ⟨hv, hfi⟩
  rcases flushLoop_spec o file s s.numBufs 0 s (flushedTo_refl s file) with
    ⟨k, st, _, hk2, _, hk4, _⟩ | ⟨_, h2, h3⟩
  · rw [hnone k (by omega)] at hk4
    exact Option.noConfusion hk4
  · rw [Nat.zero_add] at h3
    have h3' : FlushedTo s (s.flushFile o file).2 file s.numBufs := h3
    refine ⟨h2, fun i hi => hfile i hi _ h3', fun i hi h => hfile i hi _ h3' h.2,
      fun i hi h => hfile i hi _ h3' h.2, fun p => ?_, h3'.log,
      fun i hi => h3'.kept i (fun hh => hi hh.2), fun f p hne => h3'.index f p (fun hh => hne hh.1),
      h3'.bufPool, h3'.clockHand, h3'.bufStats⟩
    by_cases hex : ∃ j, j < s.numBufs ∧ (s.bufTable j).valid = true ∧
        (s.bufTable j).file = file ∧ (s.bufTable j).pageNo = p
    · obtain ⟨j, hj, hv, hfj, rfl⟩ := hex
      exact h3'.gone j hj hv hfj
    · rw [h3'.index file p (fun hh => hex hh.2)]
      cases hk : s.hashTable file p with
      | none => rfl
      | some k =>
        obtain ⟨e1, e2, e3, e4⟩ := hI.entry file p k hk
        exact absurd ⟨k, e1, e2, e3, e4⟩ hex

/-- C12: `flushFile` is not atomic on a pinned page.  In a reachable state,
let `k` be the smallest frame that holds a pinned page of `file`, and let the
write-backs of the dirty frames of `file` below `k` succeed.  Then
`flushFile(file)` returns `PAGEPINNED`; every frame of `file` below `k` has
been flushed (its write-back issued if it was dirty, its mapping removed,
`valid = false`), the Page Store calls issued are exactly those write-backs,
and every frame from `k` on is unchanged and keeps its Page Index entries. -/
theorem flushFile_pinned (s : BufMgr) (hs : Reachable s) (o : Oracle) (file : FilePtr) (k : Nat)
    (hk : k < s.numBufs) (hkv : (s.bufTable k).valid = true) (hkf : (s.bufTable k).file = file)
    (hkp : (s.bufTable k).pinCnt > 0)
    (hmin : ∀ j, j < k → (s.bufTable j).valid = true → (s.bufTable j).file = file →
      ¬ (s.bufTable j).pinCnt > 0)
    (hw : ∀ j, j < k → (s.bufTable j).valid = true → (s.bufTable j).file = file →
      (s.bufTable j).dirty = true → o.write j = Status.OK) :
    (s.flushFile o file).1 = Status.PAGEPINNED ∧
    (∀ j, j < k → (s.bufTable j).valid = true → (s.bufTable j).file = file →
      (s.flushFile o file).2.bufTable j =
        { s.bufTable j with file := NULL, pageNo := -1, valid := false, dirty := false } ∧
      (s.flushFile o file).2.hashTable file (s.bufTable j).pageNo = none) ∧
    (s.flushFile o file).2.log =
      s.log ++ ((List.range k).filter
          (fun i => (s.bufTable i).valid && decide ((s.bufTable i).file = file) &&
            (s.bufTable i).dirty)).map
        (fun i => StoreCall.writePage (s.bufTable i).file (s.bufTable i).pageNo (s.bufPool i)) ∧
    (∀ j, k ≤ j → (s.flushFile o file).2.bufTable j = s.bufTable j ∧
      ∀ f p, (s.flushFile o file).2.hashTable f p = some j ↔ s.hashTable f p = some j) := by
  have hI := reachable_consistent hs
  have hwf := reachable_owned hs
  have hf : file ≠ NULL := hkf ▸ (hwf k).2 hkv
  have hnone : ∀ j, j < k → s.flushStop o file j = none := fun j hj =>
    flushStop_none s o file j (hwf j) hf (hmin j hj) (hw j hj)
  have hstop : s.flushStop o file k = some Status.PAGEPINNED := by
    unfold BufMgr.flushStop
    rw [if_pos ⟨hkv, hkf⟩, if_pos hkp]
  rcases flushLoop_spec o file s s.numBufs 0 s (flushedTo_refl s file) with
    ⟨k', st, _, hk2, hk3, hk4, hk5, hk6⟩ | ⟨h1, _, _⟩
  · obtain rfl : k' = k := by
      rcases Nat.lt_trichotomy k' k with hlt | heq | hgt
      · rw [hnone k' hlt] at hk4
        exact Option.noConfusion hk4
      · exact heq
      · rw [hk3 k (Nat.zero_le _) hgt] at hstop
        exact Option.noConfusion hstop
    rw [hstop] at hk4
    obtain rfl : Status.PAGEPINNED = st := Option.some.inj hk4
    have ht : FlushedTo s (s.flushFile o file).2 file k' := hk6 hkp
    refine ⟨hk5, fun j hj hv hfj => ⟨ht.done j hj hv hfj, ht.gone j hj hv hfj⟩, ht.log,
      fun j hj => ⟨ht.kept j (fun hh => absurd hh.1 (by omega)), fun f p => ?_⟩⟩
    by_cases hc : f = file ∧ ∃ j', j' < k' ∧ (s.bufTable j').valid = true ∧
        (s.bufTable j').file = file ∧ (s.bufTable j').pageNo = p
    · obtain ⟨rfl, j', hj', hv', hf', rfl⟩ := hc
      rw [ht.gone j' hj' hv' hf']
      have hm := hI.mapped j' (by omega) hv'
      rw [hf'] at hm
      rw [hm]
      constructor
      · intro h
        exact Option.noConfusion h
      · intro h
        have : j' = j := Option.some.inj h
        omega
    · rw [ht.index f p hc]
  · rw [h1 k (Nat.zero_le _) (by omega)] at hstop
    exact Option.noConfusion hstop

/-- C13, evaluated on the code: in the reachable pool `exOne` (one frame,
holding the unpinned page (1, 0) with its reference bit set) `flushFile(1)`
returns `OK` and leaves the frame invalid, unpinned, clean and without owning
file, but with `refbit = true`, which is not the state `Clear()` leaves; the
`readPage(1, 1)` that follows on the now empty pool returns `BUFFEREXCEEDED`,
the sweep giving the invalid frame a second chance. -/
theorem flushFile_keeps_refbit :
    Reachable exOne ∧ (exOne.bufTable 0).valid = true ∧ (exOne.bufTable 0).file = 1 ∧
    (exOne.flushFile okOracle 1).1 = Status.OK ∧
    ((exOne.flushFile okOracle 1).2.bufTable 0).valid = false ∧
    ((exOne.flushFile okOracle 1).2.bufTable 0).pinCnt = 0 ∧
    ((exOne.flushFile okOracle 1).2.bufTable 0).dirty = false ∧
    ((exOne.flushFile okOracle 1).2.bufTable 0).file = NULL ∧
    ((exOne.flushFile okOracle 1).2.bufTable 0).refbit = true ∧
    (exOne.flushFile okOracle 1).2.bufTable 0 ≠ (exOne.bufTable 0).Clear ∧
    ((exOne.flushFile okOracle 1).2.readPage okOracle 1 1).map (fun r => r.1) =
      some Status.BUFFEREXCEEDED :=
  ⟨reachable_exOne, by decide, by decide, by decide, by decide, by decide, by decide, by decide,
    by decide, by decide, by decide⟩

/-- C17: the `BADBUFFER` return of `flushFile` is unreachable.  In every
reachable state every frame with `valid = false` has no owning file, and
therefore `flushFile(file)` for a non-null `file` does not return `BADBUFFER`
(the Page Store being taken not to answer a write with that code of the
buffer manager). -/
theorem flushFile_never_badbuffer (s : BufMgr) (hs : Reachable s) :
    (∀ i, i < s.numBufs → (s.bufTable i).valid = false → (s.bufTable i).file = NULL) ∧
    (∀ (o : Oracle) (file : FilePtr), file ≠ NULL → (∀ i, o.write i ≠ Status.BADBUFFER) →
      (s.flushFile o file).1 ≠ Status.BADBUFFER) := by
  have hwf := reachable_owned hs
  refine ⟨fun i _ hv => (hwf i).1 hv, fun o file hf hw => ?_⟩
  rcases flushLoop_spec o file s s.numBufs 0 s (flushedTo_refl s file) with
    ⟨k, st, _, _, _, hk4, hk5, _⟩ | ⟨_, h2, _⟩
  · show (BufMgr.flushLoop o file s.numBufs 0 s).1 ≠ _
    rw [hk5]
    rintro rfl
    unfold BufMgr.flushStop at hk4
    by_cases hvf : (s.bufTable k).valid = true ∧ (s.bufTable k).file = file
    · rw [if_pos hvf] at hk4
      by_cases hp : (s.bufTable k).pinCnt > 0
      · rw [if_pos hp] at hk4
        exact Status.noConfusion (Option.some.inj hk4)
      · rw [if_neg hp] at hk4
        by_cases hd : (s.bufTable k).dirty = true ∧ o.write k ≠ Status.OK
        · rw [if_pos hd] at hk4
          exact hw k (Option.some.inj hk4)
        · rw [if_neg hd] at hk4
          exact Option.noConfusion hk4
    · rw [if_neg hvf] at hk4
      by_cases hb : (s.bufTable k).valid = false ∧ (s.bufTable k).file = file
      · exact hf (hb.2 ▸ (hwf k).1 hb.1)
      · rw [if_neg hb] at hk4
        exact Option.noConfusion hk4
  · show (BufMgr.flushLoop o file s.numBufs 0 s).1 ≠ _
    rw [h2]
    exact fun h => Status.noConfusion h
/-! ### A failed sweep -/

/-- More fuel does not change what the sweep loop returns. -/
theorem allocBufLoop_mono (o : Oracle) (start : Nat) :
    ∀ (fuel : Nat) (s : BufMgr) (r : Status × Option Nat × BufMgr),
      BufMgr.allocBufLoop o start fuel s = some r →
      ∀ fuel', fuel ≤ fuel' → BufMgr.allocBufLoop o start fuel' s = some r := by
  intro fuel
  induction fuel with
  | zero => intro s r h; simp [BufMgr.allocBufLoop] at h
  | succ n ih =>
    intro s r h fuel' hle
    obtain ⟨m, rfl⟩ : ∃ m, fuel' = m + 1 := ⟨fuel' - 1, by omega⟩
    rw [BufMgr.allocBufLoop] at h ⊢
    simp only [] at h ⊢
    by_cases hp : (s.advanceClock.bufTable s.advanceClock.clockHand).pinCnt > 0
    · rw [if_pos hp] at h ⊢
      by_cases hc : s.advanceClock.clockHand ≠ start
      · rw [if_pos hc] at h ⊢
        exact ih _ r h m (by omega)
      · rw [if_neg hc] at h ⊢
        exact h
    · rw [if_neg hp] at h ⊢
      by_cases hb : (s.advanceClock.bufTable s.advanceClock.clockHand).refbit = true
      · rw [if_pos hb] at h ⊢
        by_cases hc : (s.advanceClock.setDesc s.advanceClock.clockHand
            { s.advanceClock.bufTable s.advanceClock.clockHand with refbit := false }).clockHand
              ≠ start
        · rw [if_pos hc] at h ⊢
          exact ih _ r h m (by omega)
        · rw [if_neg hc] at h ⊢
          exact h
      · rw [if_neg hb] at h ⊢
        exact h

/-- A sweep over `r` frames none of which is replaceable needs `r` iterations:
with less fuel the loop does not return. -/
theorem allocBufLoop_short (o : Oracle) (start : Nat) :
    ∀ (fuel r : Nat) (s : BufMgr), fuel < r → r ≤ s.numBufs →
      (s.clockHand + r) % s.numBufs = start →
      (∀ j, 1 ≤ j → j ≤ r → ¬ (s.bufTable ((s.clockHand + j) % s.numBufs)).replaceable) →
      BufMgr.allocBufLoop o start fuel s = none := by
  intro fuel
  induction fuel with
  | zero => intro r s _ _ _ _; rfl
  | succ n ih =>
    intro r s hlt hr hstart hnr
    have hne : (s.clockHand + 1) % s.numBufs ≠ start := by
      rw [← hstart]
      exact mod_offset_ne _ 1 r _ (by omega) (by omega)
    have h1 := hnr 1 (le_refl 1) (by omega)
    rw [BufMgr.allocBufLoop]
    simp only []
    by_cases hp : (s.advanceClock.bufTable s.advanceClock.clockHand).pinCnt > 0
    · rw [if_pos hp, if_pos (show s.advanceClock.clockHand ≠ start from hne)]
      refine ih (r - 1) s.advanceClock (by omega) (by show r - 1 ≤ s.numBufs; omega) ?_ ?_
      · show ((s.clockHand + 1) % s.numBufs + (r - 1)) % s.numBufs = start
        rw [mod_succ_add, ← hstart]
        congr 2
        omega
      · intro j hj1 hj2
        show ¬ (s.bufTable (((s.clockHand + 1) % s.numBufs + j) % s.numBufs)).replaceable
        rw [mod_succ_add]
        exact hnr (j + 1) (by omega) (by omega)
    · by_cases hb : (s.advanceClock.bufTable s.advanceClock.clockHand).refbit = true
      · rw [if_neg hp, if_pos hb, if_pos (show (s.advanceClock.setDesc _ _).clockHand ≠ start
          from hne)]
        refine ih (r - 1) _ (by omega) (by show r - 1 ≤ s.numBufs; omega) ?_ ?_
        · show ((s.clockHand + 1) % s.numBufs + (r - 1)) % s.numBufs = start
          rw [mod_succ_add, ← hstart]
          congr 2
          omega
        · intro j hj1 hj2
          show ¬ ((s.advanceClock.setDesc _ _).bufTable
            (((s.clockHand + 1) % s.numBufs + j) % s.numBufs)).replaceable
          rw [mod_succ_add]
          have hji : (s.clockHand + (j + 1)) % s.numBufs ≠ s.advanceClock.clockHand :=
            (mod_offset_ne _ 1 (j + 1) _ (by omega) (by omega)).symm
          simp only [BufMgr.setDesc, if_neg hji]
          exact hnr (j + 1) (by omega) (by omega)
      · exact absurd ⟨hp, by simpa using hb⟩ h1

/-- With a replaceable frame in the pool, write-backs that succeed and every
valid frame registered in the Page Index, `allocBuf` returns `OK`. -/
theorem allocBuf_ok_of_replaceable (s : BufMgr) (o : Oracle) (hN : 1 ≤ s.numBufs)
    (hh : s.clockHand < s.numBufs) (i : Nat) (hi : i < s.numBufs)
    (hrep : (s.bufTable i).replaceable) (hw : ∀ j, o.write j = Status.OK)
    (hrm : ∀ k, k < s.numBufs → (s.bufTable k).valid = true →
      s.hashTable (s.bufTable k).file (s.bufTable k).pageNo ≠ none) :
    ∃ v s1, s.allocBuf o = some (Status.OK, some v, s1) := by
  rcases allocBuf_run s o hN hh with ⟨k, t, _, hto, hth, _, hsame, hl⟩ | ⟨t, hto, _, _⟩
  · rcases allocBufVictim_spec t o with ⟨s1, e1, _⟩ | ⟨st, s1, e1, hev⟩
    · exact ⟨t.clockHand, s1, hl.trans (congrArg some e1)⟩
    · exfalso
      rcases hev.cause with ⟨_, _, hwr, _⟩ | ⟨_, hnone⟩
      · exact hwr (hw _)
      · have hv := hev.valid
        rw [hsame] at hv hnone
        rw [hto.swept.hashTable] at hnone
        exact hrm t.clockHand (by rw [hth]; exact Nat.mod_lt _ hN) hv hnone
  · obtain ⟨j, h1, h2, rfl⟩ := exists_offset s.clockHand i s.numBufs hh hi
    exact absurd hrep (hto.skipped j h1 h2).1

/-- C20: a failed sweep is one complete pass.  In a pool of `N ≥ 1` frames
with the hand inside it, when `allocBuf` returns `BUFFEREXCEEDED`: the loop
ran exactly `N` iterations (it returns with `N` units of fuel and with none
less), so each of the `N` frames was examined once, and each was pinned or
had its reference bit set; the hand is back on its value before the call;
every frame with `pinCnt = 0` has `refbit = false`; and nothing else changed:
a descriptor is as before or is that of an unpinned frame with the reference
bit cleared, and size, buffers, Page Index, counters and Page Stores are as
before.  Consequently, if some frame has `pinCnt = 0`, an `allocBuf` call that
follows at once, with Page Store writes and Page Index removes succeeding,
returns `OK`. -/
theorem failed_sweep_single_pass (s : BufMgr) (o : Oracle) (out : Option Nat) (t : BufMgr)
    (hN : 1 ≤ s.numBufs) (hh : s.clockHand < s.numBufs)
    (h : s.allocBuf o = some (Status.BUFFEREXCEEDED, out, t)) :
    out = none ∧
    BufMgr.allocBufLoop o s.clockHand s.numBufs s = some (Status.BUFFEREXCEEDED, none, t) ∧
    (∀ fuel, fuel < s.numBufs → BufMgr.allocBufLoop o s.clockHand fuel s = none) ∧
    (∀ i, i < s.numBufs → (s.bufTable i).pinCnt > 0 ∨ (s.bufTable i).refbit = true) ∧
    t.clockHand = s.clockHand ∧
    (∀ i, i < s.numBufs → (s.bufTable i).pinCnt = 0 → (t.bufTable i).refbit = false) ∧
    (∀ i, t.bufTable i = s.bufTable i ∨
      (i < s.numBufs ∧ ¬ (s.bufTable i).pinCnt > 0 ∧
        t.bufTable i = { s.bufTable i with refbit := false })) ∧
    t.numBufs = s.numBufs ∧ t.bufPool = s.bufPool ∧ t.hashTable = s.hashTable ∧
    t.bufStats = s.bufStats ∧ t.disk = s.disk ∧ t.log = s.log ∧
    (∀ o2 : Oracle, (∃ i, i < s.numBufs ∧ (s.bufTable i).pinCnt = 0) →
      (∀ j, o2.write j = Status.OK) →
      (∀ k, k < s.numBufs → (s.bufTable k).valid = true →
        s.hashTable (s.bufTable k).file (s.bufTable k).pageNo ≠ none) →
      ∃ v s2, t.allocBuf o2 = some (Status.OK, some v, s2)) := by
  have hskip : ∀ t', SweptTo s t' s.numBufs →
      ∀ i, i < s.numBufs → ¬ (s.bufTable i).replaceable ∧
        (¬ (s.bufTable i).pinCnt > 0 → (t'.bufTable i).refbit = false) := by
    intro t' hto i hi
    obtain ⟨j, h1, h2, rfl⟩ := exists_offset s.clockHand i s.numBufs hh hi
    exact hto.skipped j h1 h2
  rcases allocBuf_run s o hN hh with ⟨_, t', _, _, _, _, _, hl⟩ | ⟨t', hto, hth, hl⟩
  · exfalso
    have e : t'.allocBufVictim o = (Status.BUFFEREXCEEDED, out, t) :=
      Option.some.inj (hl.symm.trans h)
    rcases allocBufVictim_spec t' o with ⟨r, e1, _⟩ | ⟨st, r, e1, hev⟩
    · rw [e1] at e
      simp at e
    · rw [e1] at e
      obtain ⟨rfl, -⟩ : st = Status.BUFFEREXCEEDED ∧ _ := by simpa using e
      rcases hev.cause with ⟨e2, _⟩ | ⟨e2, _⟩ <;> exact Status.noConfusion e2
  · obtain ⟨rfl, rfl⟩ : none = out ∧ t' = t := by
      have := Option.some.inj (hl.symm.trans h)
      simpa using this
    have hsw := hto.swept
    refine ⟨rfl, ?_, ?_, ?_, hth, ?_, hsw.table, hsw.numBufs, hsw.bufPool, hsw.hashTable,
      hsw.bufStats, hsw.disk, hsw.log, ?_⟩
    · rcases allocBufLoop_run o s.clockHand s.numBufs s.numBufs s hN (le_refl _) (le_refl _)
        (by rw [Nat.add_mod_right, Nat.mod_eq_of_lt hh]) with
        ⟨_, t'', _, _, _, _, _, hl2⟩ | ⟨t'', _, _, hl2⟩
      · exact hl2.trans
          ((allocBufLoop_mono o s.clockHand _ s _ hl2 (2 * s.numBufs) (by omega)).symm.trans hl)
      · exact hl2.trans
          ((allocBufLoop_mono o s.clockHand _ s _ hl2 (2 * s.numBufs) (by omega)).symm.trans hl)
    · intro fuel hf
      exact allocBufLoop_short o s.clockHand fuel s.numBufs s hf (le_refl _)
        (by rw [Nat.add_mod_right, Nat.mod_eq_of_lt hh])
        (fun j h1 h2 => (hto.skipped j h1 h2).1)
    · intro i hi
      have hnr := (hskip t' hto i hi).1
      by_cases hp : (s.bufTable i).pinCnt > 0
      · exact Or.inl hp
      · right
        cases hb : (s.bufTable i).refbit
        · exact absurd ⟨hp, hb⟩ hnr
        · rfl
    · intro i hi hp
      exact (hskip t' hto i hi).2 (by omega)
    · rintro o2 ⟨i, hi, hp⟩ hw hrm
      have hfld := hsw.fields
      refine allocBuf_ok_of_replaceable t' o2 (by rw [hsw.numBufs]; exact hN)
        (by rw [hsw.numBufs, hth]; exact hh) i (by rw [hsw.numBufs]; exact hi) ?_ hw ?_
      · exact ⟨by rw [(hfld i).2.2.2.1]; omega, (hskip t' hto i hi).2 (by omega)⟩
      · intro k hk hv
        rw [hsw.numBufs] at hk
        rw [(hfld k).2.2.2.2.2.1] at hv
        rw [(hfld k).1, (hfld k).2.1, hsw.hashTable]
        exact hrm k hk hv
/-! ### Instances -/

theorem reachable_exDirty2 : Reachable exDirty2 :=
  Reachable.unPinPage 1 0 true
    (Reachable.unPinPage 1 1 true
      (Reachable.writeBuf 0 66 (Reachable.writeBuf 1 55 reachable_exPinned2)))

theorem reachable_exHalf : Reachable exHalf :=
  Reachable.unPinPage 1 0 true (Reachable.writeBuf 0 66 reachable_exPinned2)

/-- Instance of C11: flushing file 1 in `exDirty2`, whose two frames hold the
unpinned dirty pages (1, 0) and (1, 1), writes both in frame order. -/
theorem flushFile_success_witness :
    (exDirty2.flushFile okOracle 1).1 = Status.OK ∧
    (exDirty2.flushFile okOracle 1).2.log =
      exDirty2.log ++ [StoreCall.writePage 1 0 66, StoreCall.writePage 1 1 55] ∧
    (∀ p, (exDirty2.flushFile okOracle 1).2.hashTable 1 p = none) :=
  ⟨(flushFile_success exDirty2 reachable_exDirty2 okOracle 1 (by decide) (by decide)
      (fun _ => rfl)).1,
    (flushFile_success exDirty2 reachable_exDirty2 okOracle 1 (by decide) (by decide)
      (fun _ => rfl)).2.2.2.2.2.1,
    (flushFile_success exDirty2 reachable_exDirty2 okOracle 1 (by decide) (by decide)
      (fun _ => rfl)).2.2.2.2.1⟩

/-- Instance of C12: in `exHalf` frame 1 is the first pinned frame of file 1;
`flushFile(1)` flushes the dirty frame 0 and returns `PAGEPINNED`. -/
theorem flushFile_pinned_witness :
    (exHalf.flushFile okOracle 1).1 = Status.PAGEPINNED ∧
    (exHalf.flushFile okOracle 1).2.log = exHalf.log ++ [StoreCall.writePage 1 0 66] ∧
    (exHalf.flushFile okOracle 1).2.bufTable 1 = exHalf.bufTable 1 :=
  ⟨(flushFile_pinned exHalf reachable_exHalf okOracle 1 1 (by decide) (by decide) (by decide)
      (by decide) (by decide) (fun _ _ _ _ _ => rfl)).1,
    (flushFile_pinned exHalf reachable_exHalf okOracle 1 1 (by decide) (by decide) (by decide)
      (by decide) (by decide) (fun _ _ _ _ _ => rfl)).2.2.1,
    ((flushFile_pinned exHalf reachable_exHalf okOracle 1 1 (by decide) (by decide) (by decide)
      (by decide) (by decide) (fun _ _ _ _ _ => rfl)).2.2.2 1 (le_refl 1)).1⟩

/-- Instance of C17: in the pool `exOne` after `flushFile(1)` the only frame is
invalid and has no owning file, and flushing file 1 again does not return
`BADBUFFER`. -/
theorem flushFile_never_badbuffer_witness :
    ((exOne.flushFile okOracle 1).2.bufTable 0).file = NULL ∧
    ((exOne.flushFile okOracle 1).2.flushFile okOracle 1).1 ≠ Status.BADBUFFER :=
  ⟨(flushFile_never_badbuffer (exOne.flushFile okOracle 1).2
      (Reachable.flushFile okOracle 1 reachable_exOne)).1 0 (by decide) (by decide),
    (flushFile_never_badbuffer (exOne.flushFile okOracle 1).2
      (Reachable.flushFile okOracle 1 reachable_exOne)).2 okOracle 1 (by decide)
      (fun _ h => Status.noConfusion (show Status.OK = Status.BADBUFFER from h))⟩

/-- Instance of C20: in `exReleased` (frame 0 pinned, frame 1 unpinned with its
reference bit set) the sweep fails after one pass and the next one succeeds. -/
theorem failed_sweep_single_pass_witness :
    (stateOf (exReleased.allocBuf okOracle) exReleased).clockHand = exReleased.clockHand ∧
    (∀ i, i < exReleased.numBufs → (exReleased.bufTable i).pinCnt = 0 →
      ((stateOf (exReleased.allocBuf okOracle) exReleased).bufTable i).refbit = false) ∧
    ∃ v s2, (stateOf (exReleased.allocBuf okOracle) exReleased).allocBuf okOracle =
      some (Status.OK, some v, s2) :=
  ⟨(failed_sweep_single_pass exReleased okOracle none
      (stateOf (exReleased.allocBuf okOracle) exReleased) (by decide) (by decide)
      rfl).2.2.2.2.1,
    (failed_sweep_single_pass exReleased okOracle none
      (stateOf (exReleased.allocBuf okOracle) exReleased) (by decide) (by decide)
      rfl).2.2.2.2.2.1,
    (failed_sweep_single_pass exReleased okOracle none
      (stateOf (exReleased.allocBuf okOracle) exReleased) (by decide) (by decide)
      rfl).2.2.2.2.2.2.2.2.2.2.2.2.2 okOracle ⟨1, by decide, by decide⟩ (fun _ => rfl)
      (by decide)⟩

end BufMgrModel
